import Mathlib

/-!
Software-renderer texture adapter (r_swtexture.cpp).

A shallow embedding of `FSoftwareTexture` from `src/swrenderer/textures/r_swtexture.cpp`:
the geometric descriptor (`CalcBitSize`), the column accessor (`GetColumn`, `GetColumnBgra`),
the span builder (`CreateSpans`), the transposition loop of `GenerateBgraFromBitmap`,
`MipmapLevels`, the mipmap buffer (`CreatePixelsBgraWithMipmaps`), the two mipmap generators
(`GenerateBgraMipmapsFast`, `GenerateBgraMipmaps`) and the cache of the indexed buffer and
of the span tables (`GetPixels`, `GetColumn` with spans, `FreeAllSpans`).

Conventions of the embedding.

* `GetWidth()`, `GetHeight()` and the loop counters are C++ `int`s; they are embedded as natural
  numbers and `1 << i`, `v >> i` as `1 <<< i`, `v >>> i` on naturals.  The embedded arithmetic
  coincides with the 32-bit arithmetic of the source as long as no intermediate value leaves
  the range of `int`, i.e. for dimensions up to `2^30` and buffers of fewer than `2^30` cells.
* A pointer into a buffer is the index of the cell it points at.  A buffer that is only read
  (`pixels`) is a function from indices to cells; a buffer that is written is a list of cells,
  and a write outside of the list makes the operation fail (`none`).
* A freshly allocated span record is `none` until the fill pass has stored into it.
* A `while`/`for` loop whose trip count is not a counter of the loop carries an iteration
  budget; running out of budget is `none`.
* Floating-point arithmetic is not embedded: the colour type of `GenerateBgraMipmaps` and its
  operations are parameters, and what is embedded is which cells the function reads and
  writes.
* Functions declared outside of this file (`CheckModified`, `Get8BitPixels`,
  `CreateTexBuffer`, `RGBToPalette`) are parameters.
-/

namespace FSoftwareTexture

/-! ## Data model -/

/-- Modelled from the spec: the record `FSoftwareTextureSpan` is declared in `r_swtexture.h`,
which is not part of the sources; per the data model a span is a pair of a non-negative row
`TopOffset` and a count `Length` of rows. -/
structure FSoftwareTextureSpan where
  TopOffset : Nat
  Length : Nat
deriving DecidableEq

/-- The terminator record `Span{0,0}` that the code stores after the spans of a column. -/
def terminator : FSoftwareTextureSpan := { TopOffset := 0, Length := 0 }

/-- Memory of span records behind the column table (`&spans[numcols]`); `none` is a record
that was allocated and not yet written. -/
abbrev SpanMem := List (Option FSoftwareTextureSpan)

/-- Result of `CreateSpans`: the column table `spans[x]` (as the index of the record the
entry points at) and the span records that follow the table in the same allocation. -/
structure SpanTable where
  spans : List Nat
  mem : SpanMem
deriving DecidableEq

/-- Source `isTranslucent(uint8_t val)`: `val == 0`. -/
def isTranslucent_uint8 (val : Nat) : Bool := val == 0

/-- Source `isTranslucent(uint32_t val)`: `(val & 0xff000000) == 0`. -/
def isTranslucent_uint32 (val : Nat) : Bool := (val &&& 0xff000000) == 0

/-! ## CreateSpans -/

/-- Store a whole record at `mem[i]` (`span->TopOffset = ...; span->Length = ...`). -/
def storeSpan (mem : SpanMem) (i : Nat) (v : FSoftwareTextureSpan) : Option SpanMem :=
  if i < mem.length then some (mem.set i (some v)) else none

/-- The statement `span->Length++`: reads the record at `mem[i]`, which must have been written. -/
def incLength (mem : SpanMem) (i : Nat) : Option SpanMem :=
  match mem[i]? with
  | some (some r) => some (mem.set i (some { TopOffset := r.TopOffset, Length := r.Length + 1 }))
  | _ => none

/-- State of the count pass (lines 260-282). -/
structure CountState where
  numspans : Nat
  newspan : Bool
  data_p : Nat
deriving DecidableEq

/-- Body of the inner loop of the count pass (lines 269-280). -/
def countRow {T : Type} (isTranslucent : T → Bool) (pixels : Nat → T) (s : CountState) :
    CountState :=
  if isTranslucent (pixels s.data_p) then
    if !s.newspan then
      { numspans := s.numspans, newspan := true, data_p := s.data_p + 1 }
    else
      { numspans := s.numspans, newspan := s.newspan, data_p := s.data_p + 1 }
  else if s.newspan then
    { numspans := s.numspans + 1, newspan := false, data_p := s.data_p + 1 }
  else
    { numspans := s.numspans, newspan := s.newspan, data_p := s.data_p + 1 }

/-- Inner loop of the count pass, `for (y = numrows; y > 0; --y)`. -/
def countColumn {T : Type} (isTranslucent : T → Bool) (pixels : Nat → T) :
    Nat → CountState → CountState
  | 0, s => s
  | y + 1, s => countColumn isTranslucent pixels y (countRow isTranslucent pixels s)

/-- Outer loop of the count pass, `for (x = numcols; x > 0; --x)`. -/
def countPass {T : Type} (isTranslucent : T → Bool) (pixels : Nat → T) (numrows : Nat) :
    Nat → CountState → CountState
  | 0, s => s
  | x + 1, s =>
    countPass isTranslucent pixels numrows x
      (countColumn isTranslucent pixels numrows
        { numspans := s.numspans, newspan := true, data_p := s.data_p })

/-- State of the fill pass (lines 288-323): the column table written so far, the span
records, the pointer `span`, the flag `newspan` and the read pointer `data_p`. -/
structure FillState where
  table : List Nat
  mem : SpanMem
  span : Nat
  newspan : Bool
  data_p : Nat
deriving DecidableEq

/-- Body of the inner loop of the fill pass (lines 294-314) at row `y`. -/
def fillRow {T : Type} (isTranslucent : T → Bool) (pixels : Nat → T) (y : Nat) (s : FillState) :
    Option FillState :=
  if isTranslucent (pixels s.data_p) then
    if !s.newspan then
      some { table := s.table, mem := s.mem, span := s.span + 1, newspan := true,
             data_p := s.data_p + 1 }
    else
      some { table := s.table, mem := s.mem, span := s.span, newspan := s.newspan,
             data_p := s.data_p + 1 }
  else if s.newspan then
    (storeSpan s.mem s.span { TopOffset := y, Length := 1 }).map fun m =>
      { table := s.table, mem := m, span := s.span, newspan := false, data_p := s.data_p + 1 }
  else
    (incLength s.mem s.span).map fun m =>
      { table := s.table, mem := m, span := s.span, newspan := s.newspan,
        data_p := s.data_p + 1 }

/-- Inner loop of the fill pass, `for (y = 0; y < numrows; ++y)`; the first argument is the
number `numrows - y` of iterations that remain. -/
def fillRows {T : Type} (isTranslucent : T → Bool) (pixels : Nat → T) :
    Nat → Nat → FillState → Option FillState
  | 0, _, s => some s
  | n + 1, y, s =>
    (fillRow isTranslucent pixels y s).bind (fillRows isTranslucent pixels n (y + 1))

/-- End of a column in the fill pass (lines 316-322): close the open span, store the
terminator and step past it. -/
def fillEnd (s : FillState) : Option FillState :=
  let span1 := if !s.newspan then s.span + 1 else s.span
  (storeSpan s.mem span1 { TopOffset := 0, Length := 0 }).map fun m =>
    { table := s.table, mem := m, span := span1 + 1, newspan := s.newspan, data_p := s.data_p }

/-- One iteration of the outer loop of the fill pass (lines 290-322): `newspan = true;
spans[x] = span;` then the rows of the column, then the terminator.  The column table is
written in increasing `x`, so `spans[x] = span` appends to the entries written so far. -/
def fillColumn {T : Type} (isTranslucent : T → Bool) (pixels : Nat → T) (numrows : Nat)
    (s : FillState) : Option FillState :=
  (fillRows isTranslucent pixels numrows 0
    { table := s.table ++ [s.span], mem := s.mem, span := s.span, newspan := true,
      data_p := s.data_p }).bind fillEnd

/-- Outer loop of the fill pass, `for (x = 0; x < numcols; ++x)`; the argument is the number
of columns that remain. -/
def fillPass {T : Type} (isTranslucent : T → Bool) (pixels : Nat → T) (numrows : Nat) :
    Nat → FillState → Option FillState
  | 0, s => some s
  | n + 1, s =>
    (fillColumn isTranslucent pixels numrows s).bind (fillPass isTranslucent pixels numrows n)

/-- The value of `numspans` after the count pass (lines 253-282): it starts at `numcols`. -/
def countSpans {T : Type} (isTranslucent : T → Bool) (width height : Nat) (pixels : Nat → T) :
    Nat :=
  (countPass isTranslucent pixels height width
    { numspans := width, newspan := true, data_p := 0 }).numspans

/-- The fill pass run on a block of `numspans` freshly allocated records (lines 285-323). -/
def fillSpans {T : Type} (isTranslucent : T → Bool) (width height : Nat) (pixels : Nat → T)
    (numspans : Nat) : Option FillState :=
  fillPass isTranslucent pixels height width
    { table := [], mem := List.replicate numspans none, span := 0, newspan := true, data_p := 0 }

/-- The loop `for (int x = 0; x < GetWidth(); ++x) spans[x] = span;` of the unmasked branch
(lines 242-245), where `span` is the record with index `span`; the first argument is the
number of columns that remain. -/
def fillSharedTable (span : Nat) : Nat → List Nat → List Nat
  | 0, table => table
  | n + 1, table => fillSharedTable span n (table ++ [span])

/-- Source `FSoftwareTexture::CreateSpans` (lines 233-326).  `isMasked` is
`mTexture->isMasked()`, `width` and `height` are `GetWidth()` and `GetHeight()`. -/
def CreateSpans {T : Type} (isTranslucent : T → Bool) (isMasked : Bool) (width height : Nat)
    (pixels : Nat → T) : Option SpanTable :=
  if !isMasked then
    -- two records behind the table; every entry points at the first
    let spans := fillSharedTable 0 width []
    (storeSpan (List.replicate 2 none) 0 { TopOffset := 0, Length := height }).bind fun m =>
      (storeSpan m 1 { TopOffset := 0, Length := 0 }).map fun m1 =>
        { spans := spans, mem := m1 }
  else
    (fillSpans isTranslucent width height pixels
      (countSpans isTranslucent width height pixels)).map fun s =>
        { spans := s.table, mem := s.mem }

/-- Modelled from the spec: the consumer of a column's span list is not part of the sources;
per the data model a column's list is the sequence of records from the table entry up to and
including the first sentinel `Span{0,0}`.  The first argument bounds the records read. -/
def readSpans (mem : SpanMem) : Nat → Nat → Option (List FSoftwareTextureSpan)
  | 0, _ => none
  | fuel + 1, i =>
    match mem[i]? with
    | some (some r) =>
      if r = terminator then some [r] else (readSpans mem fuel (i + 1)).map fun l => r :: l
    | _ => none

/-- The span list of column `x` of a span table (read through `spans[x]`). -/
def columnSpans (t : SpanTable) (x : Nat) : Option (List FSoftwareTextureSpan) :=
  match t.spans[x]? with
  | some p => readSpans t.mem t.mem.length p
  | none => none


/-! ## Runs of a column (proof device)

`scanRuns f n y cur` lists the spans that the fill pass emits for the rows `y, ..., y+n-1`
of a column whose translucency flags are `f`, when the span `cur` is open (`newspan == false`)
on entry. -/

/-- The open span after an opaque row `y`. -/
def extendRun (y : Nat) : Option FSoftwareTextureSpan → FSoftwareTextureSpan
  | none => { TopOffset := y, Length := 1 }
  | some r => { TopOffset := r.TopOffset, Length := r.Length + 1 }

/-- Spans emitted for `n` rows starting at row `y` with `cur` open. -/
def scanRuns (f : Nat → Bool) : Nat → Nat → Option FSoftwareTextureSpan →
    List FSoftwareTextureSpan
  | 0, _, cur => cur.toList
  | n + 1, y, cur =>
    if f y then cur.toList ++ scanRuns f n (y + 1) none
    else scanRuns f n (y + 1) (some (extendRun y cur))

/-- Translucency flags of column `x`: row `y` is read at `pixels[x * height + y]`. -/
def columnFlags {T : Type} (isTranslucent : T → Bool) (pixels : Nat → T) (height x : Nat) :
    Nat → Bool :=
  fun y => isTranslucent (pixels (x * height + y))

/-- The opaque runs of column `x`, top to bottom. -/
def columnRuns {T : Type} (isTranslucent : T → Bool) (pixels : Nat → T) (height x : Nat) :
    List FSoftwareTextureSpan :=
  scanRuns (columnFlags isTranslucent pixels height x) height 0 none

/-- Records of the columns `x, ..., x+n-1`: the runs of each column and its terminator. -/
def blockRecords {T : Type} (isTranslucent : T → Bool) (pixels : Nat → T) (height : Nat) :
    Nat → Nat → List FSoftwareTextureSpan
  | 0, _ => []
  | n + 1, x =>
    columnRuns isTranslucent pixels height x ++ terminator ::
      blockRecords isTranslucent pixels height n (x + 1)

/-- Table entries of the columns `x, ..., x+n-1` when column `x` starts at record `p`. -/
def blockOffsets {T : Type} (isTranslucent : T → Bool) (pixels : Nat → T) (height : Nat) :
    Nat → Nat → Nat → List Nat
  | 0, _, _ => []
  | n + 1, x, p =>
    p :: blockOffsets isTranslucent pixels height n (x + 1)
      (p + (columnRuns isTranslucent pixels height x).length + 1)

/-- Invariant of the scan at row `y`: an open span ends just above row `y`, is not empty and
starts at row 0 or below a translucent row; with no open span, row `y` is row 0 or lies
below a translucent row. -/
def RunInv (f : Nat → Bool) (y : Nat) : Option FSoftwareTextureSpan → Prop
  | none => y = 0 ∨ f (y - 1) = true
  | some r => r.TopOffset + r.Length = y ∧ 1 ≤ r.Length ∧
      (r.TopOffset = 0 ∨ f (r.TopOffset - 1) = true)

/-- Row `y` starts a maximal opaque run of a column with translucency flags `f`: it is opaque
and it is row 0 or the row above it is translucent. -/
def runStart (f : Nat → Bool) (y : Nat) : Bool := !f y && (y == 0 || f (y - 1))

/-- Number of maximal opaque runs among the rows `0, ..., h-1` of a column with translucency
flags `f`. -/
def numRuns (f : Nat → Bool) (h : Nat) : Nat := (List.range h).countP (runStart f)

/-- Number of maximal opaque runs in the columns `0, ..., x-1` of a buffer. -/
def runsBefore {T : Type} (isTranslucent : T → Bool) (pixels : Nat → T) (height x : Nat) : Nat :=
  ((List.range x).map fun c => numRuns (columnFlags isTranslucent pixels height c) height).sum

/-! ## CalcBitSize and the column accessor -/

/-- The loop `for (i = 0; (1 << i) < target; ++i) { }` of `CalcBitSize` (lines 86 and 102),
started at `i`; the first argument is the iteration budget. -/
def bitLoop (target : Nat) : Nat → Nat → Option Nat
  | 0, _ => none
  | fuel + 1, i => if 1 <<< i < target then bitLoop target fuel (i + 1) else some i

/-- The fields of the texture that `CalcBitSize` assigns. -/
structure BitSize where
  WidthBits : Nat
  WidthMask : Nat
  HeightBits : Nat
deriving DecidableEq

/-- Source `FSoftwareTexture::CalcBitSize` (lines 81-106) for `GetWidth() = width` and
`GetHeight() = height`.  The decrement `WidthBits--` of a `WidthBits` that is 0 would make the
shift `1 << WidthBits` undefined and is `none`. -/
def CalcBitSize (width height : Nat) : Option BitSize :=
  (bitLoop width (width + 1) 0).bind fun i =>
    (if width < 1 <<< i then (if i = 0 then none else some (i - 1)) else some i).bind
      fun WidthBits =>
        (bitLoop height (height + 1) 0).map fun j =>
          { WidthBits := WidthBits, WidthMask := (1 <<< WidthBits) - 1, HeightBits := j }

/-- The normalisation of `column` at the head of `GetColumn` and `GetColumnBgra`
(lines 164-174 and 195-205). -/
def wrapColumn (width WidthMask column : Nat) : Nat :=
  if column ≥ width then
    if WidthMask + 1 = width then column &&& WidthMask else column % width
  else column

/-- Source `FSoftwareTexture::GetColumn` (lines 161-184), as the pair of the column index
used for `Spandata[index][column]` and the offset `column * GetHeight()` of the returned
pointer into the pixel buffer. -/
def GetColumn (width height WidthMask column : Nat) : Nat × Nat :=
  (wrapColumn width WidthMask column, wrapColumn width WidthMask column * height)

/-- Source `FSoftwareTexture::GetColumnBgra` (lines 192-215), as the pair of the column index
used for `Spandata[2][column]` and the offset `column * GetHeight()` of the returned pointer
into the true-colour buffer. -/
def GetColumnBgra (width height WidthMask column : Nat) : Nat × Nat :=
  (wrapColumn width WidthMask column, wrapColumn width WidthMask column * height)

/-! ## Transposition loop of GenerateBgraFromBitmap -/

/-- State of the transposition loop: the destination buffer `PixelsBgra` and, as
instrumentation, the indices of the destination written so far, in order. -/
structure TransposeState (α : Type) where
  dest : List α
  writes : List Nat
deriving DecidableEq

/-- The assignment `dest[y + x * GetHeight()] = src[x + y * GetWidth()]` (line 350). -/
def transposeCell {α : Type} (src : Nat → α) (w h x y : Nat) (s : TransposeState α) :
    Option (TransposeState α) :=
  if y + x * h < s.dest.length then
    some { dest := s.dest.set (y + x * h) (src (x + y * w)), writes := s.writes ++ [y + x * h] }
  else none

/-- Inner loop `for (int y = 0; y < GetHeight(); y++)` (line 348); the first argument is the
number of rows that remain. -/
def transposeColumn {α : Type} (src : Nat → α) (w h x : Nat) :
    Nat → Nat → TransposeState α → Option (TransposeState α)
  | 0, _, s => some s
  | n + 1, y, s => (transposeCell src w h x y s).bind (transposeColumn src w h x n (y + 1))

/-- Outer loop `for (int x = 0; x < GetWidth(); x++)` (line 346); the first argument is the
number of columns that remain. -/
def transposeColumns {α : Type} (src : Nat → α) (w h : Nat) :
    Nat → Nat → TransposeState α → Option (TransposeState α)
  | 0, _, s => some s
  | n + 1, x, s =>
    (transposeColumn src w h x h 0 s).bind (transposeColumns src w h n (x + 1))

/-- The transposition loop of `GenerateBgraFromBitmap` (lines 344-352) from the row-major
bitmap `src` into the buffer `dest`. -/
def transposeBitmap {α : Type} (src : Nat → α) (w h : Nat) (dest : List α) :
    Option (TransposeState α) :=
  transposeColumns src w h w 0 { dest := dest, writes := [] }

/-- Modelled from the spec: the index of the column-major buffer that holds cell `i` of the
row-major buffer.  The way back is not part of the sources; per the stated index formulas,
cell `x + y*w` of the row-major buffer is cell `y + x*h` of the column-major one. -/
def untransposeIndex (w h i : Nat) : Nat := i / w + (i % w) * h

/-- Modelled from the spec: the row-major `w x h` buffer read back from a column-major
buffer. -/
def untranspose {α : Type} (w h : Nat) (colmajor : List α) : List α :=
  (List.range (w * h)).filterMap fun i => colmajor[untransposeIndex w h i]?

/-! ## MipmapLevels -/

/-- The loop `while ((v >> bits) != 0) bits++;` of `MipmapLevels` (lines 373 and 376); the
first argument is the iteration budget. -/
def shiftLoop (v : Nat) : Nat → Nat → Option Nat
  | 0, _ => none
  | fuel + 1, bits => if v >>> bits ≠ 0 then shiftLoop v fuel (bits + 1) else some bits

/-- Source `FSoftwareTexture::MipmapLevels` (lines 370-379). -/
def MipmapLevels (width height : Nat) : Option Nat :=
  (shiftLoop width (width + 1) 0).bind fun widthbits =>
    (shiftLoop height (height + 1) 0).map fun heightbits => max widthbits heightbits

/-- The number of right-shifts by one that bring `n` to zero (the wording of the spec for the
level count); the first argument bounds the number of shifts. -/
def shiftsUntilZeroAux : Nat → Nat → Nat
  | 0, _ => 0
  | fuel + 1, n => if n = 0 then 0 else shiftsUntilZeroAux fuel (n >>> 1) + 1

/-- The number of right-shifts by one that bring `n` to zero; `n` shifts always suffice. -/
def shiftsUntilZero (n : Nat) : Nat := shiftsUntilZeroAux n n

/-- Cells that the transposition loop writes for the columns `x, ..., x+n-1`, in the order
of the writes (proof device). -/
def transposedCells {α : Type} (src : Nat → α) (w h : Nat) : Nat → Nat → List α
  | 0, _ => []
  | n + 1, x =>
    (List.range' 0 h).map (fun y => src (x + y * w)) ++ transposedCells src w h n (x + 1)

/-! ## Loops with a counter -/

/-- The loop `for (k = start; k < start + n; ++k) body(k)`: `n` is the number of iterations
that remain, `k` the counter, and an iteration that fails makes the loop fail. -/
def forLoop {σ : Type} (body : Nat → σ → Option σ) : Nat → Nat → σ → Option σ
  | 0, _, s => some s
  | n + 1, k, s => (body k s).bind (forLoop body n (k + 1))

/-! ## CreatePixelsBgraWithMipmaps -/

/-- Width of mip level `i`: `MAX(GetWidth() >> i, 1)` (lines 363, 429, 431, 492, 521, 523). -/
def levelWidth (width i : Nat) : Nat := max (width >>> i) 1

/-- Height of mip level `i`: `MAX(GetHeight() >> i, 1)` (lines 364, 430, 432, 493, 522, 524). -/
def levelHeight (height i : Nat) : Nat := max (height >>> i) 1

/-- The value of `buffersize` after the loop of `CreatePixelsBgraWithMipmaps`
(lines 359-366). -/
def mipBufferSize (width height : Nat) : Option Nat :=
  (MipmapLevels width height).bind fun levels =>
    forLoop (fun i buffersize => some (buffersize + levelWidth width i * levelHeight height i))
      levels 0 0

/-- The call `TArray::Resize(amount)`: the first `amount` cells are kept and the buffer is
extended to `amount` cells.  The content of the new cells is not fixed by the sources (the
container is declared elsewhere); they are taken as 0. -/
def resizeBuffer (buffer : List Nat) (amount : Nat) : List Nat :=
  buffer.take amount ++ List.replicate (amount - buffer.length) 0

/-- Source `FSoftwareTexture::CreatePixelsBgraWithMipmaps` (lines 357-368): the new value of
`PixelsBgra`. -/
def CreatePixelsBgraWithMipmaps (width height : Nat) (PixelsBgra : List Nat) :
    Option (List Nat) :=
  (mipBufferSize width height).map fun buffersize => resizeBuffer PixelsBgra buffersize

/-- Offset of mip level `i` in the flat buffer: the sum of the sizes of the levels before
it. -/
def levelOffset (width height i : Nat) : Nat :=
  ((List.range i).map fun j => levelWidth width j * levelHeight height j).sum

/-! ## Sharpen pass of GenerateBgraMipmaps: the sample indices -/

/-- The wrap `if (a < 0) a = h - 1; if (a == h) a = 0;` of a sample coordinate
(lines 466-469). -/
def wrapCoord (a dim : Int) : Int :=
  let a1 := if a < 0 then dim - 1 else a
  if a1 = dim then 0 else a1

/-- The index `a + b * h` of the sample `(kx, ky)` of the 3x3 kernel at the output pixel
`(x, y)` of a level of dimensions `w x h` (lines 464-470). -/
def sharpenIndex (w h x y : Nat) (kx ky : Int) : Int :=
  let a := wrapCoord ((y : Int) + ky) (h : Int)
  let b := wrapCoord ((x : Int) + kx) (w : Int)
  a + b * (h : Int)

/-! ## GenerateBgraMipmapsFast -/

/-- Modelled from the spec: the channel macros are declared outside the sources; a
true-colour pixel is a 32-bit ARGB value whose top byte is the alpha byte (the byte that
`isTranslucent` tests) and whose channels are packed as in line 546.  Alpha channel. -/
def APART (c : Nat) : Nat := (c >>> 24) &&& 0xff

/-- Modelled from the spec: red channel of a 32-bit ARGB pixel (macro `RPART`, declared
outside the sources). -/
def RPART (c : Nat) : Nat := (c >>> 16) &&& 0xff

/-- Modelled from the spec: green channel of a 32-bit ARGB pixel (macro `GPART`, declared
outside the sources). -/
def GPART (c : Nat) : Nat := (c >>> 8) &&& 0xff

/-- Modelled from the spec: blue channel of a 32-bit ARGB pixel (macro `BPART`, declared
outside the sources). -/
def BPART (c : Nat) : Nat := c &&& 0xff

/-- The pixel that `GenerateBgraMipmapsFast` stores for the four samples (lines 541-546). -/
def averageFast (src00 src01 src10 src11 : Nat) : Nat :=
  let alpha := (APART src00 + APART src01 + APART src10 + APART src11 + 2) / 4
  let red := (RPART src00 + RPART src01 + RPART src10 + RPART src11 + 2) / 4
  let green := (GPART src00 + GPART src01 + GPART src10 + GPART src11 + 2) / 4
  let blue := (BPART src00 + BPART src01 + BPART src10 + BPART src11 + 2) / 4
  (alpha <<< 24) ||| (red <<< 16) ||| (green <<< 8) ||| blue

/-- The low sample coordinate `x * 2` (lines 437, 441, 528, 533). -/
def sampleLow (x : Nat) : Nat := x * 2

/-- The high sample coordinate `MIN((x + 1) * 2, srcw - 1)` (lines 438, 442, 529, 534). -/
def sampleHigh (x srcdim : Nat) : Nat := min ((x + 1) * 2) (srcdim - 1)

/-- Instrumentation of `GenerateBgraMipmapsFast`: one record per output pixel, with the
level, the pixel, the indices of `PixelsBgra` read for `src00, src01, src10, src11`, the
values read, the index written and the value written. -/
structure FastTrace where
  level : Nat
  x : Nat
  y : Nat
  reads : List Nat
  samples : List Nat
  write : Nat
  value : Nat
deriving DecidableEq

/-- State of `GenerateBgraMipmapsFast`: the buffer, the pointers `src` and `dest` (as
indices into the buffer) and the instrumentation. -/
structure FastState where
  PixelsBgra : List Nat
  src : Nat
  dest : Nat
  trace : List FastTrace
deriving DecidableEq

/-- Body of the loops of `GenerateBgraMipmapsFast` at level `i` and output pixel `(x, y)`
(lines 528-546).  A read or a write outside of the buffer fails. -/
def fastPixel (i srcw srch h x y : Nat) (s : FastState) : Option FastState :=
  let sx0 := sampleLow x
  let sx1 := sampleHigh x srcw
  let sy0 := sampleLow y
  let sy1 := sampleHigh y srch
  match s.PixelsBgra[s.src + (sy0 + sx0 * srch)]?, s.PixelsBgra[s.src + (sy1 + sx0 * srch)]?,
      s.PixelsBgra[s.src + (sy0 + sx1 * srch)]?, s.PixelsBgra[s.src + (sy1 + sx1 * srch)]? with
  | some src00, some src01, some src10, some src11 =>
    if s.dest + (y + x * h) < s.PixelsBgra.length then
      some { PixelsBgra := s.PixelsBgra.set (s.dest + (y + x * h))
                             (averageFast src00 src01 src10 src11),
             src := s.src, dest := s.dest,
             trace := s.trace ++ [{ level := i, x := x, y := y,
                                    reads := [s.src + (sy0 + sx0 * srch),
                                              s.src + (sy1 + sx0 * srch),
                                              s.src + (sy0 + sx1 * srch),
                                              s.src + (sy1 + sx1 * srch)],
                                    samples := [src00, src01, src10, src11],
                                    write := s.dest + (y + x * h),
                                    value := averageFast src00 src01 src10 src11 }] }
    else none
  | _, _, _, _ => none

/-- Body of the loop over the levels of `GenerateBgraMipmapsFast` (lines 521-551). -/
def fastLevel (width height i : Nat) (s : FastState) : Option FastState :=
  let srcw := levelWidth width (i - 1)
  let srch := levelHeight height (i - 1)
  let w := levelWidth width i
  let h := levelHeight height i
  (forLoop (fun x => forLoop (fun y => fastPixel i srcw srch h x y) h 0) w 0 s).map fun s1 =>
    { PixelsBgra := s1.PixelsBgra, src := s1.dest, dest := s1.dest + w * h, trace := s1.trace }

/-- Source `FSoftwareTexture::GenerateBgraMipmapsFast` (lines 514-553) on the buffer
`PixelsBgra`; the loop `for (int i = 1; i < levels; i++)` makes `levels - 1` iterations. -/
def GenerateBgraMipmapsFast (width height : Nat) (PixelsBgra : List Nat) : Option FastState :=
  (MipmapLevels width height).bind fun levels =>
    forLoop (fastLevel width height) (levels - 1) 1
      { PixelsBgra := PixelsBgra, src := 0, dest := width * height, trace := [] }

/-- The pairs (level, index) written for the levels `start, ..., start + n - 1`, in the order
of the writes: level `j` is written at the indices `[off_j, off_j + w_j * h_j)`. -/
def levelWrites (width height start n : Nat) : List (Nat × Nat) :=
  (List.range' start n).flatMap fun j =>
    (List.range' (levelOffset width height j)
      (levelWidth width j * levelHeight height j)).map fun q => (j, q)

/-- What holds of a record of the trace of `GenerateBgraMipmapsFast`: it belongs to an output
pixel of a level `≥ 1`, it was written at the place of that pixel in the region of the
level, its four reads are the samples of the source at the columns
`x*2, MIN((x+1)*2, srcw-1)` and rows `y*2, MIN((y+1)*2, srch-1)` and fall into the region of
the previous level, and the value is the average of the four samples. -/
def FastTraceOK (width height : Nat) (e : FastTrace) : Prop :=
  1 ≤ e.level ∧ e.x < levelWidth width e.level ∧ e.y < levelHeight height e.level ∧
  e.write = levelOffset width height e.level + (e.y + e.x * levelHeight height e.level) ∧
  e.reads =
    [levelOffset width height (e.level - 1)
        + (sampleLow e.y + sampleLow e.x * levelHeight height (e.level - 1)),
     levelOffset width height (e.level - 1)
        + (sampleHigh e.y (levelHeight height (e.level - 1))
            + sampleLow e.x * levelHeight height (e.level - 1)),
     levelOffset width height (e.level - 1)
        + (sampleLow e.y
            + sampleHigh e.x (levelWidth width (e.level - 1)) * levelHeight height (e.level - 1)),
     levelOffset width height (e.level - 1)
        + (sampleHigh e.y (levelHeight height (e.level - 1))
            + sampleHigh e.x (levelWidth width (e.level - 1))
                * levelHeight height (e.level - 1))] ∧
  (∀ r ∈ e.reads, levelOffset width height (e.level - 1) ≤ r ∧
    r < levelOffset width height e.level) ∧
  ∃ a b c d, e.samples = [a, b, c, d] ∧ e.value = averageFast a b c d

/-- Invariant of `GenerateBgraMipmapsFast` before the output pixel number `k` of level `i`:
the pointers are at the regions of the levels `i - 1` and `i`, the buffer has kept its
length and its level 0, the writes so far are those of the levels before `i` and of the
first `k` cells of level `i`, and every record of the trace is as `FastTraceOK` says, lies
before the next cell, and agrees with the buffer. -/
structure FastInv (width height : Nat) (P0 : List Nat) (i k : Nat) (s : FastState) : Prop where
  hsrc : s.src = levelOffset width height (i - 1)
  hdest : s.dest = levelOffset width height i
  hlen : s.PixelsBgra.length = P0.length
  hframe : ∀ j, j < width * height → s.PixelsBgra[j]? = P0[j]?
  hwrites : s.trace.map (fun e => (e.level, e.write))
    = levelWrites width height 1 (i - 1)
      ++ (List.range' (levelOffset width height i) k).map (fun q => (i, q))
  htrace : ∀ e ∈ s.trace, FastTraceOK width height e ∧
    e.write < levelOffset width height i + k ∧
    s.PixelsBgra[e.write]? = some e.value ∧
    e.reads.map (fun r => s.PixelsBgra[r]?) = e.samples.map some

/-! ## GenerateBgraMipmaps -/

/-- The floating-point side of `GenerateBgraMipmaps`, as parameters: `Color4f` is the type
`C`, and the conversions and the arithmetic on it (lines 389-400, 413-416, 448, 473, 479,
496-500) are the fields.  Floating-point arithmetic is not embedded; what is embedded is
which cells the function reads and writes. -/
structure Color4fOps (C : Type) where
  zero : C
  fromBgra : Nat → C
  add : C → C → C
  sub : C → C → C
  mulQuarter : C → C
  mulNinth : C → C
  mulK : C → C
  toBgra : C → Nat

/-- State of `GenerateBgraMipmaps`: the buffer `PixelsBgra`, the vectors `image` and
`smoothed`, the pointers `src` and `dest` (as indices) and, as instrumentation, the indices
of `PixelsBgra` written so far. -/
structure MipmapState (C : Type) where
  PixelsBgra : List Nat
  image : List C
  smoothed : List C
  src : Nat
  dest : Nat
  writes : List Nat

/-- Body of the loops that convert level 0 to linear colours (lines 411-417). -/
def linearPixel {C : Type} (ops : Color4fOps C) (height x y : Nat) (s : MipmapState C) :
    Option (MipmapState C) :=
  match s.PixelsBgra[x * height + y]? with
  | some c8 =>
    if x * height + y < s.image.length then
      some { PixelsBgra := s.PixelsBgra, image := s.image.set (x * height + y) (ops.fromBgra c8),
             smoothed := s.smoothed, src := s.src, dest := s.dest, writes := s.writes }
    else none
  | none => none

/-- Body of the downscale loops (lines 437-450) at the output pixel `(x, y)`. -/
def downscalePixel {C : Type} (ops : Color4fOps C) (srcw srch h x y : Nat)
    (s : MipmapState C) : Option (MipmapState C) :=
  let sx0 := sampleLow x
  let sx1 := sampleHigh x srcw
  let sy0 := sampleLow y
  let sy1 := sampleHigh y srch
  match s.image[s.src + (sy0 + sx0 * srch)]?, s.image[s.src + (sy1 + sx0 * srch)]?,
      s.image[s.src + (sy0 + sx1 * srch)]?, s.image[s.src + (sy1 + sx1 * srch)]? with
  | some src00, some src01, some src10, some src11 =>
    if s.dest + (y + x * h) < s.image.length then
      some { PixelsBgra := s.PixelsBgra,
             image := s.image.set (s.dest + (y + x * h))
               (ops.mulQuarter (ops.add (ops.add (ops.add src00 src01) src10) src11)),
             smoothed := s.smoothed, src := s.src, dest := s.dest, writes := s.writes }
    else none
  | _, _, _, _ => none

/-- The statement `c = c + dest[a + b * h]` of the sharpen pass (lines 464-470) for the
sample `(kx, ky)`. -/
def sharpenSample {C : Type} (ops : Color4fOps C) (w h x y : Nat) (s : MipmapState C)
    (kx ky : Int) (c : C) : Option C :=
  if 0 ≤ sharpenIndex w h x y kx ky then
    (s.image[s.dest + (sharpenIndex w h x y kx ky).toNat]?).map fun v => ops.add c v
  else none

/-- Body of the sharpen loops (lines 459-474) at the output pixel `(x, y)`: the loops
`for (int kx = -1; kx < 2; kx++)` and `for (int ky = -1; ky < 2; ky++)` make three iterations
each, with the counter shifted by one. -/
def sharpenPixel {C : Type} (ops : Color4fOps C) (w h x y : Nat) (s : MipmapState C) :
    Option (MipmapState C) :=
  (forLoop (fun k c => forLoop (fun l c1 =>
      sharpenSample ops w h x y s ((k : Int) - 1) ((l : Int) - 1) c1) 3 0 c) 3 0 ops.zero).bind
    fun c =>
      if y + x * h < s.smoothed.length then
        some { PixelsBgra := s.PixelsBgra, image := s.image,
               smoothed := s.smoothed.set (y + x * h) (ops.mulNinth c),
               src := s.src, dest := s.dest, writes := s.writes }
      else none

/-- Body of the loop `dest[j] = dest[j] + (dest[j] - smoothed[j]) * k` (lines 478-479). -/
def unsharpCell {C : Type} (ops : Color4fOps C) (j : Nat) (s : MipmapState C) :
    Option (MipmapState C) :=
  match s.image[s.dest + j]?, s.smoothed[j]? with
  | some d, some sm =>
    some { PixelsBgra := s.PixelsBgra,
           image := s.image.set (s.dest + j) (ops.add d (ops.mulK (ops.sub d sm))),
           smoothed := s.smoothed, src := s.src, dest := s.dest, writes := s.writes }
  | _, _ => none

/-- Body of the loop over the levels that generates the mipmaps (lines 429-482). -/
def mipmapLevel {C : Type} (ops : Color4fOps C) (width height i : Nat) (s : MipmapState C) :
    Option (MipmapState C) :=
  let srcw := levelWidth width (i - 1)
  let srch := levelHeight height (i - 1)
  let w := levelWidth width i
  let h := levelHeight height i
  (forLoop (fun x => forLoop (fun y => downscalePixel ops srcw srch h x y) h 0) w 0 s).bind
    fun s1 =>
      (forLoop (fun x => forLoop (fun y => sharpenPixel ops w h x y) h 0) w 0 s1).bind
        fun s2 =>
          (forLoop (unsharpCell ops) (w * h) 0 s2).map fun s3 =>
            { PixelsBgra := s3.PixelsBgra, image := s3.image, smoothed := s3.smoothed,
              src := s3.dest, dest := s3.dest + w * h, writes := s3.writes }

/-- Body of the inner loop of the write-back (lines 494-501): `dest[j]` is `PixelsBgra` at
`dest + j`, `src[j]` is `image` at `src + j`. -/
def writeBackCell {C : Type} (ops : Color4fOps C) (j : Nat) (s : MipmapState C) :
    Option (MipmapState C) :=
  match s.image[s.src + j]? with
  | some c =>
    if s.dest + j < s.PixelsBgra.length then
      some { PixelsBgra := s.PixelsBgra.set (s.dest + j) (ops.toBgra c), image := s.image,
             smoothed := s.smoothed, src := s.src, dest := s.dest,
             writes := s.writes ++ [s.dest + j] }
    else none
  | none => none

/-- Body of the loop over the levels of the write-back (lines 490-504). -/
def writeBackLevel {C : Type} (ops : Color4fOps C) (width height i : Nat)
    (s : MipmapState C) : Option (MipmapState C) :=
  let w := levelWidth width i
  let h := levelHeight height i
  (forLoop (writeBackCell ops) (w * h) 0 s).map fun s1 =>
    { PixelsBgra := s1.PixelsBgra, image := s1.image, smoothed := s1.smoothed,
      src := s1.src + w * h, dest := s1.dest + w * h, writes := s1.writes }

/-- Source `FSoftwareTexture::GenerateBgraMipmaps` (lines 387-506) on the buffer
`PixelsBgra`: `image` starts as `PixelsBgra.Size()` zero colours, `smoothed` as
`width * height` zero colours; the loops over the levels make `levels - 1` iterations. -/
def GenerateBgraMipmaps {C : Type} (ops : Color4fOps C) (width height : Nat)
    (PixelsBgra : List Nat) : Option (MipmapState C) :=
  (MipmapLevels width height).bind fun levels =>
    (forLoop (fun x => forLoop (fun y => linearPixel ops height x y) height 0) width 0
      { PixelsBgra := PixelsBgra, image := List.replicate PixelsBgra.length ops.zero,
        smoothed := [], src := 0, dest := 0, writes := [] }).bind fun s1 =>
      (forLoop (mipmapLevel ops width height) (levels - 1) 1
        { PixelsBgra := s1.PixelsBgra, image := s1.image,
          smoothed := List.replicate (width * height) ops.zero,
          src := 0, dest := width * height, writes := s1.writes }).bind fun s2 =>
        forLoop (writeBackLevel ops width height) (levels - 1) 1
          { PixelsBgra := s2.PixelsBgra, image := s2.image, smoothed := s2.smoothed,
            src := width * height, dest := width * height, writes := s2.writes }

/-- Shape of the state of `GenerateBgraMipmaps` before the write-back (proof device): the
buffer is untouched and nothing is logged, `image` has the length of the buffer, `smoothed`
has `sm` cells and the pointers are `src` and `dest`. -/
def MipmapShape {C : Type} (P0 : List Nat) (sm src dest : Nat) (s : MipmapState C) : Prop :=
  s.PixelsBgra = P0 ∧ s.writes = [] ∧ s.image.length = P0.length ∧ s.smoothed.length = sm ∧
  s.src = src ∧ s.dest = dest

/-- Invariant of the write-back of `GenerateBgraMipmaps` (proof device): the buffer has kept
its length and its first `base` cells, every logged write is at an index from `base` on,
`image` has the length of the buffer and both pointers are at `off`. -/
def WriteBackInv {C : Type} (P0 : List Nat) (base off : Nat) (s : MipmapState C) : Prop :=
  s.PixelsBgra.length = P0.length ∧ (∀ j, j < base → s.PixelsBgra[j]? = P0[j]?) ∧
  (∀ q ∈ s.writes, base ≤ q ∧ q < P0.length) ∧ s.image.length = P0.length ∧
  s.src = off ∧ s.dest = off


/-- Instrumentation of `GenerateBgraMipmaps`: an instance of the floating-point parameters
in which a colour is the list of the level-0 pixels that were added into it, in the order of
the additions.  The scalings keep the list and a difference is empty, so that the unsharp
step `dest[j] + (dest[j] - smoothed[j]) * k` keeps the list of `dest[j]`; the conversion
back to a pixel is the sum. -/
def sampleLog : Color4fOps (List Nat) :=
  { zero := []
    fromBgra := fun c8 => [c8]
    add := fun a b => a ++ b
    sub := fun _ _ => []
    mulQuarter := fun a => a
    mulNinth := fun a => a
    mulK := fun a => a
    toBgra := fun a => a.sum }

/-! ## GetPixels, GetColumn with spans, FreeAllSpans: the cached buffer and the span tables -/

/-- The members and getters of the texture that the three functions read and never write:
`mTexture->isMasked()`, `GetWidth()`, `GetHeight()`, `WidthMask`, `mPhysicalScale`. -/
structure TextureInfo where
  isMasked : Bool
  width : Nat
  height : Nat
  WidthMask : Nat
  mPhysicalScale : Nat

/-- What the functions declared outside of the sources answer at the time of one call:
`CheckModified(style)`, `mSource->Get8BitPixels(style)`, the cells `pe[i]` of the buffer of
`mTexture->CreateTexBuffer(0, mBufferFlags)` and
`ImageHelpers::RGBToPalette(false, c, true)`.  Two calls may be given different answers: the
source of the texture can change between them. -/
structure SourceAnswers where
  CheckModified : Nat → Bool
  Get8BitPixels : Nat → List Nat
  CreateTexBuffer : Nat → Nat
  RGBToPalette : Nat → Nat

/-- The members that the functions write: the cached indexed buffer `Pixels` and the array
`Spandata` of the span tables per style, `none` for `nullptr`. -/
structure TextureState where
  Pixels : List Nat
  Spandata : List (Option SpanTable)
deriving DecidableEq

/-- The assignment `Pixels[y + x * GetHeight()] = RGBToPalette(false, pe[x + y * GetWidth()],
true)` (line 131); a write outside of the buffer fails. -/
def scalePixel (info : TextureInfo) (answers : SourceAnswers) (y x : Nat) (Pixels : List Nat) :
    Option (List Nat) :=
  if y + x * info.height < Pixels.length then
    some (Pixels.set (y + x * info.height)
      (answers.RGBToPalette (answers.CreateTexBuffer (x + y * info.width))))
  else none

/-- Source `FSoftwareTexture::GetPixels` (lines 114-137) as a transition of the members: the
buffer is replaced when it is empty or `CheckModified(style)` holds, and `Spandata` does not
occur in the function. -/
def GetPixels (info : TextureInfo) (answers : SourceAnswers) (style : Nat) (t : TextureState) :
    Option TextureState :=
  if t.Pixels.length = 0 ∨ answers.CheckModified style = true then
    if info.mPhysicalScale = 1 then
      some { Pixels := answers.Get8BitPixels style, Spandata := t.Spandata }
    else
      (forLoop (fun y => forLoop (fun x => scalePixel info answers y x) info.width 0)
        info.height 0 (resizeBuffer t.Pixels (info.width * info.height))).map fun p =>
          { Pixels := p, Spandata := t.Spandata }
  else some t

/-- What a call of `GetColumn` with `spans_out != nullptr` leaves: the members after the
call, the offset `column * GetHeight()` of the returned pointer into `Pixels`, and the value
`Spandata[index][column]` stored in `*spans_out`, as the table and the column. -/
structure ColumnResult where
  state : TextureState
  offset : Nat
  table : SpanTable
  column : Nat
deriving DecidableEq

/-- Source `FSoftwareTexture::GetColumn` (lines 161-184) with `spans_out != nullptr`, as a
transition of the members: `GetPixels(index)` first, then the table of the style is built by
`CreateSpans(Pixeldata)` only if `Spandata[index] == nullptr`.  An `index` outside of
`Spandata` fails, and so does a masked `CreateSpans` on a buffer of less than
`GetWidth() * GetHeight()` cells (it would read outside of the buffer). -/
def GetColumnWithSpans (info : TextureInfo) (answers : SourceAnswers) (index column : Nat)
    (t : TextureState) : Option ColumnResult :=
  (GetPixels info answers index t).bind fun t1 =>
    let col := GetColumn info.width info.height info.WidthMask column
    match t1.Spandata[index]? with
    | some none =>
      if info.isMasked = true ∧ t1.Pixels.length < info.width * info.height then none
      else
        (CreateSpans isTranslucent_uint8 info.isMasked info.width info.height
          (fun i => t1.Pixels.getD i 0)).map fun tab =>
            { state := { Pixels := t1.Pixels, Spandata := t1.Spandata.set index (some tab) },
              offset := col.2, table := tab, column := col.1 }
    | some (some tab) => some { state := t1, offset := col.2, table := tab, column := col.1 }
    | none => none

/-- Source `FSoftwareTexture::FreeAllSpans` (lines 561-571): the three entries of `Spandata`
that are not null are freed and set to `nullptr`. -/
def FreeAllSpans (t : TextureState) : TextureState :=
  { Pixels := t.Pixels,
    Spandata := (List.range 3).foldl (fun sd i =>
      match sd[i]? with
      | some (some _) => sd.set i none
      | _ => sd) t.Spandata }
/-! ### Memory lemmas -/

theorem set_at_length {α : Type} (a : List α) (c v : α) (r : List α) :
    (a ++ c :: r).set a.length v = a ++ v :: r := by
  induction a with
  | nil => rfl
  | cons x a ih => simp [List.set, ih]

theorem get_at_length {α : Type} (a : List α) (c : α) (r : List α) :
    (a ++ c :: r)[a.length]? = some c := by
  induction a with
  | nil => simp
  | cons x a ih => simpa using ih

theorem storeSpan_at_length (done : List FSoftwareTextureSpan) (c : Option FSoftwareTextureSpan)
    (rest : SpanMem) (v : FSoftwareTextureSpan) :
    storeSpan (done.map some ++ c :: rest) done.length v
      = some (done.map some ++ some v :: rest) := by
  have h := set_at_length (done.map some) c (some v) rest
  rw [List.length_map] at h
  simp [storeSpan, h]

theorem incLength_at_length (done : List FSoftwareTextureSpan) (r : FSoftwareTextureSpan)
    (rest : SpanMem) :
    incLength (done.map some ++ some r :: rest) done.length
      = some (done.map some ++
          some { TopOffset := r.TopOffset, Length := r.Length + 1 } :: rest) := by
  have h := set_at_length (done.map some) (some r)
    (some { TopOffset := r.TopOffset, Length := r.Length + 1 }) rest
  have g := get_at_length (done.map some) (some r) rest
  rw [List.length_map] at h g
  simp [incLength, h, g]

theorem fillSharedTable_eq (span : Nat) :
    ∀ (n : Nat) (table : List Nat),
      fillSharedTable span n table = table ++ List.replicate n span := by
  intro n
  induction n with
  | zero => intro table; simp [fillSharedTable]
  | succ n ih =>
    intro table
    rw [fillSharedTable, ih, List.append_assoc, List.replicate_succ]
    rfl

/-! ### The fill pass writes the runs of each column -/

theorem fillEnd_closed (tbl : List Nat) (done : List FSoftwareTextureSpan)
    (c : Option FSoftwareTextureSpan) (rest : SpanMem) (dp : Nat) :
    fillEnd { table := tbl, mem := done.map some ++ c :: rest, span := done.length,
              newspan := true, data_p := dp }
      = some { table := tbl, mem := (done ++ [terminator]).map some ++ rest,
               span := done.length + 1, newspan := true, data_p := dp } := by
  simp [fillEnd, storeSpan_at_length, terminator]

theorem fillEnd_open (tbl : List Nat) (done : List FSoftwareTextureSpan)
    (r : FSoftwareTextureSpan) (c : Option FSoftwareTextureSpan) (rest : SpanMem) (dp : Nat) :
    fillEnd { table := tbl, mem := done.map some ++ some r :: c :: rest, span := done.length,
              newspan := false, data_p := dp }
      = some { table := tbl, mem := (done ++ [r] ++ [terminator]).map some ++ rest,
               span := done.length + 1 + 1, newspan := false, data_p := dp } := by
  have h := storeSpan_at_length (done ++ [r]) c rest terminator
  simp only [List.map_append, List.map_cons, List.map_nil, List.append_assoc,
    List.singleton_append, List.length_append, List.length_singleton] at h
  simp only [terminator] at h
  simp [fillEnd, h, terminator]

/-- What the rows `y, ..., y+n-1` of a column and the end of the column do to a state whose
records below `span` are `done`, with `cur` the open span stored at `span`. -/
theorem fillRows_end {T : Type} (tr : T → Bool) (pixels : Nat → T) (base : Nat) :
    ∀ (n y : Nat) (done : List FSoftwareTextureSpan) (rest : SpanMem)
      (cur : Option FSoftwareTextureSpan) (s : FillState),
      s.mem = done.map some ++ rest → s.span = done.length → s.newspan = cur.isNone →
      s.data_p = base + y →
      (∀ r, cur = some r → ∃ rest1, rest = some r :: rest1) →
      (scanRuns (fun z => tr (pixels (base + z))) n y cur).length + 1 ≤ rest.length →
      ∃ s1, (fillRows tr pixels n y s).bind fillEnd = some s1 ∧ s1.table = s.table ∧
        s1.mem = (done ++ scanRuns (fun z => tr (pixels (base + z))) n y cur
                    ++ [terminator]).map some
                  ++ rest.drop ((scanRuns (fun z => tr (pixels (base + z))) n y cur).length + 1) ∧
        s1.span = done.length + (scanRuns (fun z => tr (pixels (base + z))) n y cur).length + 1 ∧
        s1.data_p = base + y + n := by
  intro n
  induction n with
  | zero =>
    intro y done rest cur s hmem hspan hnew hdp hcur hroom
    obtain ⟨tbl, mem, span, newspan, dp⟩ := s
    simp only at hmem hspan hnew hdp
    subst hmem hspan hnew hdp
    cases cur with
    | none =>
      simp only [scanRuns, Option.toList, List.length_nil, Nat.zero_add] at hroom ⊢
      obtain ⟨c, rest1, rfl⟩ : ∃ c rest1, rest = c :: rest1 := by
        cases rest with
        | nil => simp at hroom
        | cons c rest1 => exact ⟨c, rest1, rfl⟩
      simp [fillRows, fillEnd_closed]
    | some r =>
      obtain ⟨rest1, rfl⟩ := hcur r rfl
      simp only [scanRuns, Option.toList, List.length_cons, List.length_nil] at hroom ⊢
      obtain ⟨c, rest2, rfl⟩ : ∃ c rest2, rest1 = c :: rest2 := by
        cases rest1 with
        | nil => simp at hroom
        | cons c rest2 => exact ⟨c, rest2, rfl⟩
      simp [fillRows, fillEnd_open]
  | succ n ih =>
    intro y done rest cur s hmem hspan hnew hdp hcur hroom
    obtain ⟨tbl, mem, span, newspan, dp⟩ := s
    simp only at hmem hspan hnew hdp
    subst hmem hspan hnew hdp
    by_cases hf : tr (pixels (base + y)) = true
    · -- translucent row
      cases cur with
      | none =>
        have hs : scanRuns (fun z => tr (pixels (base + z))) (n + 1) y none
            = scanRuns (fun z => tr (pixels (base + z))) n (y + 1) none := by
          simp [scanRuns, hf]
        rw [hs] at hroom ⊢
        obtain ⟨s1, h1, h2, h3, h4, h5⟩ := ih (y + 1) done rest none
          { table := tbl, mem := done.map some ++ rest, span := done.length, newspan := true,
            data_p := base + y + 1 } rfl rfl rfl rfl (by simp) hroom
        refine ⟨s1, ?_, h2, h3, h4, by omega⟩
        simpa [fillRows, fillRow, hf] using h1
      | some r =>
        obtain ⟨rest1, rfl⟩ := hcur r rfl
        have hs : scanRuns (fun z => tr (pixels (base + z))) (n + 1) y (some r)
            = r :: scanRuns (fun z => tr (pixels (base + z))) n (y + 1) none := by
          simp [scanRuns, hf]
        rw [hs] at hroom ⊢
        simp only [List.length_cons] at hroom
        obtain ⟨s1, h1, h2, h3, h4, h5⟩ := ih (y + 1) (done ++ [r]) rest1 none
          { table := tbl, mem := done.map some ++ some r :: rest1, span := done.length + 1,
            newspan := true, data_p := base + y + 1 } (by simp) (by simp) rfl rfl (by simp)
            (by omega)
        refine ⟨s1, ?_, h2, ?_, ?_, by omega⟩
        · simpa [fillRows, fillRow, hf] using h1
        · rw [h3]; simp
        · rw [h4]; simp; omega
    · -- opaque row
      have hs : scanRuns (fun z => tr (pixels (base + z))) (n + 1) y cur
          = scanRuns (fun z => tr (pixels (base + z))) n (y + 1) (some (extendRun y cur)) := by
        simp [scanRuns, hf]
      rw [hs] at hroom ⊢
      cases cur with
      | none =>
        obtain ⟨c, rest1, rfl⟩ : ∃ c rest1, rest = c :: rest1 := by
          cases rest with
          | nil => simp at hroom
          | cons c rest1 => exact ⟨c, rest1, rfl⟩
        obtain ⟨s1, h1, h2, h3, h4, h5⟩ := ih (y + 1) done (some (extendRun y none) :: rest1)
          (some (extendRun y none))
          { table := tbl, mem := done.map some ++ some (extendRun y none) :: rest1,
            span := done.length, newspan := false, data_p := base + y + 1 } rfl rfl rfl rfl
          (by intro r hr; cases hr; exact ⟨rest1, rfl⟩) (by simpa using hroom)
        refine ⟨s1, ?_, h2, ?_, h4, by omega⟩
        · simpa [fillRows, fillRow, hf, storeSpan_at_length, extendRun] using h1
        · rw [h3]; simp
      | some r =>
        obtain ⟨rest1, rfl⟩ := hcur r rfl
        obtain ⟨s1, h1, h2, h3, h4, h5⟩ := ih (y + 1) done (some (extendRun y (some r)) :: rest1)
          (some (extendRun y (some r)))
          { table := tbl, mem := done.map some ++ some (extendRun y (some r)) :: rest1,
            span := done.length, newspan := false, data_p := base + y + 1 } rfl rfl rfl rfl
          (by intro r1 hr; cases hr; exact ⟨rest1, rfl⟩) (by simpa using hroom)
        refine ⟨s1, ?_, h2, ?_, h4, by omega⟩
        · simpa [fillRows, fillRow, hf, incLength_at_length, extendRun] using h1
        · rw [h3]; simp

theorem fillColumn_spec {T : Type} (tr : T → Bool) (pixels : Nat → T) (h x : Nat)
    (done : List FSoftwareTextureSpan) (rest : SpanMem) (s : FillState)
    (hmem : s.mem = done.map some ++ rest) (hspan : s.span = done.length)
    (hdp : s.data_p = x * h)
    (hroom : (columnRuns tr pixels h x).length + 1 ≤ rest.length) :
    ∃ s1, fillColumn tr pixels h s = some s1 ∧ s1.table = s.table ++ [done.length] ∧
      s1.mem = (done ++ columnRuns tr pixels h x ++ [terminator]).map some
                ++ rest.drop ((columnRuns tr pixels h x).length + 1) ∧
      s1.span = done.length + (columnRuns tr pixels h x).length + 1 ∧
      s1.data_p = (x + 1) * h := by
  obtain ⟨s1, h1, h2, h3, h4, h5⟩ := fillRows_end tr pixels (x * h) h 0 done rest none
    { table := s.table ++ [s.span], mem := s.mem, span := s.span, newspan := true,
      data_p := s.data_p } hmem hspan rfl (by simpa using hdp) (by simp) hroom
  refine ⟨s1, h1, ?_, h3, h4, ?_⟩
  · rw [h2, hspan]
  · rw [h5]; ring

theorem blockRecords_length_succ {T : Type} (tr : T → Bool) (pixels : Nat → T) (h n x : Nat) :
    (blockRecords tr pixels h (n + 1) x).length
      = (columnRuns tr pixels h x).length + 1 + (blockRecords tr pixels h n (x + 1)).length := by
  simp [blockRecords]; omega

theorem fillPass_spec {T : Type} (tr : T → Bool) (pixels : Nat → T) (h : Nat) :
    ∀ (n x : Nat) (done : List FSoftwareTextureSpan) (rest : SpanMem) (s : FillState),
      s.mem = done.map some ++ rest → s.span = done.length → s.data_p = x * h →
      (blockRecords tr pixels h n x).length ≤ rest.length →
      ∃ s1, fillPass tr pixels h n s = some s1 ∧
        s1.table = s.table ++ blockOffsets tr pixels h n x done.length ∧
        s1.mem = (done ++ blockRecords tr pixels h n x).map some
                  ++ rest.drop (blockRecords tr pixels h n x).length ∧
        s1.span = done.length + (blockRecords tr pixels h n x).length ∧
        s1.data_p = (x + n) * h := by
  intro n
  induction n with
  | zero =>
    intro x done rest s hmem hspan hdp _
    exact ⟨s, rfl, by simp [blockOffsets], by simpa [blockRecords] using hmem,
      by simpa [blockRecords] using hspan, by simpa using hdp⟩
  | succ n ih =>
    intro x done rest s hmem hspan hdp hroom
    rw [blockRecords_length_succ] at hroom
    obtain ⟨s1, h1, h2, h3, h4, h5⟩ := fillColumn_spec tr pixels h x done rest s hmem hspan hdp
      (by omega)
    obtain ⟨s2, g1, g2, g3, g4, g5⟩ := ih (x + 1)
      (done ++ columnRuns tr pixels h x ++ [terminator])
      (rest.drop ((columnRuns tr pixels h x).length + 1)) s1 h3
      (by rw [h4]; simp; omega) h5 (by simp; omega)
    refine ⟨s2, ?_, ?_, ?_, ?_, ?_⟩
    · simp [fillPass, h1, g1]
    · rw [g2, h2]
      simp [blockOffsets, Nat.add_assoc]
    · rw [g3]
      simp [blockRecords, Nat.add_assoc, Nat.add_comm, Nat.add_left_comm]
    · rw [g4, blockRecords_length_succ]; simp; omega
    · rw [g5]; ring

/-! ### The count pass counts the same records -/

theorem countColumn_spec {T : Type} (tr : T → Bool) (pixels : Nat → T) (base : Nat) :
    ∀ (n y : Nat) (cur : Option FSoftwareTextureSpan) (s : CountState),
      s.newspan = cur.isNone → s.data_p = base + y →
      (countColumn tr pixels n s).numspans + (if cur.isSome then 1 else 0)
        = s.numspans + (scanRuns (fun z => tr (pixels (base + z))) n y cur).length ∧
      (countColumn tr pixels n s).data_p = base + y + n := by
  intro n
  induction n with
  | zero =>
    intro y cur s hnew hdp
    cases cur <;> simp [countColumn, scanRuns, hdp]
  | succ n ih =>
    intro y cur s hnew hdp
    obtain ⟨numspans, newspan, dp⟩ := s
    simp only at hnew hdp
    subst hnew hdp
    by_cases hf : tr (pixels (base + y)) = true
    · cases cur with
      | none =>
        have := ih (y + 1) none
          { numspans := numspans, newspan := true, data_p := base + y + 1 } rfl rfl
        simp only [countColumn, countRow, scanRuns, hf] at this ⊢
        simp at this ⊢
        omega
      | some r =>
        have := ih (y + 1) none
          { numspans := numspans, newspan := true, data_p := base + y + 1 } rfl rfl
        simp only [countColumn, countRow, scanRuns, hf] at this ⊢
        simp at this ⊢
        omega
    · cases cur with
      | none =>
        have := ih (y + 1) (some (extendRun y none))
          { numspans := numspans + 1, newspan := false, data_p := base + y + 1 } rfl rfl
        simp only [countColumn, countRow, scanRuns, hf] at this ⊢
        simp at this ⊢
        omega
      | some r =>
        have := ih (y + 1) (some (extendRun y (some r)))
          { numspans := numspans, newspan := false, data_p := base + y + 1 } rfl rfl
        simp only [countColumn, countRow, scanRuns, hf] at this ⊢
        simp at this ⊢
        omega

theorem countPass_spec {T : Type} (tr : T → Bool) (pixels : Nat → T) (h : Nat) :
    ∀ (n x : Nat) (s : CountState), s.data_p = x * h →
      (countPass tr pixels h n s).numspans + n
        = s.numspans + (blockRecords tr pixels h n x).length := by
  intro n
  induction n with
  | zero => intro x s _; simp [countPass, blockRecords]
  | succ n ih =>
    intro x s hdp
    have hc := countColumn_spec tr pixels (x * h) h 0 none
      { numspans := s.numspans, newspan := true, data_p := s.data_p } rfl (by simpa using hdp)
    have hi := ih (x + 1) (countColumn tr pixels h
      { numspans := s.numspans, newspan := true, data_p := s.data_p }) (by rw [hc.2]; ring)
    rw [blockRecords_length_succ]
    simp only [countPass]
    have hc1 := hc.1
    simp only [Option.isSome_none, Bool.false_eq_true, if_false, Nat.add_zero] at hc1
    have : (scanRuns (fun z => tr (pixels (x * h + z))) h 0 none).length
        = (columnRuns tr pixels h x).length := rfl
    omega

theorem countSpans_eq {T : Type} (tr : T → Bool) (pixels : Nat → T) (w h : Nat) :
    countSpans tr w h pixels = (blockRecords tr pixels h w 0).length := by
  have := countPass_spec tr pixels h w 0 { numspans := w, newspan := true, data_p := 0 }
    (by simp)
  simp only [countSpans] at this ⊢
  omega

/-- Closed form of the masked branch: the table entries and the records written. -/
theorem fillSpans_exact {T : Type} (tr : T → Bool) (pixels : Nat → T) (w h : Nat) :
    ∃ s, fillSpans tr w h pixels (countSpans tr w h pixels) = some s ∧
      s.table = blockOffsets tr pixels h w 0 0 ∧
      s.mem = (blockRecords tr pixels h w 0).map some ∧
      s.span = countSpans tr w h pixels := by
  obtain ⟨s1, h1, h2, h3, h4, -⟩ := fillPass_spec tr pixels h w 0 []
    (List.replicate (countSpans tr w h pixels) none)
    { table := [], mem := List.replicate (countSpans tr w h pixels) none, span := 0,
      newspan := true, data_p := 0 } (by simp) rfl (by simp)
    (by simp [countSpans_eq])
  refine ⟨s1, h1, by simpa using h2, ?_, ?_⟩
  · rw [h3, countSpans_eq]; simp
  · rw [h4, countSpans_eq]; simp

theorem CreateSpans_masked {T : Type} (tr : T → Bool) (pixels : Nat → T) (w h : Nat) :
    CreateSpans tr true w h pixels
      = some { spans := blockOffsets tr pixels h w 0 0,
               mem := (blockRecords tr pixels h w 0).map some } := by
  obtain ⟨s, h1, h2, h3, -⟩ := fillSpans_exact tr pixels w h
  simp [CreateSpans, h1, h2, h3]

/-! ### Properties of the runs of a column -/

theorem RunInv_extend (f : Nat → Bool) (y : Nat) (cur : Option FSoftwareTextureSpan)
    (hinv : RunInv f y cur) : RunInv f (y + 1) (some (extendRun y cur)) := by
  cases cur with
  | none =>
    simp only [RunInv, extendRun] at hinv ⊢
    exact ⟨trivial, le_refl _, hinv⟩
  | some r =>
    simp only [RunInv, extendRun] at hinv ⊢
    exact ⟨by omega, by omega, hinv.2.2⟩

/-- Every emitted span starts at or below `lo` when the open span and the scan position do. -/
theorem scanRuns_lower (f : Nat → Bool) (lo : Nat) :
    ∀ (n y : Nat) (cur : Option FSoftwareTextureSpan), lo ≤ y →
      (∀ r, cur = some r → lo ≤ r.TopOffset) →
      ∀ s ∈ scanRuns f n y cur, lo ≤ s.TopOffset := by
  intro n
  induction n with
  | zero =>
    intro y cur _ hc s hs
    cases cur with
    | none => simp [scanRuns] at hs
    | some r =>
      simp only [scanRuns, Option.toList, List.mem_singleton] at hs
      subst hs
      exact hc s rfl
  | succ n ih =>
    intro y cur hy hc s hs
    by_cases hf : f y = true
    · simp only [scanRuns, hf, if_true, List.mem_append] at hs
      rcases hs with hs | hs
      · cases cur with
        | none => simp at hs
        | some r =>
          simp only [Option.toList, List.mem_singleton] at hs
          subst hs
          exact hc s rfl
      · exact ih (y + 1) none (by omega) (by simp) s hs
    · simp only [scanRuns, hf, if_false] at hs
      refine ih (y + 1) (some (extendRun y cur)) (by omega) ?_ s hs
      intro r hr
      cases cur with
      | none =>
        simp only [extendRun, Option.some.injEq] at hr
        subst hr; exact hy
      | some r0 =>
        simp only [extendRun, Option.some.injEq] at hr
        subst hr
        exact hc r0 rfl

/-- Every emitted span is a non-empty run inside the scanned rows, bounded above and below by
a translucent row or by the ends of the column. -/
theorem scanRuns_mem (f : Nat → Bool) :
    ∀ (n y : Nat) (cur : Option FSoftwareTextureSpan), RunInv f y cur →
      ∀ s ∈ scanRuns f n y cur,
        1 ≤ s.Length ∧ s.TopOffset + s.Length ≤ y + n ∧
        (s.TopOffset = 0 ∨ f (s.TopOffset - 1) = true) ∧
        (s.TopOffset + s.Length = y + n ∨ f (s.TopOffset + s.Length) = true) := by
  intro n
  induction n with
  | zero =>
    intro y cur hinv s hs
    cases cur with
    | none => simp [scanRuns] at hs
    | some r =>
      simp only [scanRuns, Option.toList, List.mem_singleton] at hs
      subst hs
      simp only [RunInv] at hinv
      exact ⟨hinv.2.1, by omega, hinv.2.2, Or.inl (by omega)⟩
  | succ n ih =>
    intro y cur hinv s hs
    by_cases hf : f y = true
    · simp only [scanRuns, hf, if_true, List.mem_append] at hs
      rcases hs with hs | hs
      · cases cur with
        | none => simp at hs
        | some r =>
          simp only [Option.toList, List.mem_singleton] at hs
          subst hs
          simp only [RunInv] at hinv
          refine ⟨hinv.2.1, by omega, hinv.2.2, Or.inr ?_⟩
          rw [hinv.1]; exact hf
      · have h1 := ih (y + 1) none (by simp only [RunInv]; right; simpa using hf) s hs
        obtain ⟨a, b, c, d⟩ := h1
        refine ⟨a, by omega, c, ?_⟩
        rcases d with d | d
        · left; omega
        · right; exact d
    · simp only [scanRuns, hf, if_false] at hs
      have h1 := ih (y + 1) (some (extendRun y cur)) (RunInv_extend f y cur hinv) s hs
      obtain ⟨a, b, c, d⟩ := h1
      refine ⟨a, by omega, c, ?_⟩
      rcases d with d | d
      · left; omega
      · right; exact d

/-- Consecutive spans are separated by at least one row. -/
theorem scanRuns_pairwise (f : Nat → Bool) :
    ∀ (n y : Nat) (cur : Option FSoftwareTextureSpan),
      (∀ r, cur = some r → r.TopOffset + r.Length = y) →
      (scanRuns f n y cur).Pairwise fun a b => a.TopOffset + a.Length < b.TopOffset := by
  intro n
  induction n with
  | zero =>
    intro y cur _
    cases cur <;> simp [scanRuns]
  | succ n ih =>
    intro y cur hc
    by_cases hf : f y = true
    · simp only [scanRuns, hf, if_true]
      cases cur with
      | none => simpa using ih (y + 1) none (by simp)
      | some r =>
        simp only [Option.toList, List.singleton_append, List.pairwise_cons]
        refine ⟨?_, ih (y + 1) none (by simp)⟩
        intro b hb
        have := scanRuns_lower f (y + 1) n (y + 1) none (le_refl _) (by simp) b hb
        have := hc r rfl
        omega
    · simp only [scanRuns, hf, if_false]
      apply ih
      intro r hr
      cases cur with
      | none =>
        simp only [extendRun, Option.some.injEq] at hr
        subst hr; rfl
      | some r0 =>
        simp only [extendRun, Option.some.injEq] at hr
        subst hr
        have := hc r0 rfl
        simp only; omega

/-- The rows covered by the emitted spans are the rows of the open span and the opaque rows
among the scanned ones. -/
theorem scanRuns_cover (f : Nat → Bool) :
    ∀ (n y : Nat) (cur : Option FSoftwareTextureSpan),
      (∀ r, cur = some r → r.TopOffset + r.Length = y) → ∀ z : Nat,
      (∃ s ∈ scanRuns f n y cur, s.TopOffset ≤ z ∧ z < s.TopOffset + s.Length) ↔
        ((∃ r, cur = some r ∧ r.TopOffset ≤ z ∧ z < y) ∨ (y ≤ z ∧ z < y + n ∧ f z = false)) := by
  intro n
  induction n with
  | zero =>
    intro y cur hc z
    cases cur with
    | none =>
      simp only [scanRuns, Option.toList, List.not_mem_nil, false_and, exists_false,
        reduceCtorEq, false_or, false_iff, not_and]
      intro h1 h2; omega
    | some r =>
      have := hc r rfl
      simp only [scanRuns, Option.toList, List.mem_singleton, exists_eq_left, Option.some.injEq]
      constructor
      · intro h; left; exact ⟨r, rfl, by omega, by omega⟩
      · rintro (⟨r1, h0, h⟩ | h)
        · subst h0; omega
        · omega
  | succ n ih =>
    intro y cur hc z
    by_cases hf : f y = true
    · simp only [scanRuns, hf, if_true, List.mem_append]
      have hi := ih (y + 1) none (by simp) z
      simp only [false_and, exists_false, false_or, reduceCtorEq] at hi
      constructor
      · rintro ⟨s, hs | hs, h1, h2⟩
        · cases cur with
          | none => simp at hs
          | some r =>
            simp only [Option.toList, List.mem_singleton] at hs
            subst hs
            have := hc s rfl
            left; exact ⟨s, rfl, h1, by omega⟩
        · have := hi.mp ⟨s, hs, h1, h2⟩
          right; exact ⟨by omega, by omega, this.2.2⟩
      · rintro (⟨r, hr, h1, h2⟩ | ⟨h1, h2, h3⟩)
        · subst hr
          have := hc r rfl
          exact ⟨r, Or.inl (by simp), h1, by omega⟩
        · have hzy : z ≠ y := by
            intro h; subst h; rw [hf] at h3; exact Bool.noConfusion h3
          obtain ⟨s, hs, g1, g2⟩ := hi.mpr ⟨by omega, by omega, h3⟩
          exact ⟨s, Or.inr hs, g1, g2⟩
    · have hf0 : f y = false := by simpa using hf
      simp only [scanRuns, hf0, Bool.false_eq_true, if_false]
      have hi := ih (y + 1) (some (extendRun y cur)) (by
        intro r hr
        cases cur with
        | none =>
          simp only [extendRun, Option.some.injEq] at hr
          subst hr; rfl
        | some r0 =>
          simp only [extendRun, Option.some.injEq] at hr
          subst hr
          have := hc r0 rfl
          simp only; omega) z
      rw [hi]
      cases cur with
      | none =>
        constructor
        · rintro (⟨r1, h0, h1, h2⟩ | ⟨h1, h2, h3⟩)
          · simp only [extendRun, Option.some.injEq] at h0
            subst h0
            have : z = y := by simp only at h1; omega
            subst this; right; exact ⟨le_refl _, by omega, hf0⟩
          · right; exact ⟨by omega, by omega, h3⟩
        · rintro (⟨r1, h0, _⟩ | ⟨h1, h2, h3⟩)
          · cases h0
          · by_cases hzy : z = y
            · left; exact ⟨_, rfl, by simp [extendRun, hzy], by omega⟩
            · right; exact ⟨by omega, by omega, h3⟩
      | some r =>
        have := hc r rfl
        constructor
        · rintro (⟨r1, h0, h1, h2⟩ | ⟨h1, h2, h3⟩)
          · simp only [extendRun, Option.some.injEq] at h0
            subst h0
            simp only at h1
            by_cases hzy : z = y
            · subst hzy; right; exact ⟨le_refl _, by omega, hf0⟩
            · left; exact ⟨r, rfl, h1, by omega⟩
          · right; exact ⟨by omega, by omega, h3⟩
        · rintro (⟨r1, h0, h1, h2⟩ | ⟨h1, h2, h3⟩)
          · cases h0
            left; exact ⟨_, rfl, by simpa [extendRun] using h1, by omega⟩
          · by_cases hzy : z = y
            · left; exact ⟨_, rfl, by simp only [extendRun]; omega, by omega⟩
            · right; exact ⟨by omega, by omega, h3⟩

/-- The number of emitted spans is the number of run starts among the scanned rows, plus one
for an open span. -/
theorem scanRuns_length (f : Nat → Bool) :
    ∀ (n y : Nat) (cur : Option FSoftwareTextureSpan),
      (cur.isSome = true ↔ (0 < y ∧ f (y - 1) = false)) →
      (scanRuns f n y cur).length
        = (if cur.isSome then 1 else 0) + (List.range' y n).countP (runStart f) := by
  intro n
  induction n with
  | zero =>
    intro y cur _
    cases cur <;> simp [scanRuns]
  | succ n ih =>
    intro y cur hc
    rw [List.range'_succ, List.countP_cons]
    by_cases hf : f y = true
    · have hi := ih (y + 1) none (by simp [hf])
      have hr : runStart f y = false := by simp [runStart, hf]
      simp only [scanRuns, hf, if_true, List.length_append, hi, hr]
      cases cur <;> simp
    · have hf0 : f y = false := by simpa using hf
      have hi := ih (y + 1) (some (extendRun y cur)) (by simp [hf0])
      simp only [scanRuns, hf0, Bool.false_eq_true, if_false]
      rw [hi]
      cases cur with
      | none =>
        have hr : runStart f y = true := by
          simp only [Option.isSome_none, Bool.false_eq_true, false_iff, not_and,
            Bool.not_eq_false] at hc
          simp only [runStart, hf0, Bool.not_false, Bool.true_and, Bool.or_eq_true, beq_iff_eq]
          by_cases hy : y = 0
          · left; exact hy
          · right; exact hc (by omega)
        simp only [hr, Option.isSome_some, Option.isSome_none, if_true, Bool.false_eq_true,
          if_false]
        omega
      | some r =>
        have hr : runStart f y = false := by
          simp only [Option.isSome_some, true_iff] at hc
          simp only [runStart, hf0, Bool.not_false, Bool.true_and, Bool.or_eq_false_iff,
            beq_eq_false_iff_ne, ne_eq]
          exact ⟨by omega, hc.2⟩
        simp only [hr, Option.isSome_some, if_true, Bool.false_eq_true, if_false]
        omega

/-! ### Layout of the records of all columns -/

theorem blockRecords_add {T : Type} (tr : T → Bool) (pixels : Nat → T) (h : Nat) :
    ∀ (a b x : Nat), blockRecords tr pixels h (a + b) x
      = blockRecords tr pixels h a x ++ blockRecords tr pixels h b (x + a) := by
  intro a
  induction a with
  | zero => intro b x; simp [blockRecords]
  | succ a ih =>
    intro b x
    rw [show a + 1 + b = (a + b) + 1 by omega]
    simp only [blockRecords, ih b (x + 1), List.append_assoc, List.cons_append]
    rw [show x + 1 + a = x + (a + 1) by omega]

theorem blockOffsets_length {T : Type} (tr : T → Bool) (pixels : Nat → T) (h : Nat) :
    ∀ (n x p : Nat), (blockOffsets tr pixels h n x p).length = n := by
  intro n
  induction n with
  | zero => intro x p; rfl
  | succ n ih => intro x p; simp [blockOffsets, ih]

theorem blockOffsets_get {T : Type} (tr : T → Bool) (pixels : Nat → T) (h : Nat) :
    ∀ (n x p j : Nat), j < n →
      (blockOffsets tr pixels h n x p)[j]? = some (p + (blockRecords tr pixels h j x).length) := by
  intro n
  induction n with
  | zero => intro x p j hj; omega
  | succ n ih =>
    intro x p j hj
    cases j with
    | zero => simp [blockOffsets, blockRecords]
    | succ j =>
      simp only [blockOffsets, List.getElem?_cons_succ]
      rw [ih (x + 1) _ j (by omega), blockRecords_length_succ]
      congr 1
      omega

theorem columnRuns_length {T : Type} (tr : T → Bool) (pixels : Nat → T) (h x : Nat) :
    (columnRuns tr pixels h x).length = numRuns (columnFlags tr pixels h x) h := by
  have := scanRuns_length (columnFlags tr pixels h x) h 0 none (by simp)
  simpa [columnRuns, numRuns, List.range_eq_range'] using this

theorem blockRecords_length {T : Type} (tr : T → Bool) (pixels : Nat → T) (h : Nat) :
    ∀ n : Nat, (blockRecords tr pixels h n 0).length = n + runsBefore tr pixels h n := by
  intro n
  induction n with
  | zero => simp [blockRecords, runsBefore]
  | succ n ih =>
    rw [blockRecords_add tr pixels h n 1 0, List.length_append, ih]
    simp only [blockRecords, runsBefore, List.range_succ, List.map_append, List.sum_append,
      List.length_append, List.length_cons, List.length_nil, List.map_cons, List.map_nil,
      List.sum_cons, List.sum_nil, Nat.zero_add, columnRuns_length]
    omega

theorem columnRuns_props {T : Type} (tr : T → Bool) (pixels : Nat → T) (h x : Nat) :
    ∀ s ∈ columnRuns tr pixels h x,
      1 ≤ s.Length ∧ s.TopOffset + s.Length ≤ h ∧
      (s.TopOffset = 0 ∨ columnFlags tr pixels h x (s.TopOffset - 1) = true) ∧
      (s.TopOffset + s.Length = h ∨ columnFlags tr pixels h x (s.TopOffset + s.Length) = true) := by
  intro s hs
  have := scanRuns_mem (columnFlags tr pixels h x) h 0 none (Or.inl rfl) s hs
  simpa using this

theorem columnRuns_cover {T : Type} (tr : T → Bool) (pixels : Nat → T) (h x z : Nat) :
    (∃ s ∈ columnRuns tr pixels h x, s.TopOffset ≤ z ∧ z < s.TopOffset + s.Length) ↔
      (z < h ∧ tr (pixels (x * h + z)) = false) := by
  have := scanRuns_cover (columnFlags tr pixels h x) h 0 none (by simp) z
  simpa [columnRuns, columnFlags] using this

theorem columnRuns_ne_terminator {T : Type} (tr : T → Bool) (pixels : Nat → T) (h x : Nat) :
    ∀ s ∈ columnRuns tr pixels h x, s ≠ terminator := by
  intro s hs he
  have := (columnRuns_props tr pixels h x s hs).1
  rw [he] at this
  simp [terminator] at this

/-! ### Reading a column back -/

theorem readSpans_spec (done runs : List FSoftwareTextureSpan) (rest : SpanMem)
    (hne : ∀ r ∈ runs, r ≠ terminator) :
    ∀ fuel : Nat, runs.length + 1 ≤ fuel →
      readSpans (done.map some ++ (runs.map some ++ some terminator :: rest)) fuel done.length
        = some (runs ++ [terminator]) := by
  induction runs generalizing done with
  | nil =>
    intro fuel hfuel
    obtain ⟨fuel, rfl⟩ : ∃ k, fuel = k + 1 := ⟨fuel - 1, by simp at hfuel; omega⟩
    have g := get_at_length (done.map some) (some terminator) rest
    rw [List.length_map] at g
    simp [readSpans, g]
  | cons r runs ih =>
    intro fuel hfuel
    obtain ⟨fuel, rfl⟩ : ∃ k, fuel = k + 1 := ⟨fuel - 1, by simp at hfuel; omega⟩
    have g := get_at_length (done.map some) (some r)
      (runs.map some ++ some terminator :: rest)
    rw [List.length_map] at g
    have hr : r ≠ terminator := hne r (by simp)
    have hi := ih (done ++ [r]) (fun s hs => hne s (by simp [hs])) fuel
      (by simp at hfuel; omega)
    simp only [List.map_append, List.map_cons, List.map_nil, List.append_assoc,
      List.singleton_append, List.length_append, List.length_singleton] at hi
    simp only [List.map_cons, List.cons_append, readSpans, g, hr, if_false, hi, Option.map_some']

/-- The masked branch returns a table whose column `x` reads back as the runs of the column
followed by the terminator. -/
theorem CreateSpans_column {T : Type} (tr : T → Bool) (pixels : Nat → T) (w h x : Nat)
    (hx : x < w) :
    ∃ t, CreateSpans tr true w h pixels = some t ∧
      t.spans[x]? = some (x + runsBefore tr pixels h x) ∧
      t.mem[x + runsBefore tr pixels h x]?
        = some (some ((columnRuns tr pixels h x ++ [terminator]).head (by simp))) ∧
      columnSpans t x = some (columnRuns tr pixels h x ++ [terminator]) := by
  refine ⟨_, CreateSpans_masked tr pixels w h, ?_, ?_, ?_⟩
  · simp only
    rw [blockOffsets_get tr pixels h w 0 0 x hx, blockRecords_length]
    simp
  · simp only
    obtain ⟨k, rfl⟩ : ∃ k, w = x + (1 + k) := ⟨w - x - 1, by omega⟩
    rw [blockRecords_add, blockRecords_add, ← blockRecords_length tr pixels h x]
    simp only [blockRecords, List.map_append, Nat.zero_add]
    rw [List.append_assoc]
    have hl : (List.map some (blockRecords tr pixels h x 0)).length
        = (blockRecords tr pixels h x 0).length := List.length_map _ _
    rw [← hl, List.getElem?_append_right (le_refl _)]
    simp only [Nat.sub_self]
    cases hc : columnRuns tr pixels h x <;> simp
  · simp only [columnSpans]
    rw [blockOffsets_get tr pixels h w 0 0 x hx]
    simp only [Nat.zero_add]
    obtain ⟨k, rfl⟩ : ∃ k, w = x + (1 + k) := ⟨w - x - 1, by omega⟩
    rw [blockRecords_add, blockRecords_add]
    simp only [blockRecords, List.map_append, List.map_cons, Nat.zero_add, List.append_nil,
      List.append_assoc, List.cons_append]
    apply readSpans_spec _ _ _ (columnRuns_ne_terminator tr pixels h x)
    simp
    omega

/-! ### Translucency tests -/

theorem and_alpha_mask (v : Nat) : v &&& 0xff000000 = ((v >>> 24) % 256) <<< 24 := by
  have h1 : (0xff000000 : Nat) = (2 ^ 8 - 1) <<< 24 := by decide
  have h2 : (256 : Nat) = 2 ^ 8 := by norm_num
  rw [h1, h2, ← Nat.and_pow_two_sub_one_eq_mod]
  apply Nat.eq_of_testBit_eq
  intro i
  simp only [Nat.testBit_and, Nat.testBit_shiftLeft, Nat.testBit_shiftRight,
    Nat.testBit_two_pow_sub_one]
  by_cases hi : 24 ≤ i
  · simp [hi, Nat.add_sub_cancel' hi]
  · simp [hi]

theorem isTranslucent_uint8_false (v : Nat) : isTranslucent_uint8 v = false ↔ v ≠ 0 := by
  simp [isTranslucent_uint8]

theorem isTranslucent_uint32_false (v : Nat) :
    isTranslucent_uint32 v = false ↔ (v >>> 24) % 256 ≠ 0 := by
  simp only [isTranslucent_uint32, and_alpha_mask]
  simp [Nat.shiftLeft_eq]

/-! ### Claims on the span builder -/

theorem CreateSpans_cover {T : Type} (tr : T → Bool) (pixels : Nat → T) (w h x : Nat)
    (hx : x < w) :
    ∃ t l, CreateSpans tr true w h pixels = some t ∧ columnSpans t x = some l ∧
      ∀ y, (∃ r ∈ l, r ≠ terminator ∧ r.TopOffset ≤ y ∧ y < r.TopOffset + r.Length) ↔
        (y < h ∧ tr (pixels (y + x * h)) = false) := by
  obtain ⟨t, h1, -, -, h2⟩ := CreateSpans_column tr pixels w h x hx
  refine ⟨t, _, h1, h2, ?_⟩
  intro y
  rw [Nat.add_comm y, ← columnRuns_cover tr pixels h x y]
  constructor
  · rintro ⟨r, hr, hne, h3, h4⟩
    rw [List.mem_append, List.mem_singleton] at hr
    rcases hr with hr | hr
    · exact ⟨r, hr, h3, h4⟩
    · exact absurd hr hne
  · rintro ⟨r, hr, h3, h4⟩
    exact ⟨r, List.mem_append_left _ hr, columnRuns_ne_terminator tr pixels h x r hr, h3, h4⟩

/-- C1 (span coverage).  For a masked column-major buffer of width `w` and height `h` (in
particular for `w ≥ 1` and `h ≥ 1`) and a column `x < w`, `CreateSpans` returns a table, and
the row intervals
`[TopOffset, TopOffset + Length)` of the non-terminator spans in the list of column `x` cover
exactly the rows `y < h` whose pixel `pixels[y + x*h]` is not translucent: a pixel other
than 0 for 8-bit pixels, a pixel whose alpha byte is not 0 for 32-bit pixels. -/
theorem C1_span_coverage (w h x : Nat) (hx : x < w) :
    (∀ pixels : Nat → Nat, ∃ t l,
        CreateSpans isTranslucent_uint8 true w h pixels = some t ∧ columnSpans t x = some l ∧
        ∀ y, (∃ r ∈ l, r ≠ terminator ∧ r.TopOffset ≤ y ∧ y < r.TopOffset + r.Length) ↔
          (y < h ∧ pixels (y + x * h) ≠ 0)) ∧
    (∀ pixels : Nat → Nat, ∃ t l,
        CreateSpans isTranslucent_uint32 true w h pixels = some t ∧ columnSpans t x = some l ∧
        ∀ y, (∃ r ∈ l, r ≠ terminator ∧ r.TopOffset ≤ y ∧ y < r.TopOffset + r.Length) ↔
          (y < h ∧ (pixels (y + x * h) >>> 24) % 256 ≠ 0)) := by
  constructor
  · intro pixels
    obtain ⟨t, l, h1, h2, h3⟩ := CreateSpans_cover isTranslucent_uint8 pixels w h x hx
    refine ⟨t, l, h1, h2, fun y => ?_⟩
    rw [h3 y, isTranslucent_uint8_false]
  · intro pixels
    obtain ⟨t, l, h1, h2, h3⟩ := CreateSpans_cover isTranslucent_uint32 pixels w h x hx
    refine ⟨t, l, h1, h2, fun y => ?_⟩
    rw [h3 y, isTranslucent_uint32_false]

/-- Witness of C1 for a buffer of one column of two rows. -/
theorem C1_span_coverage_witness : 0 < 1 ∧
    ((∀ pixels : Nat → Nat, ∃ t l,
        CreateSpans isTranslucent_uint8 true 1 2 pixels = some t ∧ columnSpans t 0 = some l ∧
        ∀ y, (∃ r ∈ l, r ≠ terminator ∧ r.TopOffset ≤ y ∧ y < r.TopOffset + r.Length) ↔
          (y < 2 ∧ pixels (y + 0 * 2) ≠ 0)) ∧
    (∀ pixels : Nat → Nat, ∃ t l,
        CreateSpans isTranslucent_uint32 true 1 2 pixels = some t ∧ columnSpans t 0 = some l ∧
        ∀ y, (∃ r ∈ l, r ≠ terminator ∧ r.TopOffset ≤ y ∧ y < r.TopOffset + r.Length) ↔
          (y < 2 ∧ (pixels (y + 0 * 2) >>> 24) % 256 ≠ 0))) :=
  ⟨by decide, C1_span_coverage 1 2 0 (by decide)⟩

/-- C2 (shape of a span list).  For a masked buffer and a column `x`, the list that
`CreateSpans` stores for the column is a sequence `runs` of spans followed by the sentinel
`Span{0,0}`; every span of `runs` has `Length ≥ 1`, ends inside the column and differs from
the sentinel; each span starts strictly below the end of the previous one (so the spans are
pairwise disjoint and strictly increasing in `TopOffset`); and each span is a maximal opaque
run: its rows are opaque and it is bounded by a translucent row or an end of the column. -/
theorem C2_span_list_shape {T : Type} (isTranslucent : T → Bool) (pixels : Nat → T)
    (w h x : Nat) (hx : x < w) :
    ∃ t runs, CreateSpans isTranslucent true w h pixels = some t ∧
      columnSpans t x = some (runs ++ [terminator]) ∧
      (∀ r ∈ runs, 1 ≤ r.Length ∧ r.TopOffset + r.Length ≤ h ∧ r ≠ terminator) ∧
      runs.Chain' (fun a b => a.TopOffset + a.Length < b.TopOffset) ∧
      runs.Pairwise (fun a b => a.TopOffset + a.Length < b.TopOffset) ∧
      runs.Pairwise (fun a b => a.TopOffset < b.TopOffset) ∧
      (∀ r ∈ runs,
        (∀ y, r.TopOffset ≤ y → y < r.TopOffset + r.Length →
          isTranslucent (pixels (y + x * h)) = false) ∧
        (r.TopOffset = 0 ∨ isTranslucent (pixels (r.TopOffset - 1 + x * h)) = true) ∧
        (r.TopOffset + r.Length = h ∨
          isTranslucent (pixels (r.TopOffset + r.Length + x * h)) = true)) := by
  obtain ⟨t, h1, -, -, h2⟩ := CreateSpans_column isTranslucent pixels w h x hx
  have hp := scanRuns_pairwise (columnFlags isTranslucent pixels h x) h 0 none (by simp)
  refine ⟨t, columnRuns isTranslucent pixels h x, h1, h2, ?_, ?_, hp, ?_, ?_⟩
  · intro r hr
    have := columnRuns_props isTranslucent pixels h x r hr
    exact ⟨this.1, this.2.1, columnRuns_ne_terminator isTranslucent pixels h x r hr⟩
  · exact hp.chain'
  · exact hp.imp (fun hab => by omega)
  · intro r hr
    have hprops := columnRuns_props isTranslucent pixels h x r hr
    refine ⟨?_, ?_, ?_⟩
    · intro y hy1 hy2
      have := (columnRuns_cover isTranslucent pixels h x y).mp ⟨r, hr, hy1, hy2⟩
      rw [Nat.add_comm]; exact this.2
    · rcases hprops.2.2.1 with hz | hz
      · exact Or.inl hz
      · right; rw [Nat.add_comm]; exact hz
    · rcases hprops.2.2.2 with hz | hz
      · exact Or.inl hz
      · right; rw [Nat.add_comm]; exact hz

/-- Witness of C2 for the second column of a 2 x 3 buffer of 8-bit pixels. -/
theorem C2_span_list_shape_witness : 1 < 2 ∧
    ∃ t runs, CreateSpans isTranslucent_uint8 true 2 3 (fun i => i % 2) = some t ∧
      columnSpans t 1 = some (runs ++ [terminator]) ∧
      (∀ r ∈ runs, 1 ≤ r.Length ∧ r.TopOffset + r.Length ≤ 3 ∧ r ≠ terminator) ∧
      runs.Chain' (fun a b => a.TopOffset + a.Length < b.TopOffset) ∧
      runs.Pairwise (fun a b => a.TopOffset + a.Length < b.TopOffset) ∧
      runs.Pairwise (fun a b => a.TopOffset < b.TopOffset) ∧
      (∀ r ∈ runs,
        (∀ y, r.TopOffset ≤ y → y < r.TopOffset + r.Length →
          isTranslucent_uint8 ((fun i => i % 2) (y + 1 * 3)) = false) ∧
        (r.TopOffset = 0 ∨ isTranslucent_uint8 ((fun i => i % 2) (r.TopOffset - 1 + 1 * 3)) = true) ∧
        (r.TopOffset + r.Length = 3 ∨
          isTranslucent_uint8 ((fun i => i % 2) (r.TopOffset + r.Length + 1 * 3)) = true)) :=
  ⟨by decide, C2_span_list_shape isTranslucent_uint8 (fun i => i % 2) 2 3 1 (by decide)⟩

theorem columnRuns_all_translucent {T : Type} (tr : T → Bool) (pixels : Nat → T) (h x : Nat)
    (hall : ∀ y, y < h → tr (pixels (y + x * h)) = true) : columnRuns tr pixels h x = [] := by
  cases hc : columnRuns tr pixels h x with
  | nil => rfl
  | cons r l =>
    have hr : r ∈ columnRuns tr pixels h x := by rw [hc]; simp
    have hp := columnRuns_props tr pixels h x r hr
    have := (columnRuns_cover tr pixels h x r.TopOffset).mp ⟨r, hr, le_refl _, by omega⟩
    have h2 := hall r.TopOffset this.1
    rw [Nat.add_comm, this.2] at h2
    exact Bool.noConfusion h2

/-- C3 (allocation exactness).  For a masked buffer, the value `numspans` of the count pass
is `width` plus the number of maximal opaque runs of all columns; the fill pass run on
exactly `numspans` fresh records succeeds (a store at an index `≥ numspans` would fail),
ends with `span` at `numspans` and leaves every one of the `numspans` records written; the
table entry of column `x` is `x` plus the number of runs in the columns before `x`; and the
entry of a column all of whose rows are translucent points at a terminator `{0,0}`. -/
theorem C3_allocation_exact {T : Type} (isTranslucent : T → Bool) (pixels : Nat → T)
    (w h x : Nat) (hx : x < w) :
    countSpans isTranslucent w h pixels = w + runsBefore isTranslucent pixels h w ∧
    ∃ s, fillSpans isTranslucent w h pixels (countSpans isTranslucent w h pixels) = some s ∧
      CreateSpans isTranslucent true w h pixels = some { spans := s.table, mem := s.mem } ∧
      s.span = countSpans isTranslucent w h pixels ∧
      s.mem.length = countSpans isTranslucent w h pixels ∧
      (∀ i, i < countSpans isTranslucent w h pixels → ∃ r, s.mem[i]? = some (some r)) ∧
      s.table.length = w ∧
      s.table[x]? = some (x + runsBefore isTranslucent pixels h x) ∧
      ((∀ y, y < h → isTranslucent (pixels (y + x * h)) = true) →
        s.mem[x + runsBefore isTranslucent pixels h x]? = some (some terminator)) := by
  obtain ⟨s, h1, h2, h3, h4⟩ := fillSpans_exact isTranslucent pixels w h
  obtain ⟨t, g1, g2, g3, -⟩ := CreateSpans_column isTranslucent pixels w h x hx
  have ht : t = { spans := s.table, mem := s.mem } := by
    have := CreateSpans_masked isTranslucent pixels w h
    rw [g1] at this
    rw [h2, h3]
    exact Option.some.inj this
  refine ⟨by rw [countSpans_eq, blockRecords_length], s, h1, by rw [g1, ht], h4, ?_, ?_, ?_,
    ?_, ?_⟩
  · rw [h3, countSpans_eq]; simp
  · intro i hi
    rw [countSpans_eq] at hi
    exact ⟨(blockRecords isTranslucent pixels h w 0)[i], by rw [h3]; simp [hi]⟩
  · rw [h2, blockOffsets_length]
  · rw [ht] at g2; exact g2
  · intro hall
    rw [ht] at g3
    simp only at g3
    rw [g3]
    simp [columnRuns_all_translucent isTranslucent pixels h x hall]

/-- Witness of C3 for the second column of a 2 x 3 buffer of 8-bit pixels. -/
theorem C3_allocation_exact_witness : 1 < 2 ∧
    (countSpans isTranslucent_uint8 2 3 (fun i => i % 2)
      = 2 + runsBefore isTranslucent_uint8 (fun i => i % 2) 3 2 ∧
    ∃ s, fillSpans isTranslucent_uint8 2 3 (fun i => i % 2)
        (countSpans isTranslucent_uint8 2 3 (fun i => i % 2)) = some s ∧
      CreateSpans isTranslucent_uint8 true 2 3 (fun i => i % 2)
        = some { spans := s.table, mem := s.mem } ∧
      s.span = countSpans isTranslucent_uint8 2 3 (fun i => i % 2) ∧
      s.mem.length = countSpans isTranslucent_uint8 2 3 (fun i => i % 2) ∧
      (∀ i, i < countSpans isTranslucent_uint8 2 3 (fun i => i % 2) →
        ∃ r, s.mem[i]? = some (some r)) ∧
      s.table.length = 2 ∧
      s.table[1]? = some (1 + runsBefore isTranslucent_uint8 (fun i => i % 2) 3 1) ∧
      ((∀ y, y < 3 → isTranslucent_uint8 ((fun i => i % 2) (y + 1 * 3)) = true) →
        s.mem[1 + runsBefore isTranslucent_uint8 (fun i => i % 2) 3 1]?
          = some (some terminator))) :=
  ⟨by decide, C3_allocation_exact isTranslucent_uint8 (fun i => i % 2) 2 3 1 (by decide)⟩

/-- C4 (unmasked branch).  For an unmasked texture of width `w ≥ 1` (there is a column
`x < w`) and height `h`, whatever the pixels, `CreateSpans` returns a table of `w` entries that all point at record 0 of one
shared pair of records, which is `[Span{0, h}, Span{0, 0}]`; read as a span list, column `x`
is that pair (for `h = 0` the first record is itself the sentinel). -/
theorem C4_unmasked_shared {T : Type} (isTranslucent : T → Bool) (pixels : Nat → T)
    (w h x : Nat) (hx : x < w) :
    ∃ t, CreateSpans isTranslucent false w h pixels = some t ∧
      t.mem = [some { TopOffset := 0, Length := h }, some { TopOffset := 0, Length := 0 }] ∧
      t.spans.length = w ∧ t.spans[x]? = some 0 ∧ (∀ x1, x1 < w → t.spans[x1]? = t.spans[x]?) ∧
      columnSpans t x = some (if h = 0 then [{ TopOffset := 0, Length := 0 }]
        else [{ TopOffset := 0, Length := h }, { TopOffset := 0, Length := 0 }]) := by
  have hget : ∀ x1, x1 < w → (List.replicate w 0)[x1]? = some 0 := by
    intro x1 hx1
    simp [List.getElem?_replicate, hx1]
  refine ⟨{ spans := List.replicate w 0,
            mem := [some { TopOffset := 0, Length := h },
                    some { TopOffset := 0, Length := 0 }] }, ?_, rfl, by simp, hget x hx, ?_, ?_⟩
  · simp [CreateSpans, storeSpan, fillSharedTable_eq]
  · intro x1 hx1
    rw [hget x hx, hget x1 hx1]
  · simp only [columnSpans, hget x hx]
    by_cases hh : h = 0
    · subst hh
      simp [readSpans, terminator]
    · have hne : ({ TopOffset := 0, Length := h } : FSoftwareTextureSpan) ≠ terminator := by
        intro he
        simp [terminator] at he
        exact hh he
      simp [readSpans, hh, hne, terminator]

/-- Witness of C4 for the second column of a 2 x 3 texture. -/
theorem C4_unmasked_shared_witness : 1 < 2 ∧
    ∃ t, CreateSpans isTranslucent_uint8 false 2 3 (fun i => i % 2) = some t ∧
      t.mem = [some { TopOffset := 0, Length := 3 }, some { TopOffset := 0, Length := 0 }] ∧
      t.spans.length = 2 ∧ t.spans[1]? = some 0 ∧ (∀ x1, x1 < 2 → t.spans[x1]? = t.spans[1]?) ∧
      columnSpans t 1 = some (if 3 = 0 then [{ TopOffset := 0, Length := 0 }]
        else [{ TopOffset := 0, Length := 3 }, { TopOffset := 0, Length := 0 }]) :=
  ⟨by decide, C4_unmasked_shared isTranslucent_uint8 (fun i => i % 2) 2 3 1 (by decide)⟩

/-! ### CalcBitSize -/

theorem bitLoop_eq (t : Nat) :
    ∀ (fuel i : Nat), i ≤ Nat.clog 2 t → Nat.clog 2 t - i < fuel →
      bitLoop t fuel i = some (Nat.clog 2 t) := by
  intro fuel
  induction fuel with
  | zero => intro i _ h; omega
  | succ fuel ih =>
    intro i hi hfuel
    by_cases hlt : 1 <<< i < t
    · have hne : ¬ Nat.clog 2 t ≤ i := by
        rw [← Nat.le_pow_iff_clog_le (by norm_num)]
        rw [Nat.one_shiftLeft] at hlt
        omega
      simp only [bitLoop, hlt, if_true]
      exact ih (i + 1) (by omega) (by omega)
    · have hle : Nat.clog 2 t ≤ i := by
        rw [← Nat.le_pow_iff_clog_le (by norm_num)]
        rw [Nat.one_shiftLeft] at hlt
        omega
      simp only [bitLoop, hlt, if_false]
      congr 1
      omega

theorem clog_two_le_self (t : Nat) : Nat.clog 2 t ≤ t := by
  rw [← Nat.le_pow_iff_clog_le (by norm_num)]
  exact (Nat.lt_two_pow t).le

theorem bitLoop_top (t : Nat) : bitLoop t (t + 1) 0 = some (Nat.clog 2 t) :=
  bitLoop_eq t (t + 1) 0 (Nat.zero_le _) (by have := clog_two_le_self t; omega)

/-- Closed form of `CalcBitSize` for a positive width. -/
theorem CalcBitSize_eq (w h : Nat) (hw : 0 < w) :
    CalcBitSize w h = some { WidthBits := Nat.log 2 w, WidthMask := 2 ^ Nat.log 2 w - 1,
                             HeightBits := Nat.clog 2 h } := by
  have hc : w ≤ 2 ^ Nat.clog 2 w := Nat.le_pow_clog (by norm_num) w
  simp only [CalcBitSize, bitLoop_top, Option.some_bind, Nat.one_shiftLeft, Option.map_some']
  by_cases hlt : w < 2 ^ Nat.clog 2 w
  · have h0 : Nat.clog 2 w ≠ 0 := by
      intro h0
      rw [h0] at hlt
      simp at hlt
      omega
    have hlow : 2 ^ (Nat.clog 2 w - 1) ≤ w := by
      by_contra hcon
      have : Nat.clog 2 w ≤ Nat.clog 2 w - 1 :=
        (Nat.le_pow_iff_clog_le (by norm_num)).mp (by omega)
      omega
    have hlog : Nat.log 2 w = Nat.clog 2 w - 1 :=
      Nat.log_eq_of_pow_le_of_lt_pow hlow (by
        rw [Nat.sub_add_cancel (Nat.one_le_iff_ne_zero.mpr h0)]; exact hlt)
    simp [hlt, h0, hlog]
  · have heq : w = 2 ^ Nat.clog 2 w := by omega
    have hlog : Nat.log 2 w = Nat.clog 2 w := by
      conv_lhs => rw [heq]
      exact Nat.log_pow (by norm_num) _
    simp [hlt, hlog]

theorem wrapColumn_eq_mod (w k column : Nat) :
    wrapColumn w (2 ^ k - 1) column = column % w := by
  have hk : 0 < 2 ^ k := Nat.two_pow_pos _
  unfold wrapColumn
  by_cases hge : column ≥ w
  · by_cases hm : 2 ^ k - 1 + 1 = w
    · have hw2 : w = 2 ^ k := by omega
      rw [if_pos hge, if_pos hm, Nat.and_pow_two_sub_one_eq_mod, hw2]
    · rw [if_pos hge, if_neg hm]
  · rw [if_neg hge]
    exact (Nat.mod_eq_of_lt (by omega)).symm

theorem pow_log_eq_iff (w : Nat) (hw : 0 < w) : 2 ^ Nat.log 2 w = w ↔ ∃ k, w = 2 ^ k := by
  constructor
  · intro h; exact ⟨_, h.symm⟩
  · rintro ⟨k, rfl⟩
    rw [Nat.log_pow (by norm_num)]

/-- C5 (column wrap).  For a positive width and any column value, with the `WidthMask` that
`CalcBitSize` assigned, the column index used by `GetColumn` and by `GetColumnBgra` is
`column mod width` (so it lies in `[0, width)`) and the returned pointer is at
`(column mod width) * height`, whichever branch is taken; `column = width` gives the same
result as `column = 0`; the mask test `WidthMask + 1 == width` holds exactly when the width
is a power of two, and then the mask `column & WidthMask` is `column mod width`. -/
theorem C5_column_wrap (w h column : Nat) (hw : 0 < w) :
    ∃ bs, CalcBitSize w h = some bs ∧
      GetColumn w h bs.WidthMask column = (column % w, column % w * h) ∧
      GetColumnBgra w h bs.WidthMask column = (column % w, column % w * h) ∧
      column % w < w ∧
      GetColumn w h bs.WidthMask w = GetColumn w h bs.WidthMask 0 ∧
      GetColumnBgra w h bs.WidthMask w = GetColumnBgra w h bs.WidthMask 0 ∧
      (bs.WidthMask + 1 = w ↔ ∃ k, w = 2 ^ k) ∧
      (bs.WidthMask + 1 = w → column &&& bs.WidthMask = column % w) := by
  have hk : 0 < 2 ^ Nat.log 2 w := Nat.two_pow_pos _
  refine ⟨_, CalcBitSize_eq w h hw, ?_, ?_, Nat.mod_lt _ hw, ?_, ?_, ?_, ?_⟩
  · simp only [GetColumn, wrapColumn_eq_mod w _ column]
  · simp only [GetColumnBgra, wrapColumn_eq_mod w _ column]
  · simp only [GetColumn, wrapColumn_eq_mod w _ _, Nat.mod_self, Nat.zero_mod]
  · simp only [GetColumnBgra, wrapColumn_eq_mod w _ _, Nat.mod_self, Nat.zero_mod]
  · simp only
    rw [← pow_log_eq_iff w hw]
    omega
  · simp only
    intro hm
    have hw2 : w = 2 ^ Nat.log 2 w := by omega
    rw [Nat.and_pow_two_sub_one_eq_mod, ← hw2]

/-- Witness of C5 at width 6, height 4 and column 6. -/
theorem C5_column_wrap_witness : 0 < 6 ∧
    ∃ bs, CalcBitSize 6 4 = some bs ∧
      GetColumn 6 4 bs.WidthMask 6 = (6 % 6, 6 % 6 * 4) ∧
      GetColumnBgra 6 4 bs.WidthMask 6 = (6 % 6, 6 % 6 * 4) ∧
      6 % 6 < 6 ∧
      GetColumn 6 4 bs.WidthMask 6 = GetColumn 6 4 bs.WidthMask 0 ∧
      GetColumnBgra 6 4 bs.WidthMask 6 = GetColumnBgra 6 4 bs.WidthMask 0 ∧
      (bs.WidthMask + 1 = 6 ↔ ∃ k, 6 = 2 ^ k) ∧
      (bs.WidthMask + 1 = 6 → 6 &&& bs.WidthMask = 6 % 6) :=
  ⟨by decide, C5_column_wrap 6 4 6 (by decide)⟩

/-- C7 (width bits).  For a positive width `w`, `CalcBitSize` returns, and its `WidthBits`
satisfies `2^WidthBits ≤ w < 2^(WidthBits+1)`, with `2^WidthBits = w` when `w` is a power
of two; `WidthMask = 2^WidthBits - 1`, so that `WidthMask + 1 ≤ w`. -/
theorem C7_width_bits (w h : Nat) (hw : 0 < w) :
    ∃ bs, CalcBitSize w h = some bs ∧
      2 ^ bs.WidthBits ≤ w ∧ w < 2 ^ (bs.WidthBits + 1) ∧
      ((∃ k, w = 2 ^ k) → 2 ^ bs.WidthBits = w) ∧
      bs.WidthMask = 2 ^ bs.WidthBits - 1 ∧ bs.WidthMask + 1 ≤ w := by
  have hk : 0 < 2 ^ Nat.log 2 w := Nat.two_pow_pos _
  have hle : 2 ^ Nat.log 2 w ≤ w := Nat.pow_log_le_self 2 (by omega)
  refine ⟨_, CalcBitSize_eq w h hw, hle, Nat.lt_pow_succ_log_self (by norm_num) w,
    (pow_log_eq_iff w hw).mpr, rfl, ?_⟩
  simp only
  omega

/-- Witness of C7 at width 17 and height 5. -/
theorem C7_width_bits_witness : 0 < 17 ∧
    ∃ bs, CalcBitSize 17 5 = some bs ∧
      2 ^ bs.WidthBits ≤ 17 ∧ 17 < 2 ^ (bs.WidthBits + 1) ∧
      ((∃ k, 17 = 2 ^ k) → 2 ^ bs.WidthBits = 17) ∧
      bs.WidthMask = 2 ^ bs.WidthBits - 1 ∧ bs.WidthMask + 1 ≤ 17 :=
  ⟨by decide, C7_width_bits 17 5 (by decide)⟩

/-- C8 (height bits).  For a positive width and every height `h` (also `h = 1`),
`CalcBitSize` returns, and its `HeightBits` is the least `i` with `2^i ≥ h`, i.e. the ceiling
of `log2 h`, which is 0 for `h = 1`; it is not adjusted downwards, and it is the same for
every positive width. -/
theorem C8_height_bits (w h : Nat) (hw : 0 < w) :
    ∃ bs, CalcBitSize w h = some bs ∧
      h ≤ 2 ^ bs.HeightBits ∧ (∀ i, h ≤ 2 ^ i → bs.HeightBits ≤ i) ∧
      bs.HeightBits = Nat.clog 2 h ∧ (h = 1 → bs.HeightBits = 0) ∧
      (∀ w1, 0 < w1 → ∃ bs1, CalcBitSize w1 h = some bs1 ∧ bs1.HeightBits = bs.HeightBits) := by
  refine ⟨_, CalcBitSize_eq w h hw, Nat.le_pow_clog (by norm_num) h, ?_, rfl, ?_, ?_⟩
  · intro i hi
    exact (Nat.le_pow_iff_clog_le (by norm_num)).mp hi
  · intro h1
    simp only [h1]
    exact Nat.clog_one_right 2
  · intro w1 hw1
    exact ⟨_, CalcBitSize_eq w1 h hw1, rfl⟩

/-- Witness of C8 at width 17 and height 5. -/
theorem C8_height_bits_witness : 0 < 17 ∧
    ∃ bs, CalcBitSize 17 5 = some bs ∧
      5 ≤ 2 ^ bs.HeightBits ∧ (∀ i, 5 ≤ 2 ^ i → bs.HeightBits ≤ i) ∧
      bs.HeightBits = Nat.clog 2 5 ∧ (5 = 1 → bs.HeightBits = 0) ∧
      (∀ w1, 0 < w1 → ∃ bs1, CalcBitSize w1 5 = some bs1 ∧ bs1.HeightBits = bs.HeightBits) :=
  ⟨by decide, C8_height_bits 17 5 (by decide)⟩

/-! ### Transposition -/

theorem transposeColumn_spec {α : Type} (src : Nat → α) (w h x : Nat) :
    ∀ (n y : Nat) (done rest : List α) (s : TransposeState α),
      s.dest = done ++ rest → done.length = y + x * h → n ≤ rest.length →
      ∃ s1, transposeColumn src w h x n y s = some s1 ∧
        s1.dest = done ++ (List.range' y n).map (fun y1 => src (x + y1 * w)) ++ rest.drop n ∧
        s1.writes = s.writes ++ List.range' (y + x * h) n := by
  intro n
  induction n with
  | zero =>
    intro y done rest s hd _ _
    exact ⟨s, rfl, by simpa using hd, by simp⟩
  | succ n ih =>
    intro y done rest s hd hlen hroom
    obtain ⟨c, rest1, rfl⟩ : ∃ c rest1, rest = c :: rest1 := by
      cases rest with
      | nil => simp at hroom
      | cons c rest1 => exact ⟨c, rest1, rfl⟩
    have hcell : transposeCell src w h x y s
        = some { dest := done ++ src (x + y * w) :: rest1,
                 writes := s.writes ++ [y + x * h] } := by
      have hlt : y + x * h < s.dest.length := by rw [hd, ← hlen]; simp
      simp only [transposeCell, hlt, if_true]
      rw [hd, ← hlen, set_at_length]
    obtain ⟨s1, h1, h2, h3⟩ := ih (y + 1) (done ++ [src (x + y * w)]) rest1
      { dest := done ++ src (x + y * w) :: rest1, writes := s.writes ++ [y + x * h] }
      (by simp) (by simp; omega) (by simpa using hroom)
    refine ⟨s1, ?_, ?_, ?_⟩
    · simp only [transposeColumn, hcell, Option.some_bind, h1]
    · rw [h2, List.range'_succ]
      simp
    · rw [h3, List.range'_succ]
      simp only [List.append_assoc, List.singleton_append]
      rw [show y + 1 + x * h = y + x * h + 1 by omega]

theorem transposedCells_length {α : Type} (src : Nat → α) (w h : Nat) :
    ∀ (n x : Nat), (transposedCells src w h n x).length = n * h := by
  intro n
  induction n with
  | zero => intro x; simp [transposedCells]
  | succ n ih =>
    intro x
    simp only [transposedCells, List.length_append, List.length_map, List.length_range', ih]
    ring

theorem transposeColumns_spec {α : Type} (src : Nat → α) (w h : Nat) :
    ∀ (n x : Nat) (done rest : List α) (s : TransposeState α),
      s.dest = done ++ rest → done.length = x * h → n * h ≤ rest.length →
      ∃ s1, transposeColumns src w h n x s = some s1 ∧
        s1.dest = done ++ transposedCells src w h n x ++ rest.drop (n * h) ∧
        s1.writes = s.writes ++ List.range' (x * h) (n * h) := by
  intro n
  induction n with
  | zero =>
    intro x done rest s hd _ _
    exact ⟨s, rfl, by simpa [transposedCells] using hd, by simp⟩
  | succ n ih =>
    intro x done rest s hd hlen hroom
    have hroom1 : h + n * h ≤ rest.length := by
      have : (n + 1) * h = h + n * h := by ring
      omega
    obtain ⟨s1, h1, h2, h3⟩ := transposeColumn_spec src w h x h 0 done rest s hd
      (by simpa using hlen) (by omega)
    obtain ⟨s2, g1, g2, g3⟩ := ih (x + 1)
      (done ++ (List.range' 0 h).map (fun y1 => src (x + y1 * w))) (rest.drop h) s1
      (by rw [h2]) (by simp [hlen, Nat.add_mul]) (by simp; omega)
    refine ⟨s2, ?_, ?_, ?_⟩
    · simp only [transposeColumns, h1, Option.some_bind, g1]
    · rw [g2]
      simp only [transposedCells, List.append_assoc, List.drop_drop]
      rw [show h + n * h = (n + 1) * h by ring]
    · rw [g3, h3, List.append_assoc]
      simp only [Nat.zero_add]
      rw [show (x + 1) * h = x * h + h by ring, List.range'_append_1,
        show n * h + h = (n + 1) * h by ring]

theorem transposedCells_get {α : Type} (src : Nat → α) (w h : Nat) :
    ∀ (n x j y : Nat), j < n → y < h →
      (transposedCells src w h n x)[y + j * h]? = some (src (x + j + y * w)) := by
  intro n
  induction n with
  | zero => intro x j y hj; omega
  | succ n ih =>
    intro x j y hj hy
    cases j with
    | zero =>
      simp only [transposedCells, Nat.zero_mul, Nat.add_zero]
      rw [List.getElem?_append_left (by simpa using hy), List.getElem?_map,
        List.getElem?_range' _ _ hy]
      simp
    | succ j =>
      simp only [transposedCells]
      rw [List.getElem?_append_right (by simp; nlinarith)]
      simp only [List.length_map, List.length_range']
      rw [show y + (j + 1) * h - h = y + j * h by
        have : (j + 1) * h = j * h + h := by ring
        omega]
      rw [ih (x + 1) j y (by omega) hy]
      congr 2
      omega

theorem filterMap_eq_map_of {α β : Type} (f : α → Option β) (g : α → β) :
    ∀ l : List α, (∀ a ∈ l, f a = some (g a)) → l.filterMap f = l.map g := by
  intro l
  induction l with
  | nil => intro _; rfl
  | cons a l ih =>
    intro hl
    rw [List.filterMap_cons, hl a (by simp), List.map_cons, ih (fun b hb => hl b (by simp [hb]))]

/-- C6 (transposition).  For a row-major `w x h` bitmap `src` and a destination buffer with
at least `w*h` cells, the transposition loop of `GenerateBgraFromBitmap` succeeds, writes
each of the cells `0, ..., w*h-1` of the destination exactly once and no other cell, leaves
`dest[y + x*h] = src[x + y*w]` for all `x < w`, `y < h`, keeps the cells from `w*h` on, and
reading the result back through the inverse index mapping gives the bitmap again:
`untranspose (transpose B) = B`. -/
theorem C6_transpose_roundtrip {α : Type} (src : Nat → α) (w h : Nat) (dest : List α)
    (hlen : w * h ≤ dest.length) :
    ∃ s, transposeBitmap src w h dest = some s ∧
      s.dest.length = dest.length ∧
      s.writes = List.range (w * h) ∧
      (∀ i, s.writes.count i = if i < w * h then 1 else 0) ∧
      (∀ x y, x < w → y < h → s.dest[y + x * h]? = some (src (x + y * w))) ∧
      (∀ i, w * h ≤ i → s.dest[i]? = dest[i]?) ∧
      untranspose w h s.dest = (List.range (w * h)).map src := by
  obtain ⟨s, h1, h2, h3⟩ := transposeColumns_spec src w h w 0 [] dest
    { dest := dest, writes := [] } rfl (by simp) hlen
  simp only [List.nil_append, Nat.zero_mul] at h2 h3
  have hcells : ∀ x y, x < w → y < h → s.dest[y + x * h]? = some (src (x + y * w)) := by
    intro x y hx hy
    rw [h2, List.getElem?_append_left, transposedCells_get src w h w 0 x y hx hy]
    · simp
    · rw [transposedCells_length]
      nlinarith
  refine ⟨s, h1, ?_, ?_, ?_, hcells, ?_, ?_⟩
  · rw [h2]
    simp [transposedCells_length]
    omega
  · rw [h3, List.range_eq_range']
  · intro i
    rw [h3, ← List.range_eq_range']
    by_cases hi : i < w * h
    · rw [if_pos hi]
      exact List.count_eq_one_of_mem (List.nodup_range _) (List.mem_range.mpr hi)
    · rw [if_neg hi]
      exact List.count_eq_zero_of_not_mem (by simpa using hi)
  · intro i hi
    rw [h2, List.getElem?_append_right (by rw [transposedCells_length]; exact hi),
      transposedCells_length, List.getElem?_drop]
    congr 1
    omega
  · unfold untranspose
    apply filterMap_eq_map_of
    intro i hi
    rw [List.mem_range] at hi
    have hw : 0 < w := by
      rcases Nat.eq_zero_or_pos w with h0 | h0
      · subst h0; simp at hi
      · exact h0
    have hx : i % w < w := Nat.mod_lt _ hw
    have hy : i / w < h := by
      rw [Nat.div_lt_iff_lt_mul hw]
      rw [Nat.mul_comm]; exact hi
    have := hcells (i % w) (i / w) hx hy
    unfold untransposeIndex
    rw [this]
    congr 2
    rw [Nat.mul_comm]
    exact Nat.mod_add_div i w

/-- Witness of C6 for a 3 x 2 bitmap and a destination of 8 cells. -/
theorem C6_transpose_roundtrip_witness : 3 * 2 ≤ (List.replicate 8 (99 : Nat)).length ∧
    ∃ s, transposeBitmap (fun i : Nat => i) 3 2 (List.replicate 8 99) = some s ∧
      s.dest.length = (List.replicate 8 (99 : Nat)).length ∧
      s.writes = List.range (3 * 2) ∧
      (∀ i, s.writes.count i = if i < 3 * 2 then 1 else 0) ∧
      (∀ x y, x < 3 → y < 2 → s.dest[y + x * 2]? = some ((fun i : Nat => i) (x + y * 3))) ∧
      (∀ i, 3 * 2 ≤ i → s.dest[i]? = (List.replicate 8 (99 : Nat))[i]?) ∧
      untranspose 3 2 s.dest = (List.range (3 * 2)).map (fun i : Nat => i) :=
  ⟨by decide, C6_transpose_roundtrip (fun i : Nat => i) 3 2 (List.replicate 8 99) (by decide)⟩

/-! ### MipmapLevels -/

theorem shiftRight_ne_zero_iff (v bits : Nat) : v >>> bits ≠ 0 ↔ bits < Nat.size v := by
  rw [Nat.shiftRight_eq_div_pow, Nat.div_ne_zero_iff (Nat.two_pow_pos bits).ne', Nat.lt_size]

theorem shiftLoop_eq (v : Nat) :
    ∀ (fuel bits : Nat), bits ≤ Nat.size v → Nat.size v - bits < fuel →
      shiftLoop v fuel bits = some (Nat.size v) := by
  intro fuel
  induction fuel with
  | zero => intro bits _ h; omega
  | succ fuel ih =>
    intro bits hb hfuel
    by_cases hne : v >>> bits ≠ 0
    · have hlt := (shiftRight_ne_zero_iff v bits).mp hne
      rw [shiftLoop, if_pos hne]
      exact ih (bits + 1) (by omega) (by omega)
    · have hge : ¬ bits < Nat.size v := fun hlt => hne ((shiftRight_ne_zero_iff v bits).mpr hlt)
      rw [shiftLoop, if_neg hne]
      congr 1
      omega

theorem size_le_self (v : Nat) : Nat.size v ≤ v :=
  Nat.size_le.mpr (Nat.lt_two_pow v)

theorem shiftLoop_top (v : Nat) : shiftLoop v (v + 1) 0 = some (Nat.size v) :=
  shiftLoop_eq v (v + 1) 0 (Nat.zero_le _) (by have := size_le_self v; omega)

/-- Closed form of `MipmapLevels`: the larger of the two bit lengths. -/
theorem MipmapLevels_eq (w h : Nat) :
    MipmapLevels w h = some (max (Nat.size w) (Nat.size h)) := by
  simp [MipmapLevels, shiftLoop_top]

theorem size_half (n : Nat) (hn : n ≠ 0) : Nat.size n = Nat.size (n >>> 1) + 1 := by
  have h1 : n >>> 1 = n / 2 := by simp [Nat.shiftRight_eq_div_pow]
  rw [h1]
  have key : ∀ k, Nat.size n ≤ k + 1 ↔ Nat.size (n / 2) ≤ k := by
    intro k
    rw [Nat.size_le, Nat.size_le, pow_succ]
    omega
  have hpos : 0 < Nat.size n := Nat.size_pos.mpr (Nat.pos_of_ne_zero hn)
  have a := (key (Nat.size (n / 2))).mpr (le_refl _)
  have b := (key (Nat.size n - 1)).mp (by omega)
  omega

theorem shiftsUntilZeroAux_eq :
    ∀ (fuel n : Nat), n ≤ fuel → shiftsUntilZeroAux fuel n = Nat.size n := by
  intro fuel
  induction fuel with
  | zero =>
    intro n hn
    have : n = 0 := by omega
    subst this
    simp [shiftsUntilZeroAux]
  | succ fuel ih =>
    intro n hn
    by_cases h0 : n = 0
    · subst h0; simp [shiftsUntilZeroAux]
    · have hlt : n >>> 1 ≤ fuel := by
        have : n >>> 1 = n / 2 := by simp [Nat.shiftRight_eq_div_pow]
        omega
      simp only [shiftsUntilZeroAux, h0, if_false, ih _ hlt]
      exact (size_half n h0).symm

theorem shiftsUntilZero_eq (n : Nat) : shiftsUntilZero n = Nat.size n :=
  shiftsUntilZeroAux_eq n n (le_refl _)

theorem size_max (w h : Nat) : Nat.size (max w h) = max (Nat.size w) (Nat.size h) := by
  rcases le_total w h with hle | hle
  · rw [max_eq_right hle, max_eq_right (Nat.size_le_size hle)]
  · rw [max_eq_left hle, max_eq_left (Nat.size_le_size hle)]

theorem size_eq_log_succ (v : Nat) (hv : 0 < v) : Nat.size v = Nat.log 2 v + 1 := by
  have hpos : 0 < Nat.size v := Nat.size_pos.mpr hv
  have h1 : 2 ^ (Nat.size v - 1) ≤ v := Nat.lt_size.mp (by omega)
  have h2 : v < 2 ^ (Nat.size v - 1 + 1) := by
    rw [Nat.sub_add_cancel hpos]; exact Nat.lt_size_self v
  have := Nat.log_eq_of_pow_le_of_lt_pow h1 h2
  omega

/-- C9 (level count).  For every width and height (in particular positive ones),
`MipmapLevels` returns the number of right-shifts by one that bring `max(width, height)` to
zero, which is the larger of the two per-dimension counts; for width 17 and height 5 it
returns 5. -/
theorem C9_mipmap_levels (w h : Nat) :
    MipmapLevels w h = some (shiftsUntilZero (max w h)) ∧
    shiftsUntilZero (max w h) = max (shiftsUntilZero w) (shiftsUntilZero h) ∧
    MipmapLevels 17 5 = some 5 := by
  refine ⟨?_, ?_, by decide⟩
  · rw [MipmapLevels_eq, shiftsUntilZero_eq, size_max]
  · simp only [shiftsUntilZero_eq, size_max]

/-- C10, as stated, fails: no positive dimensions make `MipmapLevels` return one more than
the conventional level count `floor(log2(max(width, height))) + 1`. -/
theorem C10_no_extra_level :
    ¬ ∃ w h : Nat, 0 < w ∧ 0 < h ∧ MipmapLevels w h = some (Nat.log 2 (max w h) + 1 + 1) := by
  rintro ⟨w, h, hw, hh, heq⟩
  rw [MipmapLevels_eq, ← size_max, size_eq_log_succ (max w h) (lt_max_of_lt_left hw)] at heq
  have := Option.some.inj heq
  omega

/-- C10, amended.  For every positive width and every height (in particular for all positive
dimensions) `MipmapLevels` returns exactly the conventional level count
`floor(log2(max(width, height))) + 1`. -/
theorem C10_conventional_levels (w h : Nat) (hw : 0 < w) :
    MipmapLevels w h = some (Nat.log 2 (max w h) + 1) := by
  rw [MipmapLevels_eq, ← size_max, size_eq_log_succ (max w h) (lt_max_of_lt_left hw)]

/-- Witness of the amended C10 at width 17 and height 5. -/
theorem C10_conventional_levels_witness : 0 < 17 ∧
    MipmapLevels 17 5 = some (Nat.log 2 (max 17 5) + 1) :=
  ⟨by decide, C10_conventional_levels 17 5 (by decide)⟩

/-! ### Loops with a counter -/

/-- Invariant rule for `forLoop`: an invariant that every iteration re-establishes without
failing holds after the loop, and the loop does not fail. -/
theorem forLoop_inv {σ : Type} (P : Nat → σ → Prop) (body : Nat → σ → Option σ) :
    ∀ (n start : Nat) (s : σ), P start s →
      (∀ k t, start ≤ k → k < start + n → P k t → ∃ t1, body k t = some t1 ∧ P (k + 1) t1) →
      ∃ s1, forLoop body n start s = some s1 ∧ P (start + n) s1 := by
  intro n
  induction n with
  | zero => intro start s h0 _; exact ⟨s, rfl, h0⟩
  | succ n ih =>
    intro start s h0 hstep
    obtain ⟨t1, h1, h2⟩ := hstep start s (le_refl _) (by omega) h0
    obtain ⟨s1, g1, g2⟩ := ih (start + 1) t1 h2
      (fun k t hk1 hk2 hP => hstep k t (by omega) (by omega) hP)
    refine ⟨s1, ?_, ?_⟩
    · simp only [forLoop, h1, Option.some_bind, g1]
    · rw [show start + (n + 1) = start + 1 + n by omega]; exact g2

/-! ### Mip levels -/

theorem levelOffset_succ (width height i : Nat) :
    levelOffset width height (i + 1)
      = levelOffset width height i + levelWidth width i * levelHeight height i := by
  simp [levelOffset, List.range_succ]

theorem mipBufferSize_eq (w h : Nat) :
    mipBufferSize w h = some (levelOffset w h (max (Nat.size w) (Nat.size h))) := by
  have key : ∀ n, ∃ r, forLoop
      (fun i buffersize => some (buffersize + levelWidth w i * levelHeight h i)) n 0 0 = some r ∧
      r = levelOffset w h (0 + n) := by
    intro n
    apply forLoop_inv (fun k r => r = levelOffset w h k)
    · simp [levelOffset]
    · intro k t _ _ ht
      exact ⟨_, rfl, by rw [levelOffset_succ, ht]⟩
  obtain ⟨r, h1, h2⟩ := key (max (Nat.size w) (Nat.size h))
  simp only [mipBufferSize, MipmapLevels_eq, Option.some_bind, h1, h2, Nat.zero_add]

/-- C11 (buffer size).  For every width and height (in particular positive ones),
`MipmapLevels` returns some `L` and `CreatePixelsBgraWithMipmaps` resizes the true-colour
buffer to exactly the sum over `i` in `[0, L)` of `max(width>>i, 1) * max(height>>i, 1)`. -/
theorem C11_buffer_size (w h : Nat) (PixelsBgra : List Nat) :
    ∃ L buf, MipmapLevels w h = some L ∧
      CreatePixelsBgraWithMipmaps w h PixelsBgra = some buf ∧
      buf.length = ((List.range L).map fun i => max (w >>> i) 1 * max (h >>> i) 1).sum := by
  refine ⟨_, resizeBuffer PixelsBgra (levelOffset w h (max (Nat.size w) (Nat.size h))),
    MipmapLevels_eq w h, by simp [CreatePixelsBgraWithMipmaps, mipBufferSize_eq], ?_⟩
  simp only [resizeBuffer, List.length_append, List.length_take, List.length_replicate,
    levelOffset, levelWidth, levelHeight]
  omega

theorem levelWidth_pos (w i : Nat) : 1 ≤ levelWidth w i := le_max_right _ _

theorem levelHeight_pos (h i : Nat) : 1 ≤ levelHeight h i := le_max_right _ _

theorem levelWidth_succ_le (w i : Nat) : levelWidth w (i + 1) ≤ levelWidth w i := by
  simp only [levelWidth, Nat.shiftRight_succ]
  omega

theorem levelHeight_succ_le (h i : Nat) : levelHeight h (i + 1) ≤ levelHeight h i :=
  levelWidth_succ_le h i

theorem levelWidth_antitone (w : Nat) : ∀ (i j : Nat), i ≤ j → levelWidth w j ≤ levelWidth w i := by
  intro i j hij
  induction j with
  | zero =>
    have : i = 0 := by omega
    subst this; exact le_refl _
  | succ j ih =>
    rcases Nat.eq_or_lt_of_le hij with heq | hlt
    · subst heq; exact le_refl _
    · exact le_trans (levelWidth_succ_le w j) (ih (by omega))

theorem levelWidth_last (w L : Nat) (hL : Nat.size w ≤ L) (hpos : 1 ≤ L) :
    levelWidth w (L - 1) = 1 := by
  have hlt : w < 2 ^ L := Nat.size_le.mp hL
  have : w >>> (L - 1) ≤ 1 := by
    rw [Nat.shiftRight_eq_div_pow]
    have h2 : w < 2 * 2 ^ (L - 1) := by
      rw [← pow_succ', Nat.sub_add_cancel hpos]; exact hlt
    have := (Nat.div_lt_iff_lt_mul (Nat.two_pow_pos (L - 1))).mpr h2
    omega
  simp only [levelWidth]
  omega

/-- C19 (level dimensions).  For a positive width and every height (in particular for
positive width and height), `MipmapLevels` returns some
`L ≥ 1`; every level `i < L` has dimensions `max(width>>i, 1) x max(height>>i, 1)` that are
at least `1 x 1`, the dimensions do not increase with `i`, and the last level `L-1` is
exactly `1 x 1`. -/
theorem C19_level_dimensions (w h : Nat) (hw : 0 < w) :
    ∃ L, MipmapLevels w h = some L ∧ 1 ≤ L ∧
      (∀ i, i < L → 1 ≤ max (w >>> i) 1 ∧ 1 ≤ max (h >>> i) 1) ∧
      (∀ i j, i ≤ j → j < L →
        max (w >>> j) 1 ≤ max (w >>> i) 1 ∧ max (h >>> j) 1 ≤ max (h >>> i) 1) ∧
      max (w >>> (L - 1)) 1 = 1 ∧ max (h >>> (L - 1)) 1 = 1 := by
  have hL : 1 ≤ max (Nat.size w) (Nat.size h) :=
    le_trans (Nat.size_pos.mpr hw) (le_max_left _ _)
  refine ⟨_, MipmapLevels_eq w h, hL, ?_, ?_, ?_, ?_⟩
  · intro i _
    exact ⟨le_max_right _ _, le_max_right _ _⟩
  · intro i j hij _
    exact ⟨levelWidth_antitone w i j hij, levelWidth_antitone h i j hij⟩
  · exact levelWidth_last w _ (le_max_left _ _) hL
  · exact levelWidth_last h _ (le_max_right _ _) hL

/-- Witness of C19 at width 17 and height 5. -/
theorem C19_level_dimensions_witness : 0 < 17 ∧
    ∃ L, MipmapLevels 17 5 = some L ∧ 1 ≤ L ∧
      (∀ i, i < L → 1 ≤ max (17 >>> i) 1 ∧ 1 ≤ max (5 >>> i) 1) ∧
      (∀ i j, i ≤ j → j < L →
        max (17 >>> j) 1 ≤ max (17 >>> i) 1 ∧ max (5 >>> j) 1 ≤ max (5 >>> i) 1) ∧
      max (17 >>> (L - 1)) 1 = 1 ∧ max (5 >>> (L - 1)) 1 = 1 :=
  ⟨by decide, C19_level_dimensions 17 5 (by decide)⟩

/-! ### Sharpen pass: sample indices -/

theorem wrapCoord_eq_emod (v : Nat) (k : Int) (dim : Nat) (hv : v < dim)
    (hk : k = -1 ∨ k = 0 ∨ k = 1) :
    wrapCoord ((v : Int) + k) (dim : Int) = ((v : Int) + k) % (dim : Int) ∧
      0 ≤ wrapCoord ((v : Int) + k) (dim : Int) ∧
      wrapCoord ((v : Int) + k) (dim : Int) < (dim : Int) := by
  have hd : (0 : Int) < (dim : Int) := by omega
  by_cases hneg : (v : Int) + k < 0
  · -- below the first row or column: the opposite edge
    have hval : (v : Int) + k = -1 := by omega
    have hw : wrapCoord ((v : Int) + k) (dim : Int) = (dim : Int) - 1 := by
      simp only [wrapCoord, hneg, if_true]
      rw [if_neg (by omega)]
    have hm : ((v : Int) + k) % (dim : Int) = (dim : Int) - 1 := by
      rw [hval, show (-1 : Int) = ((dim : Int) - 1) + (-1) * (dim : Int) by ring,
        Int.add_mul_emod_self, Int.emod_eq_of_lt (by omega) (by omega)]
    rw [hw, hm]
    exact ⟨rfl, by omega, by omega⟩
  · by_cases htop : (v : Int) + k = (dim : Int)
    · have hw : wrapCoord ((v : Int) + k) (dim : Int) = 0 := by
        simp only [wrapCoord]
        rw [if_neg hneg, if_pos htop]
      rw [hw, htop, Int.emod_self]
      exact ⟨rfl, le_refl _, hd⟩
    · have hw : wrapCoord ((v : Int) + k) (dim : Int) = (v : Int) + k := by
        simp only [wrapCoord, hneg, if_false, htop]
      rw [hw, Int.emod_eq_of_lt (by omega) (by omega)]
      exact ⟨rfl, by omega, by omega⟩

/-- C17 (toroidal sharpen samples).  In the sharpen pass, at a level of dimensions `w x h`
(also `w = 1` or `h = 1`) and an output pixel `(x, y)`, the sample `(kx, ky)` of the 3x3
kernel, `kx, ky` in `{-1, 0, 1}`, is read at column `(x+kx) mod w` and row `(y+ky) mod h`
(wrapping to the opposite edge), and its index `a + b*h` lies in `[0, w*h)`. -/
theorem C17_sharpen_wrap (w h x y : Nat) (kx ky : Int) (hx : x < w) (hy : y < h)
    (hkx : kx = -1 ∨ kx = 0 ∨ kx = 1) (hky : ky = -1 ∨ ky = 0 ∨ ky = 1) :
    wrapCoord ((x : Int) + kx) (w : Int) = ((x : Int) + kx) % (w : Int) ∧
    wrapCoord ((y : Int) + ky) (h : Int) = ((y : Int) + ky) % (h : Int) ∧
    sharpenIndex w h x y kx ky
      = ((y : Int) + ky) % (h : Int) + (((x : Int) + kx) % (w : Int)) * (h : Int) ∧
    0 ≤ sharpenIndex w h x y kx ky ∧ sharpenIndex w h x y kx ky < (w : Int) * (h : Int) := by
  obtain ⟨a1, a2, a3⟩ := wrapCoord_eq_emod x kx w hx hkx
  obtain ⟨b1, b2, b3⟩ := wrapCoord_eq_emod y ky h hy hky
  refine ⟨a1, b1, ?_, ?_, ?_⟩
  · simp only [sharpenIndex, a1, b1]
  · simp only [sharpenIndex]
    have : 0 ≤ wrapCoord ((x : Int) + kx) (w : Int) * (h : Int) :=
      mul_nonneg a2 (by omega)
    omega
  · simp only [sharpenIndex]
    have h1 : wrapCoord ((x : Int) + kx) (w : Int) * (h : Int) ≤ ((w : Int) - 1) * (h : Int) :=
      mul_le_mul_of_nonneg_right (by omega) (by omega)
    have h2 : ((w : Int) - 1) * (h : Int) = (w : Int) * (h : Int) - (h : Int) := by ring
    omega

/-- Witness of C17 at the corner of a 1 x 3 level. -/
theorem C17_sharpen_wrap_witness :
    ((0 : Nat) < 1 ∧ (0 : Nat) < 3 ∧ ((-1 : Int) = -1 ∨ (-1 : Int) = 0 ∨ (-1 : Int) = 1) ∧
      ((-1 : Int) = -1 ∨ (-1 : Int) = 0 ∨ (-1 : Int) = 1)) ∧
    (wrapCoord (((0 : Nat) : Int) + -1) ((1 : Nat) : Int)
        = (((0 : Nat) : Int) + -1) % ((1 : Nat) : Int) ∧
    wrapCoord (((0 : Nat) : Int) + -1) ((3 : Nat) : Int)
        = (((0 : Nat) : Int) + -1) % ((3 : Nat) : Int) ∧
    sharpenIndex 1 3 0 0 (-1) (-1)
      = (((0 : Nat) : Int) + -1) % ((3 : Nat) : Int)
        + ((((0 : Nat) : Int) + -1) % ((1 : Nat) : Int)) * ((3 : Nat) : Int) ∧
    0 ≤ sharpenIndex 1 3 0 0 (-1) (-1) ∧
    sharpenIndex 1 3 0 0 (-1) (-1) < ((1 : Nat) : Int) * ((3 : Nat) : Int)) :=
  ⟨⟨by decide, by decide, by decide, by decide⟩,
    C17_sharpen_wrap 1 3 0 0 (-1) (-1) (by decide) (by decide) (by decide) (by decide)⟩

/-! ### The two branches of CreateSpans on a buffer without holes -/

theorem scanRuns_solid (f : Nat → Bool) :
    ∀ (n y : Nat) (r : FSoftwareTextureSpan), (∀ z, y ≤ z → z < y + n → f z = false) →
      scanRuns f n y (some r) = [{ TopOffset := r.TopOffset, Length := r.Length + n }] := by
  intro n
  induction n with
  | zero => intro y r _; simp [scanRuns]
  | succ n ih =>
    intro y r hall
    have hf : f y = false := hall y (le_refl _) (by omega)
    simp only [scanRuns, hf, Bool.false_eq_true, if_false, extendRun]
    rw [ih (y + 1) _ (fun z hz1 hz2 => hall z (by omega) (by omega))]
    simp only [List.cons.injEq, FSoftwareTextureSpan.mk.injEq, true_and, and_true]
    omega

theorem cell_index_lt (x y w h : Nat) (hx : x < w) (hy : y < h) : y + x * h < w * h := by
  have h1 : (x + 1) * h ≤ w * h := Nat.mul_le_mul_right h hx
  have h2 : (x + 1) * h = x * h + h := by ring
  omega

theorem columnRuns_solid {T : Type} (tr : T → Bool) (pixels : Nat → T) (w h x : Nat)
    (hh : 1 ≤ h) (hx : x < w) (hop : ∀ i, i < w * h → tr (pixels i) = false) :
    columnRuns tr pixels h x = [{ TopOffset := 0, Length := h }] := by
  obtain ⟨n, rfl⟩ : ∃ n, h = n + 1 := ⟨h - 1, by omega⟩
  have hcol : ∀ z, z < n + 1 → columnFlags tr pixels (n + 1) x z = false := by
    intro z hz
    simp only [columnFlags]
    apply hop
    have := cell_index_lt x z w (n + 1) hx hz
    omega
  simp only [columnRuns, scanRuns, hcol 0 (by omega), Bool.false_eq_true, if_false, extendRun]
  rw [scanRuns_solid _ n 1 _ (fun z hz1 hz2 => hcol z (by omega))]
  simp only [List.cons.injEq, FSoftwareTextureSpan.mk.injEq, true_and, and_true]
  omega

theorem CreateSpans_unmasked_column {T : Type} (tr : T → Bool) (pixels : Nat → T)
    (w h x : Nat) (hh : 1 ≤ h) (hx : x < w) :
    ∃ t, CreateSpans tr false w h pixels = some t ∧
      columnSpans t x = some [{ TopOffset := 0, Length := h }, { TopOffset := 0, Length := 0 }] := by
  have hget : (List.replicate w 0)[x]? = some 0 := by
    simp [List.getElem?_replicate, hx]
  refine ⟨{ spans := List.replicate w 0,
            mem := [some { TopOffset := 0, Length := h },
                    some { TopOffset := 0, Length := 0 }] }, ?_, ?_⟩
  · simp [CreateSpans, storeSpan, fillSharedTable_eq]
  · have hne : ({ TopOffset := 0, Length := h } : FSoftwareTextureSpan) ≠ terminator := by
      intro he
      simp [terminator] at he
      omega
    have h0 : ¬ h = 0 := by omega
    simp [columnSpans, hget, readSpans, hne, terminator, h0]

/-- C20 (the branches agree without holes).  For a buffer of height `h ≥ 1` in which no
pixel is translucent, the masked (two-pass) branch of `CreateSpans` and the unmasked branch
both return, and the span list of every column `x` is `[Span{0, h}, Span{0, 0}]` in both. -/
theorem C20_branches_agree {T : Type} (isTranslucent : T → Bool) (pixels : Nat → T)
    (w h x : Nat) (hh : 1 ≤ h) (hx : x < w)
    (hop : ∀ i, i < w * h → isTranslucent (pixels i) = false) :
    ∃ tm tu, CreateSpans isTranslucent true w h pixels = some tm ∧
      CreateSpans isTranslucent false w h pixels = some tu ∧
      columnSpans tm x = some [{ TopOffset := 0, Length := h }, { TopOffset := 0, Length := 0 }] ∧
      columnSpans tu x = some [{ TopOffset := 0, Length := h }, { TopOffset := 0, Length := 0 }] ∧
      columnSpans tm x = columnSpans tu x := by
  obtain ⟨tm, h1, -, -, h2⟩ := CreateSpans_column isTranslucent pixels w h x hx
  obtain ⟨tu, g1, g2⟩ := CreateSpans_unmasked_column isTranslucent pixels w h x hh hx
  rw [columnRuns_solid isTranslucent pixels w h x hh hx hop] at h2
  have h3 : columnSpans tm x
      = some [{ TopOffset := 0, Length := h }, { TopOffset := 0, Length := 0 }] := by
    rw [h2]; rfl
  exact ⟨tm, tu, h1, g1, h3, g2, by rw [h3, g2]⟩

/-- Witness of C20 for the second column of a 2 x 3 buffer of 8-bit pixels that are all 7. -/
theorem C20_branches_agree_witness :
    (1 ≤ 3 ∧ 1 < 2 ∧ ∀ i, i < 2 * 3 → isTranslucent_uint8 ((fun _ => 7) i) = false) ∧
    ∃ tm tu, CreateSpans isTranslucent_uint8 true 2 3 (fun _ => 7) = some tm ∧
      CreateSpans isTranslucent_uint8 false 2 3 (fun _ => 7) = some tu ∧
      columnSpans tm 1 = some [{ TopOffset := 0, Length := 3 }, { TopOffset := 0, Length := 0 }] ∧
      columnSpans tu 1 = some [{ TopOffset := 0, Length := 3 }, { TopOffset := 0, Length := 0 }] ∧
      columnSpans tm 1 = columnSpans tu 1 :=
  ⟨⟨by decide, by decide, fun _ _ => rfl⟩,
    C20_branches_agree isTranslucent_uint8 (fun _ => 7) 2 3 1 (by decide) (by decide)
      (fun _ _ => rfl)⟩

/-! ### GenerateBgraMipmapsFast -/

theorem levelWidth_succ (w i : Nat) : levelWidth w (i + 1) = max (w >>> i / 2) 1 := by
  simp only [levelWidth, Nat.shiftRight_succ]

theorem sampleLow_lt (w i x : Nat) (hx : x < levelWidth w (i + 1)) :
    sampleLow x < levelWidth w i := by
  rw [levelWidth_succ] at hx
  simp only [sampleLow, levelWidth]
  omega

theorem sampleHigh_lt (x d : Nat) (hd : 1 ≤ d) : sampleHigh x d < d := by
  simp only [sampleHigh]
  omega

theorem levelOffset_mono (w h : Nat) : ∀ (i j : Nat), i ≤ j →
    levelOffset w h i ≤ levelOffset w h j := by
  intro i j hij
  induction j with
  | zero =>
    have : i = 0 := by omega
    subst this; exact le_refl _
  | succ j ih =>
    rcases Nat.eq_or_lt_of_le hij with heq | hlt
    · subst heq; exact le_refl _
    · rw [levelOffset_succ]
      exact le_trans (ih (by omega)) (Nat.le_add_right _ _)

theorem levelOffset_one (w h : Nat) (hw : 0 < w) (hh : 0 < h) : levelOffset w h 1 = w * h := by
  have h1 : max w 1 = w := max_eq_left hw
  have h2 : max h 1 = h := max_eq_left hh
  simp [levelOffset, List.range_succ, levelWidth, levelHeight, h1, h2]

/-- A sample of an output pixel of level `i + 1` falls into the region of level `i`. -/
theorem sample_in_region (w h i sx sy : Nat) (hsx : sx < levelWidth w i)
    (hsy : sy < levelHeight h i) :
    levelOffset w h i + (sy + sx * levelHeight h i) < levelOffset w h (i + 1) := by
  rw [levelOffset_succ]
  have := cell_index_lt sx sy _ _ hsx hsy
  omega

theorem fastPixel_step (width height : Nat) (P0 : List Nat) (hw : 0 < width) (hh : 0 < height)
    (i x y : Nat) (hN : levelOffset width height (i + 1 + 1) ≤ P0.length)
    (hx : x < levelWidth width (i + 1)) (hy : y < levelHeight height (i + 1))
    (s : FastState)
    (hinv : FastInv width height P0 (i + 1) (y + x * levelHeight height (i + 1)) s) :
    ∃ s1, fastPixel (i + 1) (levelWidth width i) (levelHeight height i)
        (levelHeight height (i + 1)) x y s = some s1 ∧
      FastInv width height P0 (i + 1) (y + x * levelHeight height (i + 1) + 1) s1 := by
  obtain ⟨hsrc, hdest, hlen, hframe, hwrites, htrace⟩ := hinv
  simp only [Nat.add_sub_cancel] at hsrc hwrites
  have hxl := sampleLow_lt width i x hx
  have hyl := sampleLow_lt height i y hy
  have hxh := sampleHigh_lt x (levelWidth width i) (levelWidth_pos width i)
  have hyh := sampleHigh_lt y (levelHeight height i) (levelHeight_pos height i)
  have hmono : levelOffset width height (i + 1) ≤ P0.length :=
    le_trans (levelOffset_mono width height _ _ (by omega)) hN
  have r00 := sample_in_region width height i _ _ hxl hyl
  have r01 := sample_in_region width height i _ _ hxl hyh
  have r10 := sample_in_region width height i _ _ hxh hyl
  have r11 := sample_in_region width height i _ _ hxh hyh
  have hp := sample_in_region width height (i + 1) x y hx hy
  obtain ⟨a, g00⟩ : ∃ a, s.PixelsBgra[levelOffset width height i
      + (sampleLow y + sampleLow x * levelHeight height i)]? = some a :=
    ⟨_, List.getElem?_eq_getElem (by omega)⟩
  obtain ⟨b, g01⟩ : ∃ b, s.PixelsBgra[levelOffset width height i
      + (sampleHigh y (levelHeight height i) + sampleLow x * levelHeight height i)]? = some b :=
    ⟨_, List.getElem?_eq_getElem (by omega)⟩
  obtain ⟨c, g10⟩ : ∃ c, s.PixelsBgra[levelOffset width height i
      + (sampleLow y + sampleHigh x (levelWidth width i) * levelHeight height i)]? = some c :=
    ⟨_, List.getElem?_eq_getElem (by omega)⟩
  obtain ⟨d, g11⟩ : ∃ d, s.PixelsBgra[levelOffset width height i
      + (sampleHigh y (levelHeight height i)
          + sampleHigh x (levelWidth width i) * levelHeight height i)]? = some d :=
    ⟨_, List.getElem?_eq_getElem (by omega)⟩
  have hwlt : levelOffset width height (i + 1) + (y + x * levelHeight height (i + 1))
      < s.PixelsBgra.length := by omega
  have hbase : width * height ≤ levelOffset width height (i + 1) := by
    rw [← levelOffset_one width height hw hh]
    exact levelOffset_mono width height _ _ (by omega)
  refine ⟨{ PixelsBgra := s.PixelsBgra.set
                (levelOffset width height (i + 1) + (y + x * levelHeight height (i + 1)))
                (averageFast a b c d),
            src := s.src, dest := s.dest,
            trace := s.trace ++ [{
              level := i + 1, x := x, y := y,
              reads := [levelOffset width height i
                          + (sampleLow y + sampleLow x * levelHeight height i),
                        levelOffset width height i
                          + (sampleHigh y (levelHeight height i)
                              + sampleLow x * levelHeight height i),
                        levelOffset width height i
                          + (sampleLow y
                              + sampleHigh x (levelWidth width i) * levelHeight height i),
                        levelOffset width height i
                          + (sampleHigh y (levelHeight height i)
                              + sampleHigh x (levelWidth width i) * levelHeight height i)],
              samples := [a, b, c, d],
              write := levelOffset width height (i + 1)
                          + (y + x * levelHeight height (i + 1)),
              value := averageFast a b c d }] }, ?_, ?_⟩
  · simp only [fastPixel, hsrc, hdest, g00, g01, g10, g11, hwlt, if_true]
  · refine ⟨hsrc, hdest, by simp [hlen], ?_, ?_, ?_⟩
    · intro j hj
      simp only
      rw [List.getElem?_set_ne (by omega)]
      exact hframe j hj
    · simp only [Nat.add_sub_cancel, List.map_append, List.map_cons, List.map_nil, hwrites,
        List.range'_1_concat, List.append_assoc]
    · intro e he
      rw [List.mem_append, List.mem_singleton] at he
      rcases he with he | he
      · obtain ⟨h1, h2, h3, h4⟩ := htrace e he
        refine ⟨h1, by omega, ?_, ?_⟩
        · simp only
          rw [List.getElem?_set_ne (by omega)]
          exact h3
        · rw [← h4]
          apply List.map_congr_left
          intro r hr
          have hr1 := (h1.2.2.2.2.2.1 r hr).2
          have hr2 : levelOffset width height e.level ≤ e.write := by
            rw [h1.2.2.2.1]; exact Nat.le_add_right _ _
          simp only
          rw [List.getElem?_set_ne (by omega)]
      · subst he
        refine ⟨⟨by simp, hx, hy, rfl, by simp, ?_, _, _, _, _, rfl, rfl⟩, by simp, ?_, ?_⟩
        · intro r hr
          simp only [Nat.add_sub_cancel, List.mem_cons, List.mem_singleton, List.not_mem_nil,
            or_false] at hr ⊢
          rcases hr with hr | hr | hr | hr <;> subst hr <;> exact ⟨Nat.le_add_right _ _, by omega⟩
        · simp only
          exact List.getElem?_set_self hwlt
        · simp only [List.map_cons, List.map_nil]
          rw [List.getElem?_set_ne (by omega), List.getElem?_set_ne (by omega),
            List.getElem?_set_ne (by omega), List.getElem?_set_ne (by omega),
            g00, g01, g10, g11]

theorem FastInv_cast (width height : Nat) (P0 : List Nat) (i k1 k2 : Nat) (s : FastState)
    (hk : k1 = k2) (hinv : FastInv width height P0 i k1 s) : FastInv width height P0 i k2 s := by
  subst hk; exact hinv

theorem fastRows_inv (width height : Nat) (P0 : List Nat) (hw : 0 < width) (hh : 0 < height)
    (i x : Nat) (hN : levelOffset width height (i + 1 + 1) ≤ P0.length)
    (hx : x < levelWidth width (i + 1)) (s : FastState)
    (hinv : FastInv width height P0 (i + 1) (x * levelHeight height (i + 1)) s) :
    ∃ s1, forLoop (fun y => fastPixel (i + 1) (levelWidth width i) (levelHeight height i)
        (levelHeight height (i + 1)) x y) (levelHeight height (i + 1)) 0 s = some s1 ∧
      FastInv width height P0 (i + 1) ((x + 1) * levelHeight height (i + 1)) s1 := by
  obtain ⟨s1, h1, h2⟩ := forLoop_inv
    (fun y t => FastInv width height P0 (i + 1) (y + x * levelHeight height (i + 1)) t)
    (fun y => fastPixel (i + 1) (levelWidth width i) (levelHeight height i)
        (levelHeight height (i + 1)) x y) (levelHeight height (i + 1)) 0 s
    (FastInv_cast _ _ _ _ _ _ _ (by omega) hinv)
    (fun y t _ hy hP => by
      obtain ⟨t1, g1, g2⟩ := fastPixel_step width height P0 hw hh i x y hN hx (by omega) t hP
      exact ⟨t1, g1, FastInv_cast _ _ _ _ _ _ _ (by omega) g2⟩)
  exact ⟨s1, h1, FastInv_cast _ _ _ _ _ _ _ (by ring) h2⟩

theorem fastColumns_inv (width height : Nat) (P0 : List Nat) (hw : 0 < width)
    (hh : 0 < height) (i : Nat) (hN : levelOffset width height (i + 1 + 1) ≤ P0.length)
    (s : FastState) (hinv : FastInv width height P0 (i + 1) 0 s) :
    ∃ s1, forLoop (fun x => forLoop (fun y => fastPixel (i + 1) (levelWidth width i)
        (levelHeight height i) (levelHeight height (i + 1)) x y)
          (levelHeight height (i + 1)) 0) (levelWidth width (i + 1)) 0 s = some s1 ∧
      FastInv width height P0 (i + 1)
        (levelWidth width (i + 1) * levelHeight height (i + 1)) s1 := by
  obtain ⟨s1, h1, h2⟩ := forLoop_inv
    (fun x t => FastInv width height P0 (i + 1) (x * levelHeight height (i + 1)) t)
    (fun x => forLoop (fun y => fastPixel (i + 1) (levelWidth width i)
        (levelHeight height i) (levelHeight height (i + 1)) x y)
          (levelHeight height (i + 1)) 0) (levelWidth width (i + 1)) 0 s
    (FastInv_cast _ _ _ _ _ _ _ (by simp) hinv)
    (fun x t _ hx hP => fastRows_inv width height P0 hw hh i x hN (by omega) t hP)
  exact ⟨s1, h1, FastInv_cast _ _ _ _ _ _ _ (by simp) h2⟩

theorem levelWrites_succ (width height start n : Nat) :
    levelWrites width height start (n + 1)
      = levelWrites width height start n
        ++ (List.range' (levelOffset width height (start + n))
            (levelWidth width (start + n) * levelHeight height (start + n))).map
              (fun q => (start + n, q)) := by
  simp only [levelWrites, List.range'_1_concat, List.flatMap_append, List.flatMap_singleton]

theorem fastLevel_inv (width height : Nat) (P0 : List Nat) (hw : 0 < width) (hh : 0 < height)
    (i : Nat) (hN : levelOffset width height (i + 1 + 1) ≤ P0.length)
    (s : FastState) (hinv : FastInv width height P0 (i + 1) 0 s) :
    ∃ s1, fastLevel width height (i + 1) s = some s1 ∧
      FastInv width height P0 (i + 1 + 1) 0 s1 := by
  obtain ⟨s1, h1, hsrc, hdest, hlen, hframe, hwrites, htrace⟩ :=
    fastColumns_inv width height P0 hw hh i hN s hinv
  refine ⟨{ PixelsBgra := s1.PixelsBgra, src := s1.dest,
            dest := s1.dest + levelWidth width (i + 1) * levelHeight height (i + 1),
            trace := s1.trace }, ?_, ?_⟩
  · simp only [fastLevel, Nat.add_sub_cancel, h1, Option.map_some']
  · refine ⟨hdest, ?_, hlen, hframe, ?_, ?_⟩
    · simp only [hdest, levelOffset_succ width height (i + 1)]
    · simp only [Nat.add_sub_cancel] at hwrites ⊢
      rw [hwrites, levelWrites_succ, Nat.add_comm 1 i]
      simp
    · intro e he
      obtain ⟨g1, g2, g3, g4⟩ := htrace e he
      refine ⟨g1, ?_, g3, g4⟩
      rw [levelOffset_succ width height (i + 1)]
      omega

/-- The run of `GenerateBgraMipmapsFast` on a buffer sized by `CreatePixelsBgraWithMipmaps`
succeeds and ends in the invariant after the last level. -/
theorem GenerateBgraMipmapsFast_inv (w h : Nat) (P0 : List Nat) (hw : 0 < w) (hh : 0 < h)
    (hsize : mipBufferSize w h = some P0.length) :
    ∃ L s, MipmapLevels w h = some L ∧ 1 ≤ L ∧ levelOffset w h L = P0.length ∧
      GenerateBgraMipmapsFast w h P0 = some s ∧ FastInv w h P0 L 0 s := by
  have hL : 1 ≤ max (Nat.size w) (Nat.size h) :=
    le_trans (Nat.size_pos.mpr hw) (le_max_left _ _)
  have hoff : levelOffset w h (max (Nat.size w) (Nat.size h)) = P0.length := by
    rw [mipBufferSize_eq] at hsize
    exact Option.some.inj hsize
  obtain ⟨s1, h1, h2⟩ := forLoop_inv (fun i t => FastInv w h P0 i 0 t)
    (fastLevel w h) (max (Nat.size w) (Nat.size h) - 1) 1
    { PixelsBgra := P0, src := 0, dest := w * h, trace := [] }
    ⟨by simp [levelOffset], by simp [levelOffset_one w h hw hh], rfl, fun _ _ => rfl,
      by simp [levelWrites], by simp⟩
    (fun k t hk1 hk2 hP => by
      obtain ⟨i, rfl⟩ : ∃ i, k = i + 1 := ⟨k - 1, by omega⟩
      exact fastLevel_inv w h P0 hw hh i
        (by rw [← hoff]; exact levelOffset_mono w h _ _ (by omega)) t hP)
  refine ⟨_, s1, MipmapLevels_eq w h, hL, hoff, ?_, ?_⟩
  · simp only [GenerateBgraMipmapsFast, MipmapLevels_eq, Option.some_bind, h1]
  · rw [show 1 + (max (Nat.size w) (Nat.size h) - 1) = max (Nat.size w) (Nat.size h) by omega]
      at h2
    exact h2

/-! ### Channels of the averaged pixel -/

theorem pack_eq (al r g bl : Nat) (hr : r < 256) (hg : g < 256) (hb : bl < 256) :
    al <<< 24 ||| r <<< 16 ||| g <<< 8 ||| bl
      = al * 16777216 + r * 65536 + g * 256 + bl := by
  simp only [Nat.shiftLeft_eq]
  have e1 : al * 2 ^ 24 ||| r * 2 ^ 16 = 2 ^ 16 * (al * 256 + r) := by
    rw [show al * 2 ^ 24 = 2 ^ 24 * al by ring,
      ← Nat.mul_add_lt_is_or (show r * 2 ^ 16 < 2 ^ 24 by omega) al]
    ring
  have e2 : 2 ^ 16 * (al * 256 + r) ||| g * 2 ^ 8 = 2 ^ 8 * (al * 65536 + r * 256 + g) := by
    rw [← Nat.mul_add_lt_is_or (show g * 2 ^ 8 < 2 ^ 16 by omega) (al * 256 + r)]
    ring
  rw [e1, e2, ← Nat.mul_add_lt_is_or (show bl < 2 ^ 8 by omega)]
  ring

theorem channel_le (c k : Nat) : (c >>> k) &&& 0xff ≤ 255 := by
  have h := Nat.and_pow_two_sub_one_eq_mod (c >>> k) 8
  have h2 : (2 : Nat) ^ 8 - 1 = 0xff := by norm_num
  rw [h2] at h
  rw [h]
  have := Nat.mod_lt (c >>> k) (show 0 < 2 ^ 8 by norm_num)
  omega

/-- The four channels of the pixel stored by `GenerateBgraMipmapsFast` are the rounded
averages of the channels of the four samples; each is at most 255, so the packing does not
carry one channel into another, and the pixel fits 32 bits. -/
theorem averageFast_channels (a b c d : Nat) :
    APART (averageFast a b c d) = (APART a + APART b + APART c + APART d + 2) / 4 ∧
    RPART (averageFast a b c d) = (RPART a + RPART b + RPART c + RPART d + 2) / 4 ∧
    GPART (averageFast a b c d) = (GPART a + GPART b + GPART c + GPART d + 2) / 4 ∧
    BPART (averageFast a b c d) = (BPART a + BPART b + BPART c + BPART d + 2) / 4 ∧
    (APART a + APART b + APART c + APART d + 2) / 4 ≤ 255 ∧
    (RPART a + RPART b + RPART c + RPART d + 2) / 4 ≤ 255 ∧
    (GPART a + GPART b + GPART c + GPART d + 2) / 4 ≤ 255 ∧
    (BPART a + BPART b + BPART c + BPART d + 2) / 4 ≤ 255 ∧
    averageFast a b c d < 2 ^ 32 := by
  have ha1 := channel_le a 24
  have ha2 := channel_le b 24
  have ha3 := channel_le c 24
  have ha4 := channel_le d 24
  have hr1 := channel_le a 16
  have hr2 := channel_le b 16
  have hr3 := channel_le c 16
  have hr4 := channel_le d 16
  have hg1 := channel_le a 8
  have hg2 := channel_le b 8
  have hg3 := channel_le c 8
  have hg4 := channel_le d 8
  have hb1 := channel_le a 0
  have hb2 := channel_le b 0
  have hb3 := channel_le c 0
  have hb4 := channel_le d 0
  simp only [Nat.shiftRight_zero] at hb1 hb2 hb3 hb4
  have hmask : ∀ v : Nat, v &&& 0xff = v % 256 := by
    intro v
    have h := Nat.and_pow_two_sub_one_eq_mod v 8
    have h2 : (2 : Nat) ^ 8 - 1 = 0xff := by norm_num
    rw [h2] at h
    rw [h]
  have hp := pack_eq ((APART a + APART b + APART c + APART d + 2) / 4)
    ((RPART a + RPART b + RPART c + RPART d + 2) / 4)
    ((GPART a + GPART b + GPART c + GPART d + 2) / 4)
    ((BPART a + BPART b + BPART c + BPART d + 2) / 4)
    (by simp only [RPART]; omega) (by simp only [GPART]; omega) (by simp only [BPART]; omega)
  have hA : (APART a + APART b + APART c + APART d + 2) / 4 ≤ 255 := by
    simp only [APART]; omega
  have hR : (RPART a + RPART b + RPART c + RPART d + 2) / 4 ≤ 255 := by
    simp only [RPART]; omega
  have hG : (GPART a + GPART b + GPART c + GPART d + 2) / 4 ≤ 255 := by
    simp only [GPART]; omega
  have hB : (BPART a + BPART b + BPART c + BPART d + 2) / 4 ≤ 255 := by
    simp only [BPART]; omega
  have hval : averageFast a b c d
      = (APART a + APART b + APART c + APART d + 2) / 4 * 16777216
        + (RPART a + RPART b + RPART c + RPART d + 2) / 4 * 65536
        + (GPART a + GPART b + GPART c + GPART d + 2) / 4 * 256
        + (BPART a + BPART b + BPART c + BPART d + 2) / 4 := by
    rw [← hp]; rfl
  generalize (APART a + APART b + APART c + APART d + 2) / 4 = A at hval hA
  generalize (RPART a + RPART b + RPART c + RPART d + 2) / 4 = R at hval hR
  generalize (GPART a + GPART b + GPART c + GPART d + 2) / 4 = G at hval hG
  generalize (BPART a + BPART b + BPART c + BPART d + 2) / 4 = B at hval hB
  generalize averageFast a b c d = V at hval
  subst hval
  refine ⟨?_, ?_, ?_, ?_, hA, hR, hG, hB, by omega⟩
  · simp only [APART, hmask, Nat.shiftRight_eq_div_pow]; omega
  · simp only [RPART, hmask, Nat.shiftRight_eq_div_pow]; omega
  · simp only [GPART, hmask, Nat.shiftRight_eq_div_pow]; omega
  · simp only [BPART, hmask]; omega

/-! ### Claims on GenerateBgraMipmapsFast -/

theorem mem_levelWrites (w h L i q : Nat) :
    (i, q) ∈ levelWrites w h 1 (L - 1) ↔
      (1 ≤ i ∧ i < L ∧ levelOffset w h i ≤ q ∧
        q < levelOffset w h i + levelWidth w i * levelHeight h i) := by
  simp only [levelWrites, List.mem_flatMap, List.mem_range'_1, List.mem_map, Prod.mk.injEq]
  constructor
  · rintro ⟨j, ⟨hj1, hj2⟩, q1, ⟨hq1, hq2⟩, rfl, rfl⟩
    exact ⟨hj1, by omega, hq1, hq2⟩
  · rintro ⟨h1, h2, h3, h4⟩
    exact ⟨i, ⟨h1, by omega⟩, q, ⟨h3, h4⟩, rfl, rfl⟩

theorem cell_unique (x1 y1 x2 y2 h : Nat) (hy1 : y1 < h) (hy2 : y2 < h)
    (he : y1 + x1 * h = y2 + x2 * h) : x1 = x2 ∧ y1 = y2 := by
  have hpos : 0 < h := by omega
  have d1 : (y1 + x1 * h) / h = x1 := by
    rw [Nat.add_mul_div_right _ _ hpos, Nat.div_eq_of_lt hy1, Nat.zero_add]
  have d2 : (y2 + x2 * h) / h = x2 := by
    rw [Nat.add_mul_div_right _ _ hpos, Nat.div_eq_of_lt hy2, Nat.zero_add]
  have hx : x1 = x2 := by rw [← d1, ← d2, he]
  subst hx
  exact ⟨rfl, by omega⟩

/-- Every output pixel of every level `≥ 1` has a record in the trace. -/
theorem fast_trace_complete (w h : Nat) (P0 : List Nat) (L : Nat) (s : FastState)
    (hinv : FastInv w h P0 L 0 s) (i x y : Nat) (hi1 : 1 ≤ i) (hi2 : i < L)
    (hx : x < levelWidth w i) (hy : y < levelHeight h i) :
    ∃ e ∈ s.trace, e.level = i ∧ e.x = x ∧ e.y = y ∧
      e.write = levelOffset w h i + (y + x * levelHeight h i) := by
  have hmem : (i, levelOffset w h i + (y + x * levelHeight h i))
      ∈ s.trace.map (fun e => (e.level, e.write)) := by
    rw [hinv.hwrites]
    simp only [List.range'_zero, List.map_nil, List.append_nil]
    rw [mem_levelWrites]
    have := cell_index_lt x y _ _ hx hy
    exact ⟨hi1, hi2, Nat.le_add_right _ _, by omega⟩
  rw [List.mem_map] at hmem
  obtain ⟨e, he, heq⟩ := hmem
  simp only [Prod.mk.injEq] at heq
  obtain ⟨hl, hwr⟩ := heq
  obtain ⟨hok, -, -, -⟩ := hinv.htrace e he
  obtain ⟨-, -, hey, hew, -⟩ := hok
  rw [hl] at hey hew
  have := cell_unique e.x e.y x y _ hey hy (by omega)
  exact ⟨e, he, hl, this.1, this.2, hwr⟩

/-- C13 (integer average).  On a buffer sized by `CreatePixelsBgraWithMipmaps`, the run of
`GenerateBgraMipmapsFast` succeeds; every output pixel `(x, y)` of every level `1 ≤ i < L`
has a record; and for every record the four values are those of the buffer at the four
indices that the code samples, the stored pixel is in the buffer at the index written, and
each of its channels (alpha, red, green, blue) is `(a+b+c+d+2)/4` in truncating division for
that channel of the four samples, is at most 255, and the pixel is the packing of the four
channels, below `2^32`; nothing else is applied to the channels. -/
theorem C13_fast_average (w h : Nat) (P : List Nat) (hw : 0 < w) (hh : 0 < h)
    (hsize : mipBufferSize w h = some P.length) :
    ∃ L s, MipmapLevels w h = some L ∧ GenerateBgraMipmapsFast w h P = some s ∧
      (∀ i x y, 1 ≤ i → i < L → x < levelWidth w i → y < levelHeight h i →
        ∃ e ∈ s.trace, e.level = i ∧ e.x = x ∧ e.y = y ∧
          e.write = levelOffset w h i + (y + x * levelHeight h i)) ∧
      (∀ e ∈ s.trace, ∃ a b c d, e.samples = [a, b, c, d] ∧
        e.reads.map (fun r => s.PixelsBgra[r]?) = [some a, some b, some c, some d] ∧
        s.PixelsBgra[e.write]? = some e.value ∧
        APART e.value = (APART a + APART b + APART c + APART d + 2) / 4 ∧
        RPART e.value = (RPART a + RPART b + RPART c + RPART d + 2) / 4 ∧
        GPART e.value = (GPART a + GPART b + GPART c + GPART d + 2) / 4 ∧
        BPART e.value = (BPART a + BPART b + BPART c + BPART d + 2) / 4 ∧
        APART e.value ≤ 255 ∧ RPART e.value ≤ 255 ∧ GPART e.value ≤ 255 ∧
        BPART e.value ≤ 255 ∧
        e.value = (APART e.value <<< 24) ||| (RPART e.value <<< 16) ||| (GPART e.value <<< 8)
          ||| BPART e.value ∧
        e.value < 2 ^ 32) := by
  obtain ⟨L, s, h1, -, -, h4, hinv⟩ := GenerateBgraMipmapsFast_inv w h P hw hh hsize
  refine ⟨L, s, h1, h4, fun i x y hi1 hi2 hx hy =>
    fast_trace_complete w h P L s hinv i x y hi1 hi2 hx hy, ?_⟩
  intro e he
  obtain ⟨hok, -, hval, hreads⟩ := hinv.htrace e he
  obtain ⟨-, -, -, -, -, -, a, b, c, d, hs, hv⟩ := hok
  obtain ⟨c1, c2, c3, c4, c5, c6, c7, c8, c9⟩ := averageFast_channels a b c d
  refine ⟨a, b, c, d, hs, by rw [hreads, hs]; rfl, hval, ?_⟩
  rw [hv]
  refine ⟨c1, c2, c3, c4, by omega, by omega, by omega, by omega, ?_, c9⟩
  rw [c1, c2, c3, c4]
  rfl

/-- Witness of C13 for a 4 x 1 texture and a buffer of 7 pixels. -/
theorem C13_fast_average_witness :
    (0 < 4 ∧ 0 < 1 ∧
      mipBufferSize 4 1 = some [0, 4294967295, 0, 4294967295, 9, 9, 9].length) ∧
    ∃ L s, MipmapLevels 4 1 = some L ∧
      GenerateBgraMipmapsFast 4 1 [0, 4294967295, 0, 4294967295, 9, 9, 9] = some s ∧
      (∀ i x y, 1 ≤ i → i < L → x < levelWidth 4 i → y < levelHeight 1 i →
        ∃ e ∈ s.trace, e.level = i ∧ e.x = x ∧ e.y = y ∧
          e.write = levelOffset 4 1 i + (y + x * levelHeight 1 i)) ∧
      (∀ e ∈ s.trace, ∃ a b c d, e.samples = [a, b, c, d] ∧
        e.reads.map (fun r => s.PixelsBgra[r]?) = [some a, some b, some c, some d] ∧
        s.PixelsBgra[e.write]? = some e.value ∧
        APART e.value = (APART a + APART b + APART c + APART d + 2) / 4 ∧
        RPART e.value = (RPART a + RPART b + RPART c + RPART d + 2) / 4 ∧
        GPART e.value = (GPART a + GPART b + GPART c + GPART d + 2) / 4 ∧
        BPART e.value = (BPART a + BPART b + BPART c + BPART d + 2) / 4 ∧
        APART e.value ≤ 255 ∧ RPART e.value ≤ 255 ∧ GPART e.value ≤ 255 ∧
        BPART e.value ≤ 255 ∧
        e.value = (APART e.value <<< 24) ||| (RPART e.value <<< 16) ||| (GPART e.value <<< 8)
          ||| BPART e.value ∧
        e.value < 2 ^ 32) :=
  ⟨⟨by decide, by decide, by decide⟩,
    C13_fast_average 4 1 [0, 4294967295, 0, 4294967295, 9, 9, 9] (by decide) (by decide)
      (by decide)⟩

/-- C18 (bounds of the fast path).  On a buffer sized by `CreatePixelsBgraWithMipmaps`, for
positive width and height, the run of `GenerateBgraMipmapsFast` succeeds, so no read and no
write leaves the buffer; level `i ≥ 1` is written exactly at the indices
`[off_i, off_i + w_i*h_i)`, `off_i` the sum of `w_j*h_j` over `j < i`, once each and in
order; the four indices read for an output pixel of level `i` lie in the region
`[off_(i-1), off_i)` of level `i - 1`; and the region of the last level ends at the length
of the buffer. -/
theorem C18_fast_bounds (w h : Nat) (P : List Nat) (hw : 0 < w) (hh : 0 < h)
    (hsize : mipBufferSize w h = some P.length) :
    ∃ L s, MipmapLevels w h = some L ∧ 1 ≤ L ∧ GenerateBgraMipmapsFast w h P = some s ∧
      s.PixelsBgra.length = P.length ∧
      s.trace.map (fun e => (e.level, e.write))
        = (List.range' 1 (L - 1)).flatMap (fun i =>
            (List.range' (levelOffset w h i) (levelWidth w i * levelHeight h i)).map
              fun q => (i, q)) ∧
      (∀ i q, (i, q) ∈ s.trace.map (fun e => (e.level, e.write)) ↔
        (1 ≤ i ∧ i < L ∧ levelOffset w h i ≤ q ∧
          q < levelOffset w h i + levelWidth w i * levelHeight h i)) ∧
      (∀ e ∈ s.trace, 1 ≤ e.level ∧ e.level < L ∧ e.write < P.length ∧
        e.reads =
          [levelOffset w h (e.level - 1)
              + (e.y * 2 + e.x * 2 * levelHeight h (e.level - 1)),
           levelOffset w h (e.level - 1)
              + (min ((e.y + 1) * 2) (levelHeight h (e.level - 1) - 1)
                  + e.x * 2 * levelHeight h (e.level - 1)),
           levelOffset w h (e.level - 1)
              + (e.y * 2
                  + min ((e.x + 1) * 2) (levelWidth w (e.level - 1) - 1)
                      * levelHeight h (e.level - 1)),
           levelOffset w h (e.level - 1)
              + (min ((e.y + 1) * 2) (levelHeight h (e.level - 1) - 1)
                  + min ((e.x + 1) * 2) (levelWidth w (e.level - 1) - 1)
                      * levelHeight h (e.level - 1))] ∧
        ∀ r ∈ e.reads, levelOffset w h (e.level - 1) ≤ r ∧
          r < levelOffset w h (e.level - 1)
                + levelWidth w (e.level - 1) * levelHeight h (e.level - 1) ∧
          r < P.length) ∧
      (∀ i, levelOffset w h i
        = ((List.range i).map fun j => max (w >>> j) 1 * max (h >>> j) 1).sum) ∧
      levelOffset w h (L - 1) + levelWidth w (L - 1) * levelHeight h (L - 1) = P.length := by
  obtain ⟨L, s, h1, h2, h3, h4, hinv⟩ := GenerateBgraMipmapsFast_inv w h P hw hh hsize
  have hwr : s.trace.map (fun e => (e.level, e.write)) = levelWrites w h 1 (L - 1) := by
    rw [hinv.hwrites]; simp
  refine ⟨L, s, h1, h2, h4, hinv.hlen, hwr, ?_, ?_, fun i => rfl, ?_⟩
  · intro i q
    rw [hwr, mem_levelWrites]
  · intro e he
    obtain ⟨hok, -, -, -⟩ := hinv.htrace e he
    obtain ⟨k1, k2, k3, k4, k5, k6, -⟩ := hok
    have hmem : (e.level, e.write) ∈ s.trace.map (fun e => (e.level, e.write)) :=
      List.mem_map.mpr ⟨e, he, rfl⟩
    rw [hwr, mem_levelWrites] at hmem
    have hlast : levelOffset w h (e.level + 1) ≤ levelOffset w h L :=
      levelOffset_mono w h _ _ (by omega)
    rw [levelOffset_succ] at hlast
    have hsucc : levelOffset w h (e.level - 1 + 1)
        = levelOffset w h (e.level - 1)
          + levelWidth w (e.level - 1) * levelHeight h (e.level - 1) :=
      levelOffset_succ w h (e.level - 1)
    rw [Nat.sub_add_cancel k1] at hsucc
    refine ⟨k1, hmem.2.1, by omega, k5, ?_⟩
    intro r hr
    have := k6 r hr
    exact ⟨this.1, by omega, by omega⟩
  · rw [← levelOffset_succ, Nat.sub_add_cancel h2, h3]

/-- Witness of C18 for a 4 x 1 texture and a buffer of 7 pixels. -/
theorem C18_fast_bounds_witness :
    (0 < 4 ∧ 0 < 1 ∧
      mipBufferSize 4 1 = some [0, 4294967295, 0, 4294967295, 9, 9, 9].length) ∧
    ∃ L s, MipmapLevels 4 1 = some L ∧ 1 ≤ L ∧
      GenerateBgraMipmapsFast 4 1 [0, 4294967295, 0, 4294967295, 9, 9, 9] = some s ∧
      s.PixelsBgra.length = [0, 4294967295, 0, 4294967295, 9, 9, 9].length ∧
      s.trace.map (fun e => (e.level, e.write))
        = (List.range' 1 (L - 1)).flatMap (fun i =>
            (List.range' (levelOffset 4 1 i) (levelWidth 4 i * levelHeight 1 i)).map
              fun q => (i, q)) ∧
      (∀ i q, (i, q) ∈ s.trace.map (fun e => (e.level, e.write)) ↔
        (1 ≤ i ∧ i < L ∧ levelOffset 4 1 i ≤ q ∧
          q < levelOffset 4 1 i + levelWidth 4 i * levelHeight 1 i)) ∧
      (∀ e ∈ s.trace, 1 ≤ e.level ∧ e.level < L ∧
        e.write < [0, 4294967295, 0, 4294967295, 9, 9, 9].length ∧
        e.reads =
          [levelOffset 4 1 (e.level - 1)
              + (e.y * 2 + e.x * 2 * levelHeight 1 (e.level - 1)),
           levelOffset 4 1 (e.level - 1)
              + (min ((e.y + 1) * 2) (levelHeight 1 (e.level - 1) - 1)
                  + e.x * 2 * levelHeight 1 (e.level - 1)),
           levelOffset 4 1 (e.level - 1)
              + (e.y * 2
                  + min ((e.x + 1) * 2) (levelWidth 4 (e.level - 1) - 1)
                      * levelHeight 1 (e.level - 1)),
           levelOffset 4 1 (e.level - 1)
              + (min ((e.y + 1) * 2) (levelHeight 1 (e.level - 1) - 1)
                  + min ((e.x + 1) * 2) (levelWidth 4 (e.level - 1) - 1)
                      * levelHeight 1 (e.level - 1))] ∧
        ∀ r ∈ e.reads, levelOffset 4 1 (e.level - 1) ≤ r ∧
          r < levelOffset 4 1 (e.level - 1)
                + levelWidth 4 (e.level - 1) * levelHeight 1 (e.level - 1) ∧
          r < [0, 4294967295, 0, 4294967295, 9, 9, 9].length) ∧
      (∀ i, levelOffset 4 1 i
        = ((List.range i).map fun j => max (4 >>> j) 1 * max (1 >>> j) 1).sum) ∧
      levelOffset 4 1 (L - 1) + levelWidth 4 (L - 1) * levelHeight 1 (L - 1)
        = [0, 4294967295, 0, 4294967295, 9, 9, 9].length :=
  ⟨⟨by decide, by decide, by decide⟩,
    C18_fast_bounds 4 1 [0, 4294967295, 0, 4294967295, 9, 9, 9] (by decide) (by decide)
      (by decide)⟩

/-! ### GenerateBgraMipmaps: the run succeeds and keeps level 0 -/

theorem linearPixel_step {C : Type} (ops : Color4fOps C) (P0 : List Nat) (sm src dest : Nat)
    (height x y : Nat) (hlt : x * height + y < P0.length) (s : MipmapState C)
    (hs : MipmapShape P0 sm src dest s) :
    ∃ s1, linearPixel ops height x y s = some s1 ∧ MipmapShape P0 sm src dest s1 := by
  obtain ⟨h1, h2, h3, h4, h5, h6⟩ := hs
  obtain ⟨c8, hc⟩ : ∃ c8, s.PixelsBgra[x * height + y]? = some c8 :=
    ⟨_, List.getElem?_eq_getElem (by rw [h1]; exact hlt)⟩
  refine ⟨{ PixelsBgra := s.PixelsBgra,
            image := s.image.set (x * height + y) (ops.fromBgra c8),
            smoothed := s.smoothed, src := s.src, dest := s.dest, writes := s.writes }, ?_, ?_⟩
  · simp only [linearPixel, hc]
    rw [if_pos (by rw [h3]; exact hlt)]
  · exact ⟨h1, h2, by simp [h3], h4, h5, h6⟩

theorem downscalePixel_step {C : Type} (ops : Color4fOps C) (P0 : List Nat) (sm : Nat)
    (width height i x y : Nat) (hN : levelOffset width height (i + 1 + 1) ≤ P0.length)
    (hx : x < levelWidth width (i + 1)) (hy : y < levelHeight height (i + 1))
    (s : MipmapState C)
    (hs : MipmapShape P0 sm (levelOffset width height i) (levelOffset width height (i + 1)) s) :
    ∃ s1, downscalePixel ops (levelWidth width i) (levelHeight height i)
        (levelHeight height (i + 1)) x y s = some s1 ∧
      MipmapShape P0 sm (levelOffset width height i) (levelOffset width height (i + 1)) s1 := by
  obtain ⟨h1, h2, h3, h4, h5, h6⟩ := hs
  have hxl := sampleLow_lt width i x hx
  have hyl := sampleLow_lt height i y hy
  have hxh := sampleHigh_lt x (levelWidth width i) (levelWidth_pos width i)
  have hyh := sampleHigh_lt y (levelHeight height i) (levelHeight_pos height i)
  have hmono : levelOffset width height (i + 1) ≤ P0.length :=
    le_trans (levelOffset_mono width height _ _ (by omega)) hN
  have r00 := sample_in_region width height i _ _ hxl hyl
  have r01 := sample_in_region width height i _ _ hxl hyh
  have r10 := sample_in_region width height i _ _ hxh hyl
  have r11 := sample_in_region width height i _ _ hxh hyh
  have hp := sample_in_region width height (i + 1) x y hx hy
  obtain ⟨a, g00⟩ : ∃ a, s.image[levelOffset width height i
      + (sampleLow y + sampleLow x * levelHeight height i)]? = some a :=
    ⟨_, List.getElem?_eq_getElem (by omega)⟩
  obtain ⟨b, g01⟩ : ∃ b, s.image[levelOffset width height i
      + (sampleHigh y (levelHeight height i) + sampleLow x * levelHeight height i)]? = some b :=
    ⟨_, List.getElem?_eq_getElem (by omega)⟩
  obtain ⟨c, g10⟩ : ∃ c, s.image[levelOffset width height i
      + (sampleLow y + sampleHigh x (levelWidth width i) * levelHeight height i)]? = some c :=
    ⟨_, List.getElem?_eq_getElem (by omega)⟩
  obtain ⟨d, g11⟩ : ∃ d, s.image[levelOffset width height i
      + (sampleHigh y (levelHeight height i)
          + sampleHigh x (levelWidth width i) * levelHeight height i)]? = some d :=
    ⟨_, List.getElem?_eq_getElem (by omega)⟩
  have hwlt : levelOffset width height (i + 1) + (y + x * levelHeight height (i + 1))
      < s.image.length := by omega
  refine ⟨{ PixelsBgra := s.PixelsBgra,
            image := s.image.set
              (levelOffset width height (i + 1) + (y + x * levelHeight height (i + 1)))
              (ops.mulQuarter (ops.add (ops.add (ops.add a b) c) d)),
            smoothed := s.smoothed, src := s.src, dest := s.dest, writes := s.writes }, ?_, ?_⟩
  · simp only [downscalePixel, h5, h6, g00, g01, g10, g11, hwlt, if_true]
  · exact ⟨h1, h2, by simp [h3], h4, h5, h6⟩

theorem sharpenIndex_bounds (w h x y k l : Nat) (hx : x < w) (hy : y < h) (hk : k < 3)
    (hl : l < 3) :
    0 ≤ sharpenIndex w h x y ((k : Int) - 1) ((l : Int) - 1) ∧
      (sharpenIndex w h x y ((k : Int) - 1) ((l : Int) - 1)).toNat < w * h := by
  obtain ⟨-, a2, a3⟩ := wrapCoord_eq_emod x ((k : Int) - 1) w hx (by omega)
  obtain ⟨-, b2, b3⟩ := wrapCoord_eq_emod y ((l : Int) - 1) h hy (by omega)
  have hnn : 0 ≤ wrapCoord ((x : Int) + ((k : Int) - 1)) (w : Int) * (h : Int) :=
    mul_nonneg a2 (by omega)
  have h1 : wrapCoord ((x : Int) + ((k : Int) - 1)) (w : Int) * (h : Int)
      ≤ ((w : Int) - 1) * (h : Int) :=
    mul_le_mul_of_nonneg_right (by omega) (by omega)
  have h2 : ((w : Int) - 1) * (h : Int) = ((w * h : Nat) : Int) - (h : Int) := by
    push_cast; ring
  simp only [sharpenIndex]
  constructor
  · omega
  · omega

theorem sharpenPixel_step {C : Type} (ops : Color4fOps C) (P0 : List Nat) (sm src : Nat)
    (width height i x y : Nat) (hN : levelOffset width height (i + 1) ≤ P0.length)
    (hsm : levelWidth width i * levelHeight height i ≤ sm)
    (hx : x < levelWidth width i) (hy : y < levelHeight height i) (s : MipmapState C)
    (hs : MipmapShape P0 sm src (levelOffset width height i) s) :
    ∃ s1, sharpenPixel ops (levelWidth width i) (levelHeight height i) x y s = some s1 ∧
      MipmapShape P0 sm src (levelOffset width height i) s1 := by
  obtain ⟨h1, h2, h3, h4, h5, h6⟩ := hs
  have hreg : levelOffset width height i + levelWidth width i * levelHeight height i
      ≤ P0.length := by
    rw [← levelOffset_succ]; exact hN
  have hsum : ∃ c, forLoop (fun k c => forLoop (fun l c1 =>
      sharpenSample ops (levelWidth width i) (levelHeight height i) x y s
        ((k : Int) - 1) ((l : Int) - 1) c1) 3 0 c) 3 0 ops.zero = some c ∧ True := by
    apply forLoop_inv (fun _ _ => True)
    · trivial
    · intro k c _ hk _
      apply forLoop_inv (fun _ _ => True)
      · trivial
      · intro l c1 _ hl _
        obtain ⟨b1, b2⟩ := sharpenIndex_bounds (levelWidth width i) (levelHeight height i)
          x y k l hx hy (by omega) (by omega)
        obtain ⟨v, hv⟩ : ∃ v, s.image[s.dest
            + (sharpenIndex (levelWidth width i) (levelHeight height i) x y
                ((k : Int) - 1) ((l : Int) - 1)).toNat]? = some v :=
          ⟨_, List.getElem?_eq_getElem (by rw [h6, h3]; omega)⟩
        refine ⟨ops.add c1 v, ?_, trivial⟩
        simp only [sharpenSample, b1, if_true, hv, Option.map_some']
  obtain ⟨c, hc, -⟩ := hsum
  have hcell := cell_index_lt x y _ _ hx hy
  refine ⟨{ PixelsBgra := s.PixelsBgra, image := s.image,
            smoothed := s.smoothed.set (y + x * levelHeight height i) (ops.mulNinth c),
            src := s.src, dest := s.dest, writes := s.writes }, ?_, ?_⟩
  · simp only [sharpenPixel, hc, Option.some_bind]
    rw [if_pos (by rw [h4]; omega)]
  · exact ⟨h1, h2, h3, by simp [h4], h5, h6⟩

theorem unsharpCell_step {C : Type} (ops : Color4fOps C) (P0 : List Nat) (sm src dest j : Nat)
    (hj1 : dest + j < P0.length) (hj2 : j < sm) (s : MipmapState C)
    (hs : MipmapShape P0 sm src dest s) :
    ∃ s1, unsharpCell ops j s = some s1 ∧ MipmapShape P0 sm src dest s1 := by
  obtain ⟨h1, h2, h3, h4, h5, h6⟩ := hs
  obtain ⟨d, hd⟩ : ∃ d, s.image[s.dest + j]? = some d :=
    ⟨_, List.getElem?_eq_getElem (by rw [h6, h3]; exact hj1)⟩
  obtain ⟨v, hv⟩ : ∃ v, s.smoothed[j]? = some v :=
    ⟨_, List.getElem?_eq_getElem (by rw [h4]; exact hj2)⟩
  refine ⟨{ PixelsBgra := s.PixelsBgra,
            image := s.image.set (s.dest + j) (ops.add d (ops.mulK (ops.sub d v))),
            smoothed := s.smoothed, src := s.src, dest := s.dest, writes := s.writes }, ?_, ?_⟩
  · simp only [unsharpCell, hd, hv]
  · exact ⟨h1, h2, by simp [h3], h4, h5, h6⟩

theorem level_size_le (width height i : Nat) (hw : 0 < width) (hh : 0 < height) :
    levelWidth width i * levelHeight height i ≤ width * height := by
  have h1 := levelWidth_antitone width 0 i (Nat.zero_le _)
  have h2 := levelWidth_antitone height 0 i (Nat.zero_le _)
  have e1 : levelWidth width 0 = width := by
    simp only [levelWidth, Nat.shiftRight_zero]; exact max_eq_left hw
  have e2 : levelWidth height 0 = height := by
    simp only [levelWidth, Nat.shiftRight_zero]; exact max_eq_left hh
  rw [e1] at h1
  rw [e2] at h2
  exact Nat.mul_le_mul h1 h2

theorem mipmapLevel_inv {C : Type} (ops : Color4fOps C) (P0 : List Nat)
    (width height i : Nat) (hw : 0 < width) (hh : 0 < height)
    (hN : levelOffset width height (i + 1 + 1) ≤ P0.length) (s : MipmapState C)
    (hs : MipmapShape P0 (width * height) (levelOffset width height i)
      (levelOffset width height (i + 1)) s) :
    ∃ s1, mipmapLevel ops width height (i + 1) s = some s1 ∧
      MipmapShape P0 (width * height) (levelOffset width height (i + 1))
        (levelOffset width height (i + 1 + 1)) s1 := by
  obtain ⟨s1, h1, g1⟩ := forLoop_inv
    (fun _ t => MipmapShape P0 (width * height) (levelOffset width height i)
      (levelOffset width height (i + 1)) t)
    (fun x => forLoop (fun y => downscalePixel ops (levelWidth width i) (levelHeight height i)
      (levelHeight height (i + 1)) x y) (levelHeight height (i + 1)) 0)
    (levelWidth width (i + 1)) 0 s hs
    (fun x t _ hx hP => forLoop_inv
      (fun _ t1 => MipmapShape P0 (width * height) (levelOffset width height i)
        (levelOffset width height (i + 1)) t1) _ _ 0 t hP
      (fun y t1 _ hy hP1 => downscalePixel_step ops P0 _ width height i x y hN (by omega)
        (by omega) t1 hP1))
  obtain ⟨s2, h2, g2⟩ := forLoop_inv
    (fun _ t => MipmapShape P0 (width * height) (levelOffset width height i)
      (levelOffset width height (i + 1)) t)
    (fun x => forLoop (fun y => sharpenPixel ops (levelWidth width (i + 1))
      (levelHeight height (i + 1)) x y) (levelHeight height (i + 1)) 0)
    (levelWidth width (i + 1)) 0 s1 g1
    (fun x t _ hx hP => forLoop_inv
      (fun _ t1 => MipmapShape P0 (width * height) (levelOffset width height i)
        (levelOffset width height (i + 1)) t1) _ _ 0 t hP
      (fun y t1 _ hy hP1 => sharpenPixel_step ops P0 _ _ width height (i + 1) x y hN
        (level_size_le width height (i + 1) hw hh) (by omega) (by omega) t1 hP1))
  have hreg := levelOffset_succ width height (i + 1)
  obtain ⟨s3, h3, g3⟩ := forLoop_inv
    (fun _ t => MipmapShape P0 (width * height) (levelOffset width height i)
      (levelOffset width height (i + 1)) t)
    (unsharpCell ops) (levelWidth width (i + 1) * levelHeight height (i + 1)) 0 s2 g2
    (fun j t _ hj hP => unsharpCell_step ops P0 _ _ _ j (by omega)
      (by have := level_size_le width height (i + 1) hw hh; omega) t hP)
  obtain ⟨k1, k2, k3, k4, k5, k6⟩ := g3
  refine ⟨{ PixelsBgra := s3.PixelsBgra, image := s3.image, smoothed := s3.smoothed,
            src := s3.dest,
            dest := s3.dest + levelWidth width (i + 1) * levelHeight height (i + 1),
            writes := s3.writes }, ?_, ?_⟩
  · simp only [mipmapLevel, Nat.add_sub_cancel, h1, h2, h3, Option.some_bind, Option.map_some']
  · exact ⟨k1, k2, k3, k4, k6, by simp only [k6, hreg]⟩

theorem writeBackCell_step {C : Type} (ops : Color4fOps C) (P0 : List Nat) (base off j : Nat)
    (hb : base ≤ off) (hj : off + j < P0.length) (s : MipmapState C)
    (hs : WriteBackInv P0 base off s) :
    ∃ s1, writeBackCell ops j s = some s1 ∧ WriteBackInv P0 base off s1 := by
  obtain ⟨h1, h2, h3, h4, h5, h6⟩ := hs
  obtain ⟨c, hc⟩ : ∃ c, s.image[s.src + j]? = some c :=
    ⟨_, List.getElem?_eq_getElem (by rw [h5, h4]; exact hj)⟩
  refine ⟨{ PixelsBgra := s.PixelsBgra.set (s.dest + j) (ops.toBgra c), image := s.image,
            smoothed := s.smoothed, src := s.src, dest := s.dest,
            writes := s.writes ++ [s.dest + j] }, ?_, ?_⟩
  · simp only [writeBackCell, hc]
    rw [if_pos (by rw [h6, h1]; exact hj)]
  · refine ⟨by simp [h1], ?_, ?_, h4, h5, h6⟩
    · intro q hq
      simp only
      rw [List.getElem?_set_ne (by rw [h6]; omega)]
      exact h2 q hq
    · intro q hq
      rw [List.mem_append, List.mem_singleton] at hq
      rcases hq with hq | hq
      · exact h3 q hq
      · rw [hq, h6]; exact ⟨by omega, hj⟩

theorem writeBackLevel_inv {C : Type} (ops : Color4fOps C) (P0 : List Nat)
    (width height base i : Nat) (hb : base ≤ levelOffset width height i)
    (hN : levelOffset width height (i + 1) ≤ P0.length) (s : MipmapState C)
    (hs : WriteBackInv P0 base (levelOffset width height i) s) :
    ∃ s1, writeBackLevel ops width height i s = some s1 ∧
      WriteBackInv P0 base (levelOffset width height (i + 1)) s1 := by
  have hreg := levelOffset_succ width height i
  obtain ⟨s1, h1, g1⟩ := forLoop_inv
    (fun _ t => WriteBackInv P0 base (levelOffset width height i) t)
    (writeBackCell ops) (levelWidth width i * levelHeight height i) 0 s hs
    (fun j t _ hj hP => writeBackCell_step ops P0 base _ j hb (by omega) t hP)
  obtain ⟨k1, k2, k3, k4, k5, k6⟩ := g1
  refine ⟨{ PixelsBgra := s1.PixelsBgra, image := s1.image, smoothed := s1.smoothed,
            src := s1.src + levelWidth width i * levelHeight height i,
            dest := s1.dest + levelWidth width i * levelHeight height i,
            writes := s1.writes }, ?_, ?_⟩
  · simp only [writeBackLevel, h1, Option.map_some']
  · exact ⟨k1, k2, k3, k4, by simp only [k5, hreg], by simp only [k6, hreg]⟩

/-- The run of `GenerateBgraMipmaps` on a buffer sized by `CreatePixelsBgraWithMipmaps`
succeeds, whatever the floating-point operations are, and writes the buffer from the index
`width * height` on only. -/
theorem GenerateBgraMipmaps_inv {C : Type} (ops : Color4fOps C) (w h : Nat) (P0 : List Nat)
    (hw : 0 < w) (hh : 0 < h) (hsize : mipBufferSize w h = some P0.length) :
    ∃ s, GenerateBgraMipmaps ops w h P0 = some s ∧
      WriteBackInv P0 (w * h) P0.length s := by
  have hL : 1 ≤ max (Nat.size w) (Nat.size h) :=
    le_trans (Nat.size_pos.mpr hw) (le_max_left _ _)
  have hoff : levelOffset w h (max (Nat.size w) (Nat.size h)) = P0.length := by
    rw [mipBufferSize_eq] at hsize
    exact Option.some.inj hsize
  have hone := levelOffset_one w h hw hh
  have hbase : w * h ≤ P0.length := by
    rw [← hoff, ← hone]; exact levelOffset_mono w h _ _ hL
  -- level 0 to linear colours
  obtain ⟨s1, h1, g1⟩ := forLoop_inv (fun _ t => MipmapShape P0 0 0 0 t)
    (fun x => forLoop (fun y => linearPixel ops h x y) h 0) w 0
    { PixelsBgra := P0, image := List.replicate P0.length ops.zero,
      smoothed := [], src := 0, dest := 0, writes := [] }
    ⟨rfl, rfl, by simp, rfl, rfl, rfl⟩
    (fun x t _ hx hP => forLoop_inv (fun _ t1 => MipmapShape P0 0 0 0 t1) _ _ 0 t hP
      (fun y t1 _ hy hP1 => linearPixel_step ops P0 0 0 0 h x y (by
        have := cell_index_lt x y w h (by omega) (by omega)
        omega) t1 hP1))
  obtain ⟨k1, k2, k3, -, -, -⟩ := g1
  -- the levels
  obtain ⟨s2, h2, g2⟩ := forLoop_inv
    (fun i t => MipmapShape P0 (w * h) (levelOffset w h (i - 1)) (levelOffset w h i) t)
    (mipmapLevel ops w h) (max (Nat.size w) (Nat.size h) - 1) 1
    { PixelsBgra := s1.PixelsBgra, image := s1.image,
      smoothed := List.replicate (w * h) ops.zero,
      src := 0, dest := w * h, writes := s1.writes }
    ⟨k1, k2, k3, by simp, by simp [levelOffset], by simp [hone]⟩
    (fun k t hk1 hk2 hP => by
      obtain ⟨i, rfl⟩ : ∃ i, k = i + 1 := ⟨k - 1, by omega⟩
      simp only [Nat.add_sub_cancel] at hP ⊢
      exact mipmapLevel_inv ops P0 w h i hw hh
        (by rw [← hoff]; exact levelOffset_mono w h _ _ (by omega)) t hP)
  obtain ⟨m1, m2, m3, -, -, -⟩ := g2
  -- the write-back
  obtain ⟨s3, h3, g3⟩ := forLoop_inv
    (fun i t => WriteBackInv P0 (w * h) (levelOffset w h i) t)
    (writeBackLevel ops w h) (max (Nat.size w) (Nat.size h) - 1) 1
    { PixelsBgra := s2.PixelsBgra, image := s2.image, smoothed := s2.smoothed,
      src := w * h, dest := w * h, writes := s2.writes }
    ⟨by simp [m1], by intro j _; simp [m1], by simp [m2], m3, by simp [hone], by simp [hone]⟩
    (fun k t hk1 hk2 hP => writeBackLevel_inv ops P0 w h (w * h) k
      (by rw [← hone]; exact levelOffset_mono w h _ _ hk1)
      (by rw [← hoff]; exact levelOffset_mono w h _ _ (by omega)) t hP)
  refine ⟨s3, ?_, ?_⟩
  · simp only [GenerateBgraMipmaps, MipmapLevels_eq, Option.some_bind, h1, h2, h3]
  · rw [show 1 + (max (Nat.size w) (Nat.size h) - 1) = max (Nat.size w) (Nat.size h) by omega,
      hoff] at g3
    exact g3

/-- C14 (level 0 is kept).  On a buffer sized by `CreatePixelsBgraWithMipmaps`, for positive
width and height, both `GenerateBgraMipmaps` (whatever the floating-point operations are) and
`GenerateBgraMipmapsFast` run to the end, keep the length of the true-color buffer, leave
its first `width * height` elements exactly as they were, and write only at indices
`≥ width * height` inside the buffer. -/
theorem C14_level0_kept {C : Type} (ops : Color4fOps C) (w h : Nat) (P : List Nat)
    (hw : 0 < w) (hh : 0 < h) (hsize : mipBufferSize w h = some P.length) :
    (∃ s, GenerateBgraMipmaps ops w h P = some s ∧
      s.PixelsBgra.length = P.length ∧
      (∀ j, j < w * h → s.PixelsBgra[j]? = P[j]?) ∧
      s.PixelsBgra.take (w * h) = P.take (w * h) ∧
      ∀ q ∈ s.writes, w * h ≤ q ∧ q < P.length) ∧
    (∃ s, GenerateBgraMipmapsFast w h P = some s ∧
      s.PixelsBgra.length = P.length ∧
      (∀ j, j < w * h → s.PixelsBgra[j]? = P[j]?) ∧
      s.PixelsBgra.take (w * h) = P.take (w * h) ∧
      ∀ e ∈ s.trace, w * h ≤ e.write ∧ e.write < P.length) := by
  have htake : ∀ (A : List Nat), A.length = P.length →
      (∀ j, j < w * h → A[j]? = P[j]?) → A.take (w * h) = P.take (w * h) := by
    intro A hA hf
    apply List.ext_getElem?
    intro j
    by_cases hj : j < w * h
    · rw [List.getElem?_take_of_lt hj, List.getElem?_take_of_lt hj]; exact hf j hj
    · rw [List.getElem?_eq_none (by rw [List.length_take]; omega),
        List.getElem?_eq_none (by rw [List.length_take]; omega)]
  constructor
  · obtain ⟨s, hs, k1, k2, k3, -, -, -⟩ := GenerateBgraMipmaps_inv ops w h P hw hh hsize
    exact ⟨s, hs, k1, k2, htake _ k1 k2, k3⟩
  · obtain ⟨L, s, h1, h2, h3, h4, hinv⟩ := GenerateBgraMipmapsFast_inv w h P hw hh hsize
    refine ⟨s, h4, hinv.hlen, hinv.hframe, htake _ hinv.hlen hinv.hframe, ?_⟩
    intro e he
    obtain ⟨hok, -, -, -⟩ := hinv.htrace e he
    obtain ⟨k1, k2, k3, k4, -, -, -⟩ := hok
    have hmem : (e.level, e.write) ∈ s.trace.map (fun e => (e.level, e.write)) :=
      List.mem_map.mpr ⟨e, he, rfl⟩
    have hwr : s.trace.map (fun e => (e.level, e.write)) = levelWrites w h 1 (L - 1) := by
      rw [hinv.hwrites]; simp
    rw [hwr, mem_levelWrites] at hmem
    have hone := levelOffset_one w h hw hh
    have hlo : levelOffset w h 1 ≤ levelOffset w h e.level := levelOffset_mono w h _ _ k1
    have hlast : levelOffset w h (e.level + 1) ≤ levelOffset w h L :=
      levelOffset_mono w h _ _ (by omega)
    rw [levelOffset_succ] at hlast
    constructor <;> omega

/-- Witness of C14 for a 4 x 1 texture, a buffer of 7 pixels and the instrumented colour
operations. -/
theorem C14_level0_kept_witness :
    (0 < 4 ∧ 0 < 1 ∧ mipBufferSize 4 1 = some [1, 2, 3, 4, 0, 0, 0].length) ∧
    (∃ s, GenerateBgraMipmaps sampleLog 4 1 [1, 2, 3, 4, 0, 0, 0] = some s ∧
      s.PixelsBgra.length = [1, 2, 3, 4, 0, 0, 0].length ∧
      (∀ j, j < 4 * 1 → s.PixelsBgra[j]? = [1, 2, 3, 4, 0, 0, 0][j]?) ∧
      s.PixelsBgra.take (4 * 1) = [1, 2, 3, 4, 0, 0, 0].take (4 * 1) ∧
      ∀ q ∈ s.writes, 4 * 1 ≤ q ∧ q < [1, 2, 3, 4, 0, 0, 0].length) ∧
    (∃ s, GenerateBgraMipmapsFast 4 1 [1, 2, 3, 4, 0, 0, 0] = some s ∧
      s.PixelsBgra.length = [1, 2, 3, 4, 0, 0, 0].length ∧
      (∀ j, j < 4 * 1 → s.PixelsBgra[j]? = [1, 2, 3, 4, 0, 0, 0][j]?) ∧
      s.PixelsBgra.take (4 * 1) = [1, 2, 3, 4, 0, 0, 0].take (4 * 1) ∧
      ∀ e ∈ s.trace, 4 * 1 ≤ e.write ∧ e.write < [1, 2, 3, 4, 0, 0, 0].length) :=
  ⟨⟨by decide, by decide, by decide⟩,
    C14_level0_kept sampleLog 4 1 [1, 2, 3, 4, 0, 0, 0] (by decide) (by decide) (by decide)⟩

/-- C12 (the footprint of the downsampling step).  For a 4 x 1 texture the high sample
column of the output pixel 0 of level 1 is `MIN((0 + 1) * 2, 4 - 1) = 2`, not
`min(2*0 + 1, 4 - 1) = 1`: `GenerateBgraMipmapsFast` reads the cells 0, 0, 2, 2 for that
pixel and stores the average 0 of the columns 0 and 2 (the average of the columns 0 and 1
is 2155905152), and the colour that `GenerateBgraMipmaps` stores for it in `image` is made
of the level-0 pixels of the columns 0 and 2. -/
theorem C12_high_sample_skips_column :
    sampleHigh 0 4 = 2 ∧ min (2 * 0 + 1) (4 - 1) = 1 ∧
    (GenerateBgraMipmapsFast 4 1 [0, 4294967295, 0, 4294967295, 9, 9, 9]).map
        (fun s => (s.PixelsBgra, s.trace.map fun e => (e.level, e.x, e.y, e.reads)))
      = some ([0, 4294967295, 0, 4294967295, 0, 2155905152, 1077952576],
          [(1, 0, 0, [0, 0, 2, 2]), (1, 1, 0, [2, 2, 3, 3]), (2, 0, 0, [4, 4, 5, 5])]) ∧
    averageFast 0 0 4294967295 4294967295 = 2155905152 ∧
    (GenerateBgraMipmaps sampleLog 4 1 [1, 2, 3, 4, 0, 0, 0]).bind (fun s => s.image[4]?)
      = some [1, 1, 3, 3] := by
  decide

/-! ### GetPixels and the span tables -/

theorem resizeBuffer_length (buffer : List Nat) (amount : Nat) :
    (resizeBuffer buffer amount).length = amount := by
  simp only [resizeBuffer, List.length_append, List.length_take, List.length_replicate]
  omega

/-- The run of `GetPixels` succeeds and leaves `Spandata` as it was. -/
theorem GetPixels_total (info : TextureInfo) (answers : SourceAnswers) (style : Nat)
    (t : TextureState) :
    ∃ t1, GetPixels info answers style t = some t1 ∧ t1.Spandata = t.Spandata := by
  unfold GetPixels
  by_cases hmod : t.Pixels.length = 0 ∨ answers.CheckModified style = true
  · rw [if_pos hmod]
    by_cases hsc : info.mPhysicalScale = 1
    · rw [if_pos hsc]; exact ⟨_, rfl, rfl⟩
    · rw [if_neg hsc]
      obtain ⟨p, hp, -⟩ := forLoop_inv
        (fun _ (q : List Nat) => q.length = info.width * info.height)
        (fun y => forLoop (fun x => scalePixel info answers y x) info.width 0)
        info.height 0 (resizeBuffer t.Pixels (info.width * info.height))
        (resizeBuffer_length _ _)
        (fun y q _ hy hq => forLoop_inv
          (fun _ (q1 : List Nat) => q1.length = info.width * info.height) _ _ 0 q hq
          (fun x q1 _ hx hq1 => by
            have hc := cell_index_lt x y info.width info.height (by omega) (by omega)
            refine ⟨q1.set (y + x * info.height)
              (answers.RGBToPalette (answers.CreateTexBuffer (x + y * info.width))), ?_, ?_⟩
            · simp only [scalePixel]
              rw [if_pos (by rw [hq1]; exact hc)]
            · simp [hq1]))
      exact ⟨{ Pixels := p, Spandata := t.Spandata }, by rw [hp]; rfl, rfl⟩
  · rw [if_neg hmod]; exact ⟨t, rfl, rfl⟩

/-- The buffer that `GetPixels` leaves does not depend on `Spandata`. -/
theorem GetPixels_spandata (info : TextureInfo) (answers : SourceAnswers) (style : Nat)
    (p : List Nat) (sd sd1 : List (Option SpanTable)) (t1 : TextureState)
    (h : GetPixels info answers style { Pixels := p, Spandata := sd } = some t1) :
    GetPixels info answers style { Pixels := p, Spandata := sd1 }
      = some { Pixels := t1.Pixels, Spandata := sd1 } := by
  unfold GetPixels at h ⊢
  simp only at h ⊢
  by_cases hmod : p.length = 0 ∨ answers.CheckModified style = true
  · rw [if_pos hmod] at h ⊢
    by_cases hsc : info.mPhysicalScale = 1
    · rw [if_pos hsc] at h ⊢
      cases h; rfl
    · rw [if_neg hsc] at h ⊢
      cases hq : forLoop (fun y => forLoop (fun x => scalePixel info answers y x) info.width 0)
          info.height 0 (resizeBuffer p (info.width * info.height)) with
      | none => rw [hq] at h; cases h
      | some q => rw [hq] at h; cases h; rfl
  · rw [if_neg hmod] at h ⊢
    cases h; rfl

theorem CreateSpans_total {T : Type} (tr : T → Bool) (m : Bool) (w h : Nat)
    (pixels : Nat → T) : ∃ t, CreateSpans tr m w h pixels = some t := by
  cases m with
  | true => exact ⟨_, CreateSpans_masked tr pixels w h⟩
  | false => simp [CreateSpans, storeSpan]

theorem FreeAllSpans_three (t : TextureState) (hlen : t.Spandata.length = 3) :
    (FreeAllSpans t).Spandata = [none, none, none] := by
  obtain ⟨p, sd⟩ := t
  match sd, hlen with
  | [a, b, c], _ =>
    cases a <;> cases b <;> cases c <;> rfl

/-- C15, corrected (the span table is kept).  `GetPixels` runs to the end and leaves
`Spandata` as it was, also when it replaces the buffer; so if a table `tab` was built for
the style, the next `GetColumn` with `spans_out` returns `tab` again, whatever the new
buffer holds.  The table is rebuilt from the buffer only when `Spandata[index]` is null, as
after `FreeAllSpans`, which sets the three entries to null. -/
theorem C15_span_table_kept (info : TextureInfo) (answers : SourceAnswers)
    (index column : Nat) (t : TextureState) (tab : SpanTable)
    (hlen : t.Spandata.length = 3) (hsp : t.Spandata[index]? = some (some tab)) :
    ∃ t1, GetPixels info answers index t = some t1 ∧ t1.Spandata = t.Spandata ∧
      GetColumnWithSpans info answers index column t
        = some { state := t1,
                 offset := wrapColumn info.width info.WidthMask column * info.height,
                 table := tab,
                 column := wrapColumn info.width info.WidthMask column } ∧
      (FreeAllSpans t).Pixels = t.Pixels ∧
      (FreeAllSpans t).Spandata = [none, none, none] ∧
      (¬ (info.isMasked = true ∧ t1.Pixels.length < info.width * info.height) →
        ∃ tab1, CreateSpans isTranslucent_uint8 info.isMasked info.width info.height
            (fun i => t1.Pixels.getD i 0) = some tab1 ∧
          GetColumnWithSpans info answers index column (FreeAllSpans t)
            = some { state := { Pixels := t1.Pixels,
                                Spandata := [none, none, none].set index (some tab1) },
                     offset := wrapColumn info.width info.WidthMask column * info.height,
                     table := tab1,
                     column := wrapColumn info.width info.WidthMask column }) := by
  obtain ⟨t1, h1, h2⟩ := GetPixels_total info answers index t
  have hfree := FreeAllSpans_three t hlen
  have hidx : index < 3 := by
    have := (List.getElem?_eq_some_iff.mp hsp).1
    omega
  refine ⟨t1, h1, h2, ?_, rfl, hfree, ?_⟩
  · simp only [GetColumnWithSpans, h1, Option.some_bind, h2, hsp, GetColumn]
  · intro hbuf
    obtain ⟨tab1, htab⟩ := CreateSpans_total isTranslucent_uint8 info.isMasked info.width
      info.height (fun i => t1.Pixels.getD i 0)
    refine ⟨tab1, htab, ?_⟩
    have h3 : GetPixels info answers index (FreeAllSpans t)
        = some { Pixels := t1.Pixels, Spandata := [none, none, none] } := by
      have := GetPixels_spandata info answers index t.Pixels t.Spandata [none, none, none] t1 h1
      rw [← hfree] at this ⊢
      exact this
    have h4 : ([none, none, none] : List (Option SpanTable))[index]? = some none := by
      interval_cases index <;> rfl
    simp only [GetColumnWithSpans, h3, Option.some_bind, h4, if_neg hbuf, htab,
      Option.map_some', GetColumn]

/-- Witness of C15 for a masked 1 x 1 texture whose table was built from the buffer `[1]`
and whose source then reports a modification and delivers the buffer `[0]`. -/
theorem C15_span_table_kept_witness :
    (([some { spans := [0],
              mem := [some { TopOffset := 0, Length := 1 },
                      some { TopOffset := 0, Length := 0 }] },
       none, none] : List (Option SpanTable)).length = 3 ∧
     ([some { spans := [0],
              mem := [some { TopOffset := 0, Length := 1 },
                      some { TopOffset := 0, Length := 0 }] },
       none, none] : List (Option SpanTable))[0]?
       = some (some { spans := [0],
                      mem := [some { TopOffset := 0, Length := 1 },
                              some { TopOffset := 0, Length := 0 }] })) ∧
    ∃ t1, GetPixels
        { isMasked := true, width := 1, height := 1, WidthMask := 0, mPhysicalScale := 1 }
        { CheckModified := fun _ => true, Get8BitPixels := fun _ => [0],
          CreateTexBuffer := fun _ => 0, RGBToPalette := fun c => c } 0
        { Pixels := [1],
          Spandata := [some { spans := [0],
                              mem := [some { TopOffset := 0, Length := 1 },
                                      some { TopOffset := 0, Length := 0 }] },
                       none, none] } = some t1 ∧
      t1.Spandata = [some { spans := [0],
                            mem := [some { TopOffset := 0, Length := 1 },
                                    some { TopOffset := 0, Length := 0 }] },
                     none, none] ∧
      GetColumnWithSpans
        { isMasked := true, width := 1, height := 1, WidthMask := 0, mPhysicalScale := 1 }
        { CheckModified := fun _ => true, Get8BitPixels := fun _ => [0],
          CreateTexBuffer := fun _ => 0, RGBToPalette := fun c => c } 0 0
        { Pixels := [1],
          Spandata := [some { spans := [0],
                              mem := [some { TopOffset := 0, Length := 1 },
                                      some { TopOffset := 0, Length := 0 }] },
                       none, none] }
        = some { state := t1,
                 offset := wrapColumn 1 0 0 * 1,
                 table := { spans := [0],
                            mem := [some { TopOffset := 0, Length := 1 },
                                    some { TopOffset := 0, Length := 0 }] },
                 column := wrapColumn 1 0 0 } ∧
      (FreeAllSpans
        { Pixels := [1],
          Spandata := [some { spans := [0],
                              mem := [some { TopOffset := 0, Length := 1 },
                                      some { TopOffset := 0, Length := 0 }] },
                       none, none] }).Pixels = [1] ∧
      (FreeAllSpans
        { Pixels := [1],
          Spandata := [some { spans := [0],
                              mem := [some { TopOffset := 0, Length := 1 },
                                      some { TopOffset := 0, Length := 0 }] },
                       none, none] }).Spandata = [none, none, none] ∧
      (¬ (true = true ∧ t1.Pixels.length < 1 * 1) →
        ∃ tab1, CreateSpans isTranslucent_uint8 true 1 1 (fun i => t1.Pixels.getD i 0)
            = some tab1 ∧
          GetColumnWithSpans
            { isMasked := true, width := 1, height := 1, WidthMask := 0, mPhysicalScale := 1 }
            { CheckModified := fun _ => true, Get8BitPixels := fun _ => [0],
              CreateTexBuffer := fun _ => 0, RGBToPalette := fun c => c } 0 0
            (FreeAllSpans
              { Pixels := [1],
                Spandata := [some { spans := [0],
                                    mem := [some { TopOffset := 0, Length := 1 },
                                            some { TopOffset := 0, Length := 0 }] },
                             none, none] })
            = some { state := { Pixels := t1.Pixels,
                                Spandata := [none, none, none].set 0 (some tab1) },
                     offset := wrapColumn 1 0 0 * 1,
                     table := tab1,
                     column := wrapColumn 1 0 0 }) :=
  ⟨⟨by decide, by decide⟩,
    C15_span_table_kept
      { isMasked := true, width := 1, height := 1, WidthMask := 0, mPhysicalScale := 1 }
      { CheckModified := fun _ => true, Get8BitPixels := fun _ => [0],
        CreateTexBuffer := fun _ => 0, RGBToPalette := fun c => c } 0 0
      { Pixels := [1],
        Spandata := [some { spans := [0],
                            mem := [some { TopOffset := 0, Length := 1 },
                                    some { TopOffset := 0, Length := 0 }] },
                     none, none] }
      { spans := [0],
        mem := [some { TopOffset := 0, Length := 1 }, some { TopOffset := 0, Length := 0 }] }
      (by decide) (by decide)⟩

/-- C15, counterexample.  A masked 1 x 1 texture of style 0: the first `GetColumn` fills the
cache with the buffer `[1]` and builds the table, whose column 0 reads
`[Span{0, 1}, Span{0, 0}]`.  The source then reports a modification and delivers `[0]`: the
second `GetColumn` replaces the buffer by `[0]` and returns the same table, of the same span
list, whereas the spans of the new buffer are `[Span{0, 0}]`. -/
theorem C15_stale_spans :
    (GetColumnWithSpans
        { isMasked := true, width := 1, height := 1, WidthMask := 0, mPhysicalScale := 1 }
        { CheckModified := fun _ => false, Get8BitPixels := fun _ => [1],
          CreateTexBuffer := fun _ => 0, RGBToPalette := fun c => c } 0 0
        { Pixels := [], Spandata := [none, none, none] }).bind (fun r1 =>
      (GetColumnWithSpans
        { isMasked := true, width := 1, height := 1, WidthMask := 0, mPhysicalScale := 1 }
        { CheckModified := fun _ => true, Get8BitPixels := fun _ => [0],
          CreateTexBuffer := fun _ => 0, RGBToPalette := fun c => c } 0 0 r1.state).map
        fun r2 => (r1.state.Pixels, columnSpans r1.table r1.column,
          r2.state.Pixels, columnSpans r2.table r2.column, decide (r2.table = r1.table)))
      = some ([1], some [{ TopOffset := 0, Length := 1 }, { TopOffset := 0, Length := 0 }],
          [0], some [{ TopOffset := 0, Length := 1 }, { TopOffset := 0, Length := 0 }], true) ∧
    (CreateSpans isTranslucent_uint8 true 1 1 (fun i => [0].getD i 0)).bind
        (fun tab => columnSpans tab 0)
      = some [{ TopOffset := 0, Length := 0 }] := by
  constructor
  · rfl
  · rfl

end FSoftwareTexture
